import Mathlib

/-!
Shallow embedding of the chess rules engine in `src/chess.rs` (repository
`t1h0n/rust_chess`), together with proofs settling the specification claims.

Modelling conventions, chosen to match the Rust source observably:
* `i8` coordinates are modelled by `Int`; all arithmetic in the engine stays
  far inside the `i8` range, so no wrapping is needed.
* `HashMap<Position, PieceType>` is modelled by an association list
  (`List (Position × PieceType)`) with `getB` / `removeKey` / `insertKey`
  mirroring `get` / `remove` / `insert`; a `HashMap` never holds a duplicate
  key, which is carried as a `nodupKeysB` invariant where needed.
* `HashSet<Position>` is modelled by a `List Position` whose only observation
  is membership; `insert` is modelled by `cons`, which is observationally
  equal (the engine only ever tests membership and emptiness of these sets).
* A Rust `panic!` / failed `unwrap()` is modelled by `Option`, `none` being
  the fatal outcome.  The `unwrap()` of the attacker's own square inside the
  attack generators (`board.get(&position).unwrap().get_color()`) is guarded
  at every call site by a preceding occupancy test, and is modelled by
  `colorD`, which returns an arbitrary color on the unreachable empty case.
* `HashMap` iteration order is unspecified in Rust; the embedding iterates in
  list order.  All results the engine observes (move-map entries keyed by
  distinct squares, membership in attack sets) are order-independent.
-/

inductive PieceColor where
  | Black
  | White
deriving DecidableEq

def PieceColor.get_opposite : PieceColor → PieceColor
  | .Black => .White
  | .White => .Black

inductive PieceType where
  | King (c : PieceColor)
  | Queen (c : PieceColor)
  | Bishop (c : PieceColor)
  | Knight (c : PieceColor)
  | Rook (c : PieceColor)
  | Pawn (c : PieceColor)
deriving DecidableEq

def PieceType.get_color : PieceType → PieceColor
  | .King c => c
  | .Queen c => c
  | .Bishop c => c
  | .Knight c => c
  | .Rook c => c
  | .Pawn c => c

structure Position where
  x : Int
  y : Int
deriving DecidableEq

/-- `BOARD_SIZE.contains` on both coordinates. -/
def is_valid_chess_position (p : Position) : Prop :=
  0 ≤ p.x ∧ p.x < 8 ∧ 0 ≤ p.y ∧ p.y < 8

instance (p : Position) : Decidable (is_valid_chess_position p) := by
  unfold is_valid_chess_position; infer_instance

/-- `HashMap::get`, on the association-list model. -/
def lookupA {α β : Type} [DecidableEq α] : List (α × β) → α → Option β
  | [], _ => none
  | e :: t, k => if e.1 = k then some e.2 else lookupA t k

/-- `HashMap::remove`, on the association-list model (drops every entry with
that key; a `HashMap` holds at most one). -/
def removeKeyA {α β : Type} [DecidableEq α] : List (α × β) → α → List (α × β)
  | [], _ => []
  | e :: t, k => if e.1 = k then removeKeyA t k else e :: removeKeyA t k

/-- `HashMap::insert` (replaces any existing entry with that key). -/
def insertKeyA {α β : Type} [DecidableEq α] (m : List (α × β)) (k : α) (v : β) :
    List (α × β) :=
  (k, v) :: removeKeyA m k

abbrev Board := List (Position × PieceType)

abbrev getB (b : Board) (p : Position) : Option PieceType := lookupA b p

abbrev removeKey (b : Board) (p : Position) : Board := removeKeyA b p

abbrev insertKey (b : Board) (p : Position) (v : PieceType) : Board := insertKeyA b p v

/-- The guarded `board.get(&position).unwrap().get_color()` of the attack
generators; every call site has already established occupancy of `p`. -/
def colorD (board : Board) (p : Position) : PieceColor :=
  match getB board p with
  | some piece => piece.get_color
  | none => PieceColor.White

/-- `HashSet::contains`. -/
def memB : List Position → Position → Bool
  | [], _ => false
  | q :: t, p => if q = p then true else memB t p

/-- `generate_from_points`: fixed candidate squares, skipping invalid squares
and squares occupied by a piece of the attacker's own color. -/
def generate_from_points (position : Position) (board : Board)
    (out : List Position) (attack_positions : List Position) : List Position :=
  attack_positions.foldl (fun acc ap =>
    if is_valid_chess_position ap then
      match getB board ap with
      | some piece => if piece.get_color = colorD board position then acc else ap :: acc
      | none => ap :: acc
    else acc) out

/-- The loop body of `generate_generic_chunk`: walk the ray outward, stopping
at the board edge or the first occupied square (which is included exactly when
it holds an opposing piece). -/
def chunkWalk (position : Position) (board : Board) (gen : Position → Int → Position)
    (c : PieceColor) : List Int → List Position → List Position
  | [], out => out
  | i :: rest, out =>
    let attack_pos := gen position i
    if is_valid_chess_position attack_pos then
      match getB board attack_pos with
      | some piece => if piece.get_color ≠ c then attack_pos :: out else out
      | none => chunkWalk position board gen c rest (attack_pos :: out)
    else out

/-- `for i in BOARD_SIZE`. -/
def chunkIdx : List Int := [0, 1, 2, 3, 4, 5, 6, 7]

def generate_generic_chunk (position : Position) (board : Board)
    (out : List Position) (gen : Position → Int → Position) : List Position :=
  chunkWalk position board gen (colorD board position) chunkIdx out

def generate_vertical_horizontal (position : Position) (board : Board)
    (out : List Position) : List Position :=
  let out := generate_generic_chunk position board out (fun pos x => ⟨pos.x - x - 1, pos.y⟩)
  let out := generate_generic_chunk position board out (fun pos x => ⟨pos.x + x + 1, pos.y⟩)
  let out := generate_generic_chunk position board out (fun pos x => ⟨pos.x, pos.y + x + 1⟩)
  generate_generic_chunk position board out (fun pos x => ⟨pos.x, pos.y - x - 1⟩)

def generate_cross (position : Position) (board : Board)
    (out : List Position) : List Position :=
  let out := generate_generic_chunk position board out (fun pos x => ⟨pos.x - x - 1, pos.y - x - 1⟩)
  let out := generate_generic_chunk position board out (fun pos x => ⟨pos.x + x + 1, pos.y + x + 1⟩)
  let out := generate_generic_chunk position board out (fun pos x => ⟨pos.x - x - 1, pos.y + x + 1⟩)
  generate_generic_chunk position board out (fun pos x => ⟨pos.x + x + 1, pos.y - x - 1⟩)

/-- The `(i, j)` pairs of the double loop in `generate_squares_under_attack_king`,
in loop order, with `(0, 0)` skipped. -/
def kingOffsets : List (Int × Int) :=
  [(-1, -1), (-1, 0), (-1, 1), (0, -1), (0, 1), (1, -1), (1, 0), (1, 1)]

/-- `generate_squares_under_attack_king`: the double loop performs, square by
square, exactly the accumulation of `generate_from_points` (validity check,
friendly-occupancy skip against the hoisted own color, insert) over the eight
offset squares in loop order. -/
def generate_squares_under_attack_king (board : Board) (position : Position)
    (out : List Position) : List Position :=
  generate_from_points position board out
    (kingOffsets.map (fun ij => Position.mk (position.x + ij.1) (position.y + ij.2)))

def generate_squares_under_attack_queen (board : Board) (position : Position)
    (out : List Position) : List Position :=
  generate_vertical_horizontal position board (generate_cross position board out)

def generate_squares_under_attack_bishop (board : Board) (position : Position)
    (out : List Position) : List Position :=
  generate_cross position board out

def knightPoints (position : Position) : List Position :=
  [⟨position.x - 2, position.y + 1⟩, ⟨position.x - 2, position.y - 1⟩,
   ⟨position.x + 2, position.y + 1⟩, ⟨position.x + 2, position.y - 1⟩,
   ⟨position.x + 1, position.y - 2⟩, ⟨position.x + 1, position.y + 2⟩,
   ⟨position.x - 1, position.y - 2⟩, ⟨position.x - 1, position.y + 2⟩]

def generate_squares_under_attack_knight (board : Board) (position : Position)
    (out : List Position) : List Position :=
  generate_from_points position board out (knightPoints position)

def generate_squares_under_attack_rook (board : Board) (position : Position)
    (out : List Position) : List Position :=
  generate_vertical_horizontal position board out

/-- The two forward-diagonal candidate squares of a pawn of color `c`. -/
def pawnAttackPoints (c : PieceColor) (position : Position) : List Position :=
  match c with
  | .White => [⟨position.x - 1, position.y + 1⟩, ⟨position.x + 1, position.y + 1⟩]
  | .Black => [⟨position.x - 1, position.y - 1⟩, ⟨position.x + 1, position.y - 1⟩]

def generate_squares_under_attack_pawn (board : Board) (position : Position)
    (out : List Position) : List Position :=
  generate_from_points position board out (pawnAttackPoints (colorD board position) position)

structure Castling where
  king_side : Bool
  queen_side : Bool
deriving DecidableEq

abbrev CastlingMap := List (PieceColor × Castling)

abbrev getC (m : CastlingMap) (c : PieceColor) : Option Castling := lookupA m c

abbrev removeKeyC (m : CastlingMap) (c : PieceColor) : CastlingMap := removeKeyA m c

/-- `castling.get_mut(..)` followed by a field update. -/
def modifyC (m : CastlingMap) (c : PieceColor) (f : Castling → Castling) : CastlingMap :=
  m.map (fun e => if e.1 = c then (e.1, f e.2) else e)

structure GameData where
  board : Board
  castling : CastlingMap
  can_move_2_squares : List Position
  to_move : PieceColor
  moved_2_squares : Option Position

/-- `HashSet::remove` on `can_move_2_squares`. -/
def removeP : List Position → Position → List Position
  | [], _ => []
  | q :: t, p => if q = p then removeP t p else q :: removeP t p

def generate_moves_pawn (game_data : GameData) (position : Position)
    (out : List Position) : List Position :=
  let mt : Position × Position :=
    match colorD game_data.board position with
    | .White => (⟨position.x, position.y + 1⟩, ⟨position.x, position.y + 2⟩)
    | .Black => (⟨position.x, position.y - 1⟩, ⟨position.x, position.y - 2⟩)
  let move_pos := mt.1
  let two_squares := mt.2
  let out := if getB game_data.board move_pos = none then move_pos :: out else out
  let out :=
    if position ∈ game_data.can_move_2_squares ∧ getB game_data.board two_squares = none
        ∧ getB game_data.board move_pos = none then
      two_squares :: out
    else out
  let attack_squares := generate_squares_under_attack_pawn game_data.board position []
  attack_squares.foldl (fun acc a =>
    if (getB game_data.board a).isSome then a :: acc else acc) out

def generate_squares_under_attack_for_position (board : Board) (position : Position)
    (out : List Position) : List Position :=
  match getB board position with
  | some piece =>
    match piece with
    | .King _ => generate_squares_under_attack_king board position out
    | .Queen _ => generate_squares_under_attack_queen board position out
    | .Bishop _ => generate_squares_under_attack_bishop board position out
    | .Knight _ => generate_squares_under_attack_knight board position out
    | .Rook _ => generate_squares_under_attack_rook board position out
    | .Pawn _ => generate_squares_under_attack_pawn board position out
  | none => out

def generate_default_moves (game_data : GameData) (position : Position)
    (out : List Position) : List Position :=
  match getB game_data.board position with
  | some (.Pawn _) => generate_moves_pawn game_data position out
  | some _ => generate_squares_under_attack_for_position game_data.board position out
  | none => out

def generate_squares_under_attack_for_side (board : Board) (to_move : PieceColor)
    (out : List Position) : List Position :=
  board.foldl (fun acc e =>
    if e.2.get_color = to_move then
      generate_squares_under_attack_for_position board e.1 acc
    else acc) out

abbrev KingMap := List (PieceColor × Position)

abbrev getK (m : KingMap) (c : PieceColor) : Option Position := lookupA m c

abbrev insertKeyK (m : KingMap) (c : PieceColor) (p : Position) : KingMap :=
  insertKeyA m c p

/-- `collect_kings`: filter the kings and collect into a color-keyed map
(later entries of the iteration overwrite earlier ones). -/
def collect_kings (board : Board) : KingMap :=
  board.foldl (fun acc e =>
    match e.2 with
    | .King _ => insertKeyK acc e.2.get_color e.1
    | _ => acc) []

/-- `verify_board`; `none` models the panic of
`collect_kings(..).get(&to_move).unwrap()` when the mover's king is absent. -/
def verify_board (to_move : PieceColor) (new_board : Board) : Option Bool :=
  match getK (collect_kings new_board) to_move with
  | none => none
  | some king =>
    some (!(memB (generate_squares_under_attack_for_side new_board
      to_move.get_opposite []) king))

/-- `try_make_move`; `none` models the panic of `remove(&start).unwrap()`. -/
def try_make_move (game_data : GameData) (start stop : Position) : Option Bool :=
  match getB game_data.board start with
  | none => none
  | some moving_piece =>
    verify_board game_data.to_move
      (insertKey (removeKey game_data.board start) stop moving_piece)

abbrev Moves := List (Position × List Position)

abbrev getM (ms : Moves) (p : Position) : Option (List Position) := lookupA ms p

/-- `moves.insert(k, v)`. -/
abbrev movesInsert (ms : Moves) (k : Position) (v : List Position) : Moves :=
  insertKeyA ms k v

/-- `moves.get_mut(&k)` + `insert(v)`, or a fresh singleton entry. -/
def movesAdd (moves : Moves) (k v : Position) : Moves :=
  match getM moves k with
  | some _ => moves.map (fun e => if e.1 = k then (e.1, v :: e.2) else e)
  | none => (k, [v]) :: moves

/-- The inner loop of `generate_normal_default_moves`: keep the pseudo-legal
moves that survive `try_make_move`; `none` propagates a panic. -/
def filterValidMoves (game_data : GameData) (piece_pos : Position) :
    List Position → Option (List Position)
  | [] => some []
  | m :: rest =>
    match try_make_move game_data piece_pos m with
    | none => none
    | some ok =>
      match filterValidMoves game_data piece_pos rest with
      | none => none
      | some valid => some (if ok then m :: valid else valid)

/-- One iteration of the piece loop of `generate_normal_default_moves`. -/
def normal_piece_step (game_data : GameData) (acc : Option Moves)
    (e : Position × PieceType) : Option Moves :=
  match acc with
  | none => none
  | some ms =>
    if e.2.get_color ≠ game_data.to_move then some ms
    else
      match filterValidMoves game_data e.1 (generate_default_moves game_data e.1 []) with
      | none => none
      | some valid_moves =>
        some (if valid_moves = [] then ms else movesInsert ms e.1 valid_moves)

def generate_normal_default_moves (game_data : GameData) (moves : Moves) : Option Moves :=
  game_data.board.foldl (normal_piece_step game_data) (some moves)

/-- The board on which `generate_en_passant_moves` simulates an en passant
capture: target pawn removed, capturing pawn relocated.  `none` models the
panic of `new_board.remove(&pawn_that_might_capture).unwrap()`. -/
def ep_capture_board (board : Board) (moved_2_squares cand move_pos : Position) :
    Option Board :=
  let new_board := removeKey board moved_2_squares
  match getB new_board cand with
  | none => none
  | some moving_pawn => some (insertKey (removeKey new_board cand) move_pos moving_pawn)

/-- One iteration of the candidate loop of `generate_en_passant_moves`.  The
inner `Pawn` pattern binding of the source shadows the outer `color` and is
never used; only the pawn-ness of the candidate square is tested. -/
def ep_candidate_step (game_data : GameData) (moved_2_squares : Position)
    (opposite : PieceColor) (y_modifier : Int) (acc : Option Moves)
    (cand : Position) : Option Moves :=
  match acc with
  | none => none
  | some ms =>
    if is_valid_chess_position cand then
      match getB game_data.board cand with
      | some (.Pawn _) =>
        if opposite = game_data.to_move then
          let move_pos : Position := ⟨moved_2_squares.x, cand.y + y_modifier⟩
          match ep_capture_board game_data.board moved_2_squares cand move_pos with
          | none => none
          | some new_board =>
            match verify_board game_data.to_move new_board with
            | none => none
            | some ok => some (if ok then movesAdd ms cand move_pos else ms)
        else some ms
      | _ => some ms
    else some ms

def generate_en_passant_moves (game_data : GameData) (moves : Moves) : Option Moves :=
  match game_data.moved_2_squares with
  | none => some moves
  | some moved_2_squares =>
    match getB game_data.board moved_2_squares with
    | some (.Pawn color) =>
      [Position.mk (moved_2_squares.x - 1) moved_2_squares.y,
       Position.mk (moved_2_squares.x + 1) moved_2_squares.y].foldl
        (ep_candidate_step game_data moved_2_squares color.get_opposite
          (if game_data.to_move = .White then 1 else -1)) (some moves)
    | _ => some moves

def castling_common (board : Board) (king_pos _rook_pos final_king_pos
    _final_rook_pos : Position) (must_be_empty must_not_be_attacked : List Position)
    (attack_squares : List Position) (moves : Moves) : Moves :=
  if must_be_empty.any (fun pos => (getB board pos).isSome)
      || must_not_be_attacked.any (fun pos => memB attack_squares pos) then
    moves
  else movesAdd moves king_pos final_king_pos

def generate_castling_moves (game_data : GameData) (moves : Moves) : Option Moves :=
  match getC game_data.castling game_data.to_move with
  | none => some moves
  | some castling =>
    match getK (collect_kings game_data.board) game_data.to_move with
    | none => none
    | some king_pos =>
      let attack_squares :=
        generate_squares_under_attack_for_side game_data.board
          game_data.to_move.get_opposite []
      if memB attack_squares king_pos then some moves
      else
        let moves :=
          if castling.king_side then
            let move_path : List Position := [⟨6, king_pos.y⟩, ⟨5, king_pos.y⟩]
            castling_common game_data.board king_pos ⟨7, king_pos.y⟩ ⟨6, king_pos.y⟩
              ⟨5, king_pos.y⟩ move_path move_path attack_squares moves
          else moves
        let moves :=
          if castling.queen_side then
            let move_path : List Position := [⟨1, king_pos.y⟩, ⟨2, king_pos.y⟩, ⟨3, king_pos.y⟩]
            castling_common game_data.board king_pos ⟨7, king_pos.y⟩ ⟨2, king_pos.y⟩
              ⟨3, king_pos.y⟩ move_path move_path.tail attack_squares moves
          else moves
        some moves

def generate_moves (game_data : GameData) : Option Moves :=
  match generate_normal_default_moves game_data [] with
  | none => none
  | some m1 =>
    match generate_en_passant_moves game_data m1 with
    | none => none
    | some m2 => generate_castling_moves game_data m2

def postprocess_move (game_data : GameData) (start stop : Position) :
    Option (GameData × Option Position) :=
  match getB game_data.board start with
  | none => none
  | some moving_piece =>
    let board := removeKey game_data.board start
    match moving_piece with
    | .King _ =>
      let castling := removeKeyC game_data.castling game_data.to_move
      if (start.x - stop.x).natAbs = 2 then
        if stop.x = 6 then
          match getB board ⟨7, stop.y⟩ with
          | none => none
          | some rook =>
            let board := insertKey (removeKey board ⟨7, stop.y⟩) ⟨stop.x - 1, stop.y⟩ rook
            some ({ game_data with
                      board := insertKey board stop moving_piece
                      castling := castling
                      moved_2_squares := none
                      to_move := game_data.to_move.get_opposite }, none)
        else
          match getB board ⟨0, stop.y⟩ with
          | none => none
          | some rook =>
            let board := insertKey (removeKey board ⟨0, stop.y⟩) ⟨stop.x + 1, stop.y⟩ rook
            some ({ game_data with
                      board := insertKey board stop moving_piece
                      castling := castling
                      moved_2_squares := none
                      to_move := game_data.to_move.get_opposite }, none)
      else
        some ({ game_data with
                  board := insertKey board stop moving_piece
                  castling := castling
                  moved_2_squares := none
                  to_move := game_data.to_move.get_opposite }, none)
    | .Rook _ =>
      let castling :=
        match getC game_data.castling moving_piece.get_color with
        | some _ =>
          if start.x = 0 then
            modifyC game_data.castling moving_piece.get_color
              (fun c => { c with queen_side := false })
          else
            modifyC game_data.castling moving_piece.get_color
              (fun c => { c with king_side := false })
        | none => game_data.castling
      some ({ game_data with
                board := insertKey board stop moving_piece
                castling := castling
                moved_2_squares := none
                to_move := game_data.to_move.get_opposite }, none)
    | .Pawn _ =>
      let can2 := removeP game_data.can_move_2_squares start
      let board2 :=
        match game_data.moved_2_squares with
        | some en_passant =>
          if en_passant.x = stop.x ∧ start.y = en_passant.y then removeKey board en_passant
          else board
        | none => board
      let m2 : Option Position :=
        match game_data.moved_2_squares with
        | some _ => none
        | none => if (start.y - stop.y).natAbs = 2 then some stop else none
      let to_be_promoted : Option Position :=
        if stop.y = 0 ∨ stop.y = 7 then some stop else none
      some ({ game_data with
                board := insertKey board2 stop moving_piece
                can_move_2_squares := can2
                moved_2_squares := m2
                to_move := game_data.to_move.get_opposite }, to_be_promoted)
    | _ =>
      some ({ game_data with
                board := insertKey board stop moving_piece
                moved_2_squares := none
                to_move := game_data.to_move.get_opposite }, none)

/-- `place_pieces` for one side: the back rank and the pawn rank, with the
pawn squares added to `can_move_2_squares`.  All 16 inserted keys are
distinct, so the `HashMap` insertions are modelled by a list literal. -/
def place_pieces (side : PieceColor) : Board × List Position :=
  let y : Int := if side = .Black then 7 else 0
  let py : Int := if side = .Black then 6 else 1
  ([(⟨0, y⟩, .Rook side), (⟨1, y⟩, .Knight side), (⟨2, y⟩, .Bishop side),
    (⟨3, y⟩, .Queen side), (⟨4, y⟩, .King side), (⟨5, y⟩, .Bishop side),
    (⟨6, y⟩, .Knight side), (⟨7, y⟩, .Rook side),
    (⟨0, py⟩, .Pawn side), (⟨1, py⟩, .Pawn side), (⟨2, py⟩, .Pawn side),
    (⟨3, py⟩, .Pawn side), (⟨4, py⟩, .Pawn side), (⟨5, py⟩, .Pawn side),
    (⟨6, py⟩, .Pawn side), (⟨7, py⟩, .Pawn side)],
   [⟨0, py⟩, ⟨1, py⟩, ⟨2, py⟩, ⟨3, py⟩, ⟨4, py⟩, ⟨5, py⟩, ⟨6, py⟩, ⟨7, py⟩])

/-- `GameData::default()`: the standard 32-piece setup, full castling rights,
White to move, no en passant target. -/
def default_game_data : GameData :=
  let w := place_pieces .White
  let b := place_pieces .Black
  { board := w.1 ++ b.1
    castling := [(.White, ⟨true, true⟩), (.Black, ⟨true, true⟩)]
    can_move_2_squares := w.2 ++ b.2
    to_move := .White
    moved_2_squares := none }

/-- Membership of a destination under an origin key in an optional move map. -/
def memMovesO (om : Option Moves) (o d : Position) : Bool :=
  match om with
  | none => false
  | some ms =>
    match getM ms o with
    | none => false
    | some l => memB l d

/-- The states the engine itself can produce: the initial state, and the
result of committing a generated move.  (Promotion resolution is a direct
board edit performed by the UI layer outside `chess.rs`, not an engine
operation.) -/
inductive Reachable : GameData → Prop where
  | init : Reachable default_game_data
  | step {s : GameData} {o d : Position} {s' : GameData} {pr : Option Position} :
      Reachable s → memMovesO (generate_moves s) o d = true →
      postprocess_move s o d = some (s', pr) → Reachable s'

/-- Both kings present, as observed through `collect_kings`. -/
def bothKingsB (gd : GameData) : Bool :=
  (getK (collect_kings gd.board) .White).isSome &&
    (getK (collect_kings gd.board) .Black).isSome

/-- The keys of an association list are pairwise distinct; every `HashMap`
satisfies this. -/
def nodupKeysA {α β : Type} (m : List (α × β)) : Prop := (m.map Prod.fst).Nodup

abbrev nodupKeysB (b : Board) : Prop := nodupKeysA b

def countKings : Board → PieceColor → Nat
  | [], _ => 0
  | e :: t, c => (if e.2 = PieceType.King c then 1 else 0) + countKings t c

/-- The `y_modifier` of the en passant generator for the given side to move. -/
def ymod (c : PieceColor) : Int :=
  if c = PieceColor.White then 1 else -1

/-- The square a double-stepping pawn skipped, seen from the successor state
(whose side to move is the opponent of the pawn's owner). -/
def skippedSquare (t : Position) (c : PieceColor) : Position :=
  ⟨t.x, t.y + ymod c⟩

/-- Whether the origin square holds a pawn (of either color). -/
def holdsPawn (b : Board) (p : Position) : Bool :=
  match getB b p with
  | some (.Pawn _) => true
  | _ => false

/-- A move has the en passant shape: the en passant target is set, the origin
holds a pawn horizontally adjacent to the target on the target's rank, and the
destination is the square behind the target in the mover's direction. -/
def epShape (gd : GameData) (o d : Position) : Bool :=
  match gd.moved_2_squares with
  | none => false
  | some t =>
    holdsPawn gd.board o && decide (o.y = t.y) &&
      (decide (o.x = t.x - 1) || decide (o.x = t.x + 1)) &&
      decide (d = (⟨t.x, o.y + ymod gd.to_move⟩ : Position))

/-- The simulation named by the (amended) claim C1: an en-passant-shaped move
is simulated exactly as the en passant generator simulates it (captured pawn
also removed); every other move is simulated as remove-at-origin /
place-at-destination, which is `try_make_move`. -/
def claimSim (gd : GameData) (o d : Position) : Option Bool :=
  if epShape gd o d then
    match gd.moved_2_squares with
    | none => none
    | some t =>
      match ep_capture_board gd.board t o d with
      | none => none
      | some b => verify_board gd.to_move b
  else try_make_move gd o d

/-- The internal invariant carried by every engine-reachable state: the board
map has no duplicate keys, at most one king of each color, and the square
behind a recorded en passant target (in the capturing side's direction) is
empty. -/
def StateInv (s : GameData) : Prop :=
  nodupKeysB s.board ∧
  (∀ c, countKings s.board c ≤ 1) ∧
  (∀ t, s.moved_2_squares = some t →
    getB s.board (skippedSquare t s.to_move) = none)

/-- The point at distance `k` from `p` along direction `d`. -/
def rayPos (p : Position) (d : Int × Int) (k : Int) : Position :=
  ⟨p.x + k * d.1, p.y + k * d.2⟩

/-- The ray directions walked by `generate_vertical_horizontal`, in call
order. -/
def rookDirs : List (Int × Int) := [(-1, 0), (1, 0), (0, 1), (0, -1)]

/-- The ray directions walked by `generate_cross`, in call order. -/
def bishopDirs : List (Int × Int) := [(-1, -1), (1, 1), (-1, 1), (1, -1)]

/-- A square hit by one ray walk of `generate_generic_chunk` from `p` in
direction `d` against an attacker of color `c`: it lies at some distance
`k ∈ [1, 8]` along the ray, every strictly closer ray square is valid and
empty, it is valid itself, and it is empty or occupied by a non-`c` piece. -/
def ChunkHit (board : Board) (c : PieceColor) (p : Position) (d : Int × Int)
    (q : Position) : Prop :=
  ∃ k : Nat, 1 ≤ k ∧ k ≤ 8 ∧
    (∀ j : Nat, 1 ≤ j → j < k →
      is_valid_chess_position (rayPos p d j) ∧ getB board (rayPos p d j) = none) ∧
    q = rayPos p d k ∧ is_valid_chess_position q ∧
    (getB board q = none ∨ ∃ piece, getB board q = some piece ∧ piece.get_color ≠ c)

/-- The list `[a, a+1, ..., a+n-1]` of loop indices, as `Int`s. -/
def segList (a : Nat) : Nat → List Int
  | 0 => []
  | n + 1 => (a : Int) :: segList (a + 1) n

/-- The last entry of the iteration holding a king of color `c` (the entry
that survives in `collect_kings`, whose `collect` overwrites earlier ones). -/
def lastKing : Board → PieceColor → Option Position
  | [], _ => none
  | e :: t, c =>
    match lastKing t c with
    | some p => some p
    | none =>
      match e.2 with
      | .King c' => if c' = c then some e.1 else none
      | _ => none

/-- `(o, d)` is a move of the move map `ms`. -/
def inMoves (ms : Moves) (o d : Position) : Prop :=
  ∃ l, getM ms o = some l ∧ d ∈ l

/-- The opponent's side-wide attack set, as the castling generator computes
it. -/
def attackSideL (gd : GameData) : List Position :=
  generate_squares_under_attack_for_side gd.board gd.to_move.get_opposite []

/-- The one-square-forward square of a pawn of color `c`. -/
def pawnFwd (c : PieceColor) (p : Position) : Position :=
  match c with
  | .White => ⟨p.x, p.y + 1⟩
  | .Black => ⟨p.x, p.y - 1⟩

/-- The two-squares-forward square of a pawn of color `c`. -/
def pawnFwd2 (c : PieceColor) (p : Position) : Position :=
  match c with
  | .White => ⟨p.x, p.y + 2⟩
  | .Black => ⟨p.x, p.y - 2⟩

/-- The ray directions of each sliding piece (empty for non-sliders). -/
def slidingDirs : PieceType → List (Int × Int)
  | .Rook _ => rookDirs
  | .Bishop _ => bishopDirs
  | .Queen _ => bishopDirs ++ rookDirs
  | _ => []

/-- The exact conditions under which `generate_normal_default_moves` adds the
pair `(o, d)`: `o` holds a piece of the side to move, `d` is one of its
pseudo-legal destinations, and the remove/place simulation keeps the mover's
king safe. -/
def NormalAdded (gd : GameData) (o d : Position) : Prop :=
  ∃ pt, (o, pt) ∈ gd.board ∧ pt.get_color = gd.to_move ∧
    d ∈ generate_default_moves gd o [] ∧ try_make_move gd o d = some true

/-- The exact conditions under which `generate_en_passant_moves` adds the pair
`(o, d)`. -/
def EpAdded (gd : GameData) (o d : Position) : Prop :=
  ∃ t pc, gd.moved_2_squares = some t ∧ getB gd.board t = some (.Pawn pc) ∧
    (o = ⟨t.x - 1, t.y⟩ ∨ o = ⟨t.x + 1, t.y⟩) ∧ is_valid_chess_position o ∧
    (∃ pc2, getB gd.board o = some (.Pawn pc2)) ∧
    pc.get_opposite = gd.to_move ∧ d = ⟨t.x, o.y + ymod gd.to_move⟩ ∧
    ∃ b, ep_capture_board gd.board t o d = some b ∧
      verify_board gd.to_move b = some true

/-- The exact conditions under which `generate_castling_moves` adds the pair
`(o, d)`. -/
def CastleAdded (gd : GameData) (o d : Position) : Prop :=
  ∃ castling king_pos,
    getC gd.castling gd.to_move = some castling ∧
    getK (collect_kings gd.board) gd.to_move = some king_pos ∧
    o = king_pos ∧ memB (attackSideL gd) king_pos = false ∧
    ((castling.king_side = true ∧ d = ⟨6, king_pos.y⟩ ∧
       getB gd.board ⟨6, king_pos.y⟩ = none ∧ getB gd.board ⟨5, king_pos.y⟩ = none ∧
       memB (attackSideL gd) ⟨6, king_pos.y⟩ = false ∧
       memB (attackSideL gd) ⟨5, king_pos.y⟩ = false) ∨
     (castling.queen_side = true ∧ d = ⟨2, king_pos.y⟩ ∧
       getB gd.board ⟨1, king_pos.y⟩ = none ∧ getB gd.board ⟨2, king_pos.y⟩ = none ∧
       getB gd.board ⟨3, king_pos.y⟩ = none ∧
       memB (attackSideL gd) ⟨2, king_pos.y⟩ = false ∧
       memB (attackSideL gd) ⟨3, king_pos.y⟩ = false))

/-! ### Frame of `postprocess_move` -/

/-- The board squares `postprocess_move` may touch: origin and destination,
plus the rook's origin and landing squares of a two-file king move, plus the
recorded en passant target when a pawn move matches the capture condition. -/
def changedSquares (gd : GameData) (start stop : Position) : List Position :=
  match getB gd.board start with
  | none => []
  | some mp =>
    match mp with
    | .King _ =>
      if (start.x - stop.x).natAbs = 2 then
        if stop.x = 6 then
          [start, stop, ⟨7, stop.y⟩, ⟨stop.x - 1, stop.y⟩]
        else
          [start, stop, ⟨0, stop.y⟩, ⟨stop.x + 1, stop.y⟩]
      else [start, stop]
    | .Pawn _ =>
      match gd.moved_2_squares with
      | some t => if t.x = stop.x ∧ start.y = t.y then [start, stop, t] else [start, stop]
      | none => [start, stop]
    | _ => [start, stop]

/-- The successor state of a committed move (identity when the commit is
fatal); lets concrete games be written as iterated applications. -/
def stepGD (s : GameData) (o d : Position) : GameData :=
  match postprocess_move s o d with
  | some r => r.1
  | none => s

/-- The promotion-square report of a committed move. -/
def prGD (s : GameData) (o d : Position) : Option Position :=
  match postprocess_move s o d with
  | some r => r.2
  | none => none

/-! ### Concrete states for the claim records -/

/-- C2 failing input: White to move, en passant target held by a Black pawn,
and a second Black pawn horizontally adjacent to it. -/
def c2s : GameData :=
  { board := [(⟨0, 0⟩, .King .White), (⟨4, 4⟩, .Pawn .Black), (⟨3, 4⟩, .Pawn .Black),
      (⟨7, 7⟩, .King .Black)]
    castling := []
    can_move_2_squares := []
    to_move := .White
    moved_2_squares := some ⟨4, 4⟩ }

/-- C3 failing input: a White pawn about to double-step while the previous
ply's en passant target is still recorded. -/
def c3s : GameData :=
  { board := [(⟨3, 1⟩, .Pawn .White), (⟨0, 4⟩, .Pawn .Black)]
    castling := []
    can_move_2_squares := [⟨3, 1⟩]
    to_move := .White
    moved_2_squares := some ⟨0, 4⟩ }

/-- C4 failing input: a rook on file 3 with both castling rights intact. -/
def c4s : GameData :=
  { board := [(⟨3, 3⟩, .Rook .White)]
    castling := [(.White, ⟨true, true⟩)]
    can_move_2_squares := []
    to_move := .White
    moved_2_squares := none }

/-- C5 counterexample board: a White pawn whose forward diagonal holds a
White knight. -/
def c5b : Board := [(⟨1, 1⟩, .Pawn .White), (⟨0, 2⟩, .Knight .White)]

/-- C6 witness state: a bare White kingside-castling position. -/
def c6s : GameData :=
  { board := [(⟨4, 0⟩, .King .White), (⟨7, 0⟩, .Rook .White), (⟨4, 7⟩, .King .Black)]
    castling := [(.White, ⟨true, true⟩)]
    can_move_2_squares := []
    to_move := .White
    moved_2_squares := none }

/-- The move map of `c6s`. -/
def c6m : Moves :=
  match generate_moves c6s with
  | some mm => mm
  | none => []

/-- C7 witness board: a White rook with a Black pawn three squares up its
file. -/
def c7b : Board := [(⟨0, 0⟩, .Rook .White), (⟨0, 3⟩, .Pawn .Black)]

/-- C9 witness state: a rook move that leaves `can_move_2_squares` alone. -/
def c9s : GameData :=
  { board := [(⟨0, 1⟩, .Pawn .White), (⟨3, 3⟩, .Rook .White)]
    castling := [(.White, ⟨true, true⟩)]
    can_move_2_squares := [⟨0, 1⟩]
    to_move := .White
    moved_2_squares := none }

/-- C10 counterexample state: a king two files from its destination with a
rook on the queenside home square. -/
def c10s : GameData :=
  { board := [(⟨1, 0⟩, .King .White), (⟨0, 0⟩, .Rook .White)]
    castling := []
    can_move_2_squares := []
    to_move := .White
    moved_2_squares := none }

/-- The game `1. f4 a6 2. Kf2 a5 3. f5 h6 4. Kf3 h5 5. Kf4 e5+` (spelled out
state by state, as the move applier computes them), after which the en
passant capture `f5xe6` is generated while the plain remove/place simulation
leaves the White king in check from the pawn on e5. -/
def c1s1 : GameData :=
  { board := [(⟨5, 3⟩, .Pawn .White),
      (⟨0, 0⟩, .Rook .White),
      (⟨1, 0⟩, .Knight .White),
      (⟨2, 0⟩, .Bishop .White),
      (⟨3, 0⟩, .Queen .White),
      (⟨4, 0⟩, .King .White),
      (⟨5, 0⟩, .Bishop .White),
      (⟨6, 0⟩, .Knight .White),
      (⟨7, 0⟩, .Rook .White),
      (⟨0, 1⟩, .Pawn .White),
      (⟨1, 1⟩, .Pawn .White),
      (⟨2, 1⟩, .Pawn .White),
      (⟨3, 1⟩, .Pawn .White),
      (⟨4, 1⟩, .Pawn .White),
      (⟨6, 1⟩, .Pawn .White),
      (⟨7, 1⟩, .Pawn .White),
      (⟨0, 7⟩, .Rook .Black),
      (⟨1, 7⟩, .Knight .Black),
      (⟨2, 7⟩, .Bishop .Black),
      (⟨3, 7⟩, .Queen .Black),
      (⟨4, 7⟩, .King .Black),
      (⟨5, 7⟩, .Bishop .Black),
      (⟨6, 7⟩, .Knight .Black),
      (⟨7, 7⟩, .Rook .Black),
      (⟨0, 6⟩, .Pawn .Black),
      (⟨1, 6⟩, .Pawn .Black),
      (⟨2, 6⟩, .Pawn .Black),
      (⟨3, 6⟩, .Pawn .Black),
      (⟨4, 6⟩, .Pawn .Black),
      (⟨5, 6⟩, .Pawn .Black),
      (⟨6, 6⟩, .Pawn .Black),
      (⟨7, 6⟩, .Pawn .Black)]
    castling := [(.White, ⟨true, true⟩), (.Black, ⟨true, true⟩)]
    can_move_2_squares := [⟨0, 1⟩, ⟨1, 1⟩, ⟨2, 1⟩, ⟨3, 1⟩, ⟨4, 1⟩, ⟨6, 1⟩, ⟨7, 1⟩, ⟨0, 6⟩, ⟨1, 6⟩, ⟨2, 6⟩, ⟨3, 6⟩, ⟨4, 6⟩, ⟨5, 6⟩, ⟨6, 6⟩, ⟨7, 6⟩]
    to_move := .Black
    moved_2_squares := some ⟨5, 3⟩ }

def c1s2 : GameData :=
  { board := [(⟨0, 5⟩, .Pawn .Black),
      (⟨5, 3⟩, .Pawn .White),
      (⟨0, 0⟩, .Rook .White),
      (⟨1, 0⟩, .Knight .White),
      (⟨2, 0⟩, .Bishop .White),
      (⟨3, 0⟩, .Queen .White),
      (⟨4, 0⟩, .King .White),
      (⟨5, 0⟩, .Bishop .White),
      (⟨6, 0⟩, .Knight .White),
      (⟨7, 0⟩, .Rook .White),
      (⟨0, 1⟩, .Pawn .White),
      (⟨1, 1⟩, .Pawn .White),
      (⟨2, 1⟩, .Pawn .White),
      (⟨3, 1⟩, .Pawn .White),
      (⟨4, 1⟩, .Pawn .White),
      (⟨6, 1⟩, .Pawn .White),
      (⟨7, 1⟩, .Pawn .White),
      (⟨0, 7⟩, .Rook .Black),
      (⟨1, 7⟩, .Knight .Black),
      (⟨2, 7⟩, .Bishop .Black),
      (⟨3, 7⟩, .Queen .Black),
      (⟨4, 7⟩, .King .Black),
      (⟨5, 7⟩, .Bishop .Black),
      (⟨6, 7⟩, .Knight .Black),
      (⟨7, 7⟩, .Rook .Black),
      (⟨1, 6⟩, .Pawn .Black),
      (⟨2, 6⟩, .Pawn .Black),
      (⟨3, 6⟩, .Pawn .Black),
      (⟨4, 6⟩, .Pawn .Black),
      (⟨5, 6⟩, .Pawn .Black),
      (⟨6, 6⟩, .Pawn .Black),
      (⟨7, 6⟩, .Pawn .Black)]
    castling := [(.White, ⟨true, true⟩), (.Black, ⟨true, true⟩)]
    can_move_2_squares := [⟨0, 1⟩, ⟨1, 1⟩, ⟨2, 1⟩, ⟨3, 1⟩, ⟨4, 1⟩, ⟨6, 1⟩, ⟨7, 1⟩, ⟨1, 6⟩, ⟨2, 6⟩, ⟨3, 6⟩, ⟨4, 6⟩, ⟨5, 6⟩, ⟨6, 6⟩, ⟨7, 6⟩]
    to_move := .White
    moved_2_squares := none }

def c1s3 : GameData :=
  { board := [(⟨5, 1⟩, .King .White),
      (⟨0, 5⟩, .Pawn .Black),
      (⟨5, 3⟩, .Pawn .White),
      (⟨0, 0⟩, .Rook .White),
      (⟨1, 0⟩, .Knight .White),
      (⟨2, 0⟩, .Bishop .White),
      (⟨3, 0⟩, .Queen .White),
      (⟨5, 0⟩, .Bishop .White),
      (⟨6, 0⟩, .Knight .White),
      (⟨7, 0⟩, .Rook .White),
      (⟨0, 1⟩, .Pawn .White),
      (⟨1, 1⟩, .Pawn .White),
      (⟨2, 1⟩, .Pawn .White),
      (⟨3, 1⟩, .Pawn .White),
      (⟨4, 1⟩, .Pawn .White),
      (⟨6, 1⟩, .Pawn .White),
      (⟨7, 1⟩, .Pawn .White),
      (⟨0, 7⟩, .Rook .Black),
      (⟨1, 7⟩, .Knight .Black),
      (⟨2, 7⟩, .Bishop .Black),
      (⟨3, 7⟩, .Queen .Black),
      (⟨4, 7⟩, .King .Black),
      (⟨5, 7⟩, .Bishop .Black),
      (⟨6, 7⟩, .Knight .Black),
      (⟨7, 7⟩, .Rook .Black),
      (⟨1, 6⟩, .Pawn .Black),
      (⟨2, 6⟩, .Pawn .Black),
      (⟨3, 6⟩, .Pawn .Black),
      (⟨4, 6⟩, .Pawn .Black),
      (⟨5, 6⟩, .Pawn .Black),
      (⟨6, 6⟩, .Pawn .Black),
      (⟨7, 6⟩, .Pawn .Black)]
    castling := [(.Black, ⟨true, true⟩)]
    can_move_2_squares := [⟨0, 1⟩, ⟨1, 1⟩, ⟨2, 1⟩, ⟨3, 1⟩, ⟨4, 1⟩, ⟨6, 1⟩, ⟨7, 1⟩, ⟨1, 6⟩, ⟨2, 6⟩, ⟨3, 6⟩, ⟨4, 6⟩, ⟨5, 6⟩, ⟨6, 6⟩, ⟨7, 6⟩]
    to_move := .Black
    moved_2_squares := none }

def c1s4 : GameData :=
  { board := [(⟨0, 4⟩, .Pawn .Black),
      (⟨5, 1⟩, .King .White),
      (⟨5, 3⟩, .Pawn .White),
      (⟨0, 0⟩, .Rook .White),
      (⟨1, 0⟩, .Knight .White),
      (⟨2, 0⟩, .Bishop .White),
      (⟨3, 0⟩, .Queen .White),
      (⟨5, 0⟩, .Bishop .White),
      (⟨6, 0⟩, .Knight .White),
      (⟨7, 0⟩, .Rook .White),
      (⟨0, 1⟩, .Pawn .White),
      (⟨1, 1⟩, .Pawn .White),
      (⟨2, 1⟩, .Pawn .White),
      (⟨3, 1⟩, .Pawn .White),
      (⟨4, 1⟩, .Pawn .White),
      (⟨6, 1⟩, .Pawn .White),
      (⟨7, 1⟩, .Pawn .White),
      (⟨0, 7⟩, .Rook .Black),
      (⟨1, 7⟩, .Knight .Black),
      (⟨2, 7⟩, .Bishop .Black),
      (⟨3, 7⟩, .Queen .Black),
      (⟨4, 7⟩, .King .Black),
      (⟨5, 7⟩, .Bishop .Black),
      (⟨6, 7⟩, .Knight .Black),
      (⟨7, 7⟩, .Rook .Black),
      (⟨1, 6⟩, .Pawn .Black),
      (⟨2, 6⟩, .Pawn .Black),
      (⟨3, 6⟩, .Pawn .Black),
      (⟨4, 6⟩, .Pawn .Black),
      (⟨5, 6⟩, .Pawn .Black),
      (⟨6, 6⟩, .Pawn .Black),
      (⟨7, 6⟩, .Pawn .Black)]
    castling := [(.Black, ⟨true, true⟩)]
    can_move_2_squares := [⟨0, 1⟩, ⟨1, 1⟩, ⟨2, 1⟩, ⟨3, 1⟩, ⟨4, 1⟩, ⟨6, 1⟩, ⟨7, 1⟩, ⟨1, 6⟩, ⟨2, 6⟩, ⟨3, 6⟩, ⟨4, 6⟩, ⟨5, 6⟩, ⟨6, 6⟩, ⟨7, 6⟩]
    to_move := .White
    moved_2_squares := none }

def c1s5 : GameData :=
  { board := [(⟨5, 4⟩, .Pawn .White),
      (⟨0, 4⟩, .Pawn .Black),
      (⟨5, 1⟩, .King .White),
      (⟨0, 0⟩, .Rook .White),
      (⟨1, 0⟩, .Knight .White),
      (⟨2, 0⟩, .Bishop .White),
      (⟨3, 0⟩, .Queen .White),
      (⟨5, 0⟩, .Bishop .White),
      (⟨6, 0⟩, .Knight .White),
      (⟨7, 0⟩, .Rook .White),
      (⟨0, 1⟩, .Pawn .White),
      (⟨1, 1⟩, .Pawn .White),
      (⟨2, 1⟩, .Pawn .White),
      (⟨3, 1⟩, .Pawn .White),
      (⟨4, 1⟩, .Pawn .White),
      (⟨6, 1⟩, .Pawn .White),
      (⟨7, 1⟩, .Pawn .White),
      (⟨0, 7⟩, .Rook .Black),
      (⟨1, 7⟩, .Knight .Black),
      (⟨2, 7⟩, .Bishop .Black),
      (⟨3, 7⟩, .Queen .Black),
      (⟨4, 7⟩, .King .Black),
      (⟨5, 7⟩, .Bishop .Black),
      (⟨6, 7⟩, .Knight .Black),
      (⟨7, 7⟩, .Rook .Black),
      (⟨1, 6⟩, .Pawn .Black),
      (⟨2, 6⟩, .Pawn .Black),
      (⟨3, 6⟩, .Pawn .Black),
      (⟨4, 6⟩, .Pawn .Black),
      (⟨5, 6⟩, .Pawn .Black),
      (⟨6, 6⟩, .Pawn .Black),
      (⟨7, 6⟩, .Pawn .Black)]
    castling := [(.Black, ⟨true, true⟩)]
    can_move_2_squares := [⟨0, 1⟩, ⟨1, 1⟩, ⟨2, 1⟩, ⟨3, 1⟩, ⟨4, 1⟩, ⟨6, 1⟩, ⟨7, 1⟩, ⟨1, 6⟩, ⟨2, 6⟩, ⟨3, 6⟩, ⟨4, 6⟩, ⟨5, 6⟩, ⟨6, 6⟩, ⟨7, 6⟩]
    to_move := .Black
    moved_2_squares := none }

def c1s6 : GameData :=
  { board := [(⟨7, 5⟩, .Pawn .Black),
      (⟨5, 4⟩, .Pawn .White),
      (⟨0, 4⟩, .Pawn .Black),
      (⟨5, 1⟩, .King .White),
      (⟨0, 0⟩, .Rook .White),
      (⟨1, 0⟩, .Knight .White),
      (⟨2, 0⟩, .Bishop .White),
      (⟨3, 0⟩, .Queen .White),
      (⟨5, 0⟩, .Bishop .White),
      (⟨6, 0⟩, .Knight .White),
      (⟨7, 0⟩, .Rook .White),
      (⟨0, 1⟩, .Pawn .White),
      (⟨1, 1⟩, .Pawn .White),
      (⟨2, 1⟩, .Pawn .White),
      (⟨3, 1⟩, .Pawn .White),
      (⟨4, 1⟩, .Pawn .White),
      (⟨6, 1⟩, .Pawn .White),
      (⟨7, 1⟩, .Pawn .White),
      (⟨0, 7⟩, .Rook .Black),
      (⟨1, 7⟩, .Knight .Black),
      (⟨2, 7⟩, .Bishop .Black),
      (⟨3, 7⟩, .Queen .Black),
      (⟨4, 7⟩, .King .Black),
      (⟨5, 7⟩, .Bishop .Black),
      (⟨6, 7⟩, .Knight .Black),
      (⟨7, 7⟩, .Rook .Black),
      (⟨1, 6⟩, .Pawn .Black),
      (⟨2, 6⟩, .Pawn .Black),
      (⟨3, 6⟩, .Pawn .Black),
      (⟨4, 6⟩, .Pawn .Black),
      (⟨5, 6⟩, .Pawn .Black),
      (⟨6, 6⟩, .Pawn .Black)]
    castling := [(.Black, ⟨true, true⟩)]
    can_move_2_squares := [⟨0, 1⟩, ⟨1, 1⟩, ⟨2, 1⟩, ⟨3, 1⟩, ⟨4, 1⟩, ⟨6, 1⟩, ⟨7, 1⟩, ⟨1, 6⟩, ⟨2, 6⟩, ⟨3, 6⟩, ⟨4, 6⟩, ⟨5, 6⟩, ⟨6, 6⟩]
    to_move := .White
    moved_2_squares := none }

def c1s7 : GameData :=
  { board := [(⟨5, 2⟩, .King .White),
      (⟨7, 5⟩, .Pawn .Black),
      (⟨5, 4⟩, .Pawn .White),
      (⟨0, 4⟩, .Pawn .Black),
      (⟨0, 0⟩, .Rook .White),
      (⟨1, 0⟩, .Knight .White),
      (⟨2, 0⟩, .Bishop .White),
      (⟨3, 0⟩, .Queen .White),
      (⟨5, 0⟩, .Bishop .White),
      (⟨6, 0⟩, .Knight .White),
      (⟨7, 0⟩, .Rook .White),
      (⟨0, 1⟩, .Pawn .White),
      (⟨1, 1⟩, .Pawn .White),
      (⟨2, 1⟩, .Pawn .White),
      (⟨3, 1⟩, .Pawn .White),
      (⟨4, 1⟩, .Pawn .White),
      (⟨6, 1⟩, .Pawn .White),
      (⟨7, 1⟩, .Pawn .White),
      (⟨0, 7⟩, .Rook .Black),
      (⟨1, 7⟩, .Knight .Black),
      (⟨2, 7⟩, .Bishop .Black),
      (⟨3, 7⟩, .Queen .Black),
      (⟨4, 7⟩, .King .Black),
      (⟨5, 7⟩, .Bishop .Black),
      (⟨6, 7⟩, .Knight .Black),
      (⟨7, 7⟩, .Rook .Black),
      (⟨1, 6⟩, .Pawn .Black),
      (⟨2, 6⟩, .Pawn .Black),
      (⟨3, 6⟩, .Pawn .Black),
      (⟨4, 6⟩, .Pawn .Black),
      (⟨5, 6⟩, .Pawn .Black),
      (⟨6, 6⟩, .Pawn .Black)]
    castling := [(.Black, ⟨true, true⟩)]
    can_move_2_squares := [⟨0, 1⟩, ⟨1, 1⟩, ⟨2, 1⟩, ⟨3, 1⟩, ⟨4, 1⟩, ⟨6, 1⟩, ⟨7, 1⟩, ⟨1, 6⟩, ⟨2, 6⟩, ⟨3, 6⟩, ⟨4, 6⟩, ⟨5, 6⟩, ⟨6, 6⟩]
    to_move := .Black
    moved_2_squares := none }

def c1s8 : GameData :=
  { board := [(⟨7, 4⟩, .Pawn .Black),
      (⟨5, 2⟩, .King .White),
      (⟨5, 4⟩, .Pawn .White),
      (⟨0, 4⟩, .Pawn .Black),
      (⟨0, 0⟩, .Rook .White),
      (⟨1, 0⟩, .Knight .White),
      (⟨2, 0⟩, .Bishop .White),
      (⟨3, 0⟩, .Queen .White),
      (⟨5, 0⟩, .Bishop .White),
      (⟨6, 0⟩, .Knight .White),
      (⟨7, 0⟩, .Rook .White),
      (⟨0, 1⟩, .Pawn .White),
      (⟨1, 1⟩, .Pawn .White),
      (⟨2, 1⟩, .Pawn .White),
      (⟨3, 1⟩, .Pawn .White),
      (⟨4, 1⟩, .Pawn .White),
      (⟨6, 1⟩, .Pawn .White),
      (⟨7, 1⟩, .Pawn .White),
      (⟨0, 7⟩, .Rook .Black),
      (⟨1, 7⟩, .Knight .Black),
      (⟨2, 7⟩, .Bishop .Black),
      (⟨3, 7⟩, .Queen .Black),
      (⟨4, 7⟩, .King .Black),
      (⟨5, 7⟩, .Bishop .Black),
      (⟨6, 7⟩, .Knight .Black),
      (⟨7, 7⟩, .Rook .Black),
      (⟨1, 6⟩, .Pawn .Black),
      (⟨2, 6⟩, .Pawn .Black),
      (⟨3, 6⟩, .Pawn .Black),
      (⟨4, 6⟩, .Pawn .Black),
      (⟨5, 6⟩, .Pawn .Black),
      (⟨6, 6⟩, .Pawn .Black)]
    castling := [(.Black, ⟨true, true⟩)]
    can_move_2_squares := [⟨0, 1⟩, ⟨1, 1⟩, ⟨2, 1⟩, ⟨3, 1⟩, ⟨4, 1⟩, ⟨6, 1⟩, ⟨7, 1⟩, ⟨1, 6⟩, ⟨2, 6⟩, ⟨3, 6⟩, ⟨4, 6⟩, ⟨5, 6⟩, ⟨6, 6⟩]
    to_move := .White
    moved_2_squares := none }

def c1s9 : GameData :=
  { board := [(⟨5, 3⟩, .King .White),
      (⟨7, 4⟩, .Pawn .Black),
      (⟨5, 4⟩, .Pawn .White),
      (⟨0, 4⟩, .Pawn .Black),
      (⟨0, 0⟩, .Rook .White),
      (⟨1, 0⟩, .Knight .White),
      (⟨2, 0⟩, .Bishop .White),
      (⟨3, 0⟩, .Queen .White),
      (⟨5, 0⟩, .Bishop .White),
      (⟨6, 0⟩, .Knight .White),
      (⟨7, 0⟩, .Rook .White),
      (⟨0, 1⟩, .Pawn .White),
      (⟨1, 1⟩, .Pawn .White),
      (⟨2, 1⟩, .Pawn .White),
      (⟨3, 1⟩, .Pawn .White),
      (⟨4, 1⟩, .Pawn .White),
      (⟨6, 1⟩, .Pawn .White),
      (⟨7, 1⟩, .Pawn .White),
      (⟨0, 7⟩, .Rook .Black),
      (⟨1, 7⟩, .Knight .Black),
      (⟨2, 7⟩, .Bishop .Black),
      (⟨3, 7⟩, .Queen .Black),
      (⟨4, 7⟩, .King .Black),
      (⟨5, 7⟩, .Bishop .Black),
      (⟨6, 7⟩, .Knight .Black),
      (⟨7, 7⟩, .Rook .Black),
      (⟨1, 6⟩, .Pawn .Black),
      (⟨2, 6⟩, .Pawn .Black),
      (⟨3, 6⟩, .Pawn .Black),
      (⟨4, 6⟩, .Pawn .Black),
      (⟨5, 6⟩, .Pawn .Black),
      (⟨6, 6⟩, .Pawn .Black)]
    castling := [(.Black, ⟨true, true⟩)]
    can_move_2_squares := [⟨0, 1⟩, ⟨1, 1⟩, ⟨2, 1⟩, ⟨3, 1⟩, ⟨4, 1⟩, ⟨6, 1⟩, ⟨7, 1⟩, ⟨1, 6⟩, ⟨2, 6⟩, ⟨3, 6⟩, ⟨4, 6⟩, ⟨5, 6⟩, ⟨6, 6⟩]
    to_move := .Black
    moved_2_squares := none }

def c1s10 : GameData :=
  { board := [(⟨4, 4⟩, .Pawn .Black),
      (⟨5, 3⟩, .King .White),
      (⟨7, 4⟩, .Pawn .Black),
      (⟨5, 4⟩, .Pawn .White),
      (⟨0, 4⟩, .Pawn .Black),
      (⟨0, 0⟩, .Rook .White),
      (⟨1, 0⟩, .Knight .White),
      (⟨2, 0⟩, .Bishop .White),
      (⟨3, 0⟩, .Queen .White),
      (⟨5, 0⟩, .Bishop .White),
      (⟨6, 0⟩, .Knight .White),
      (⟨7, 0⟩, .Rook .White),
      (⟨0, 1⟩, .Pawn .White),
      (⟨1, 1⟩, .Pawn .White),
      (⟨2, 1⟩, .Pawn .White),
      (⟨3, 1⟩, .Pawn .White),
      (⟨4, 1⟩, .Pawn .White),
      (⟨6, 1⟩, .Pawn .White),
      (⟨7, 1⟩, .Pawn .White),
      (⟨0, 7⟩, .Rook .Black),
      (⟨1, 7⟩, .Knight .Black),
      (⟨2, 7⟩, .Bishop .Black),
      (⟨3, 7⟩, .Queen .Black),
      (⟨4, 7⟩, .King .Black),
      (⟨5, 7⟩, .Bishop .Black),
      (⟨6, 7⟩, .Knight .Black),
      (⟨7, 7⟩, .Rook .Black),
      (⟨1, 6⟩, .Pawn .Black),
      (⟨2, 6⟩, .Pawn .Black),
      (⟨3, 6⟩, .Pawn .Black),
      (⟨5, 6⟩, .Pawn .Black),
      (⟨6, 6⟩, .Pawn .Black)]
    castling := [(.Black, ⟨true, true⟩)]
    can_move_2_squares := [⟨0, 1⟩, ⟨1, 1⟩, ⟨2, 1⟩, ⟨3, 1⟩, ⟨4, 1⟩, ⟨6, 1⟩, ⟨7, 1⟩, ⟨1, 6⟩, ⟨2, 6⟩, ⟨3, 6⟩, ⟨5, 6⟩, ⟨6, 6⟩]
    to_move := .White
    moved_2_squares := some ⟨4, 4⟩ }

/-! ### Association-list lemmas -/

theorem lookupA_removeKeyA {α β : Type} [DecidableEq α] (m : List (α × β)) (k q : α) :
    lookupA (removeKeyA m k) q = if q = k then none else lookupA m q := by
  induction m with
  | nil => simp [lookupA, removeKeyA]
  | cons e t ih =>
    simp only [removeKeyA, lookupA]
    by_cases h1 : e.1 = k
    · rw [if_pos h1, ih]
      by_cases h2 : q = k
      · simp [h2]
      · have : e.1 ≠ q := by rw [h1]; exact fun h => h2 h.symm
        simp [h2, lookupA, this]
    · rw [if_neg h1]
      by_cases h2 : e.1 = q
      · have hqk : q ≠ k := by rw [← h2]; exact h1
        simp [lookupA, h2, hqk]
      · simp [lookupA, h2, ih]

theorem lookupA_insertKeyA {α β : Type} [DecidableEq α] (m : List (α × β)) (k q : α)
    (v : β) :
    lookupA (insertKeyA m k v) q = if q = k then some v else lookupA m q := by
  simp only [insertKeyA, lookupA]
  by_cases h : q = k
  · simp [h]
  · have : k ≠ q := fun hk => h hk.symm
    simp [this, h, lookupA_removeKeyA]

theorem mem_removeKeyA {α β : Type} [DecidableEq α] {m : List (α × β)} {k : α}
    {e : α × β} :
    e ∈ removeKeyA m k ↔ e ∈ m ∧ e.1 ≠ k := by
  induction m with
  | nil => simp [removeKeyA]
  | cons f t ih =>
    simp only [removeKeyA]
    by_cases h1 : f.1 = k
    · rw [if_pos h1, ih]
      constructor
      · rintro ⟨h2, h3⟩; exact ⟨List.mem_cons_of_mem _ h2, h3⟩
      · rintro ⟨h2, h3⟩
        rcases List.mem_cons.1 h2 with h4 | h4
        · exact absurd (h4 ▸ h1) h3
        · exact ⟨h4, h3⟩
    · rw [if_neg h1]
      constructor
      · intro h2
        rcases List.mem_cons.1 h2 with h4 | h4
        · exact ⟨h4 ▸ List.mem_cons_self _ _, h4 ▸ h1⟩
        · rcases ih.1 h4 with ⟨h5, h6⟩
          exact ⟨List.mem_cons_of_mem _ h5, h6⟩
      · rintro ⟨h2, h3⟩
        rcases List.mem_cons.1 h2 with h4 | h4
        · exact h4 ▸ List.mem_cons_self _ _
        · exact List.mem_cons_of_mem _ (ih.2 ⟨h4, h3⟩)

theorem mem_insertKeyA {α β : Type} [DecidableEq α] {m : List (α × β)} {k : α} {v : β}
    {e : α × β} :
    e ∈ insertKeyA m k v ↔ e = (k, v) ∨ (e ∈ m ∧ e.1 ≠ k) := by
  simp only [insertKeyA, List.mem_cons, mem_removeKeyA]

theorem mem_of_lookupA_eq_some {α β : Type} [DecidableEq α] {m : List (α × β)} {k : α}
    {v : β} (h : lookupA m k = some v) : (k, v) ∈ m := by
  induction m with
  | nil => simp [lookupA] at h
  | cons e t ih =>
    simp only [lookupA] at h
    by_cases h1 : e.1 = k
    · rw [if_pos h1] at h
      exact List.mem_cons.2 (Or.inl (by cases h; rw [← h1]))
    · rw [if_neg h1] at h
      exact List.mem_cons_of_mem _ (ih h)

theorem lookupA_eq_none_iff {α β : Type} [DecidableEq α] {m : List (α × β)} {k : α} :
    lookupA m k = none ↔ ∀ v, (k, v) ∉ m := by
  induction m with
  | nil => simp [lookupA]
  | cons e t ih =>
    simp only [lookupA]
    by_cases h1 : e.1 = k
    · simp only [if_pos h1]
      constructor
      · intro h; cases h
      · intro h
        exact absurd (List.mem_cons_self _ _) (by
          have := h e.2
          rw [show (k, e.2) = e from Prod.ext h1.symm rfl] at this
          exact this)
    · simp only [if_neg h1, ih]
      constructor
      · intro h v hv
        rcases List.mem_cons.1 hv with h2 | h2
        · exact h1 (by rw [← h2])
        · exact h v h2
      · intro h v hv
        exact h v (List.mem_cons_of_mem _ hv)

theorem lookupA_eq_some_of_mem {α β : Type} [DecidableEq α] {m : List (α × β)} {k : α}
    {v : β} (hn : nodupKeysA m) (h : (k, v) ∈ m) : lookupA m k = some v := by
  induction m with
  | nil => cases h
  | cons e t ih =>
    simp only [lookupA]
    rcases List.mem_cons.1 h with h1 | h1
    · rw [if_pos (by rw [← h1])]
      rw [← h1]
    · by_cases h2 : e.1 = k
      · exfalso
        have hk : k ∈ t.map Prod.fst := List.mem_map.2 ⟨(k, v), h1, rfl⟩
        have := (List.nodup_cons.1 hn).1
        rw [h2] at this
        exact this hk
      · rw [if_neg h2]
        exact ih (List.nodup_cons.1 hn).2 h1

theorem nodupKeysA_removeKeyA {α β : Type} [DecidableEq α] {m : List (α × β)} (k : α)
    (hn : nodupKeysA m) : nodupKeysA (removeKeyA m k) := by
  induction m with
  | nil => exact hn
  | cons e t ih =>
    simp only [removeKeyA]
    rcases List.nodup_cons.1 hn with ⟨h1, h2⟩
    by_cases h3 : e.1 = k
    · rw [if_pos h3]; exact ih h2
    · rw [if_neg h3]
      refine List.nodup_cons.2 ⟨?_, ih h2⟩
      intro hc
      rcases List.mem_map.1 hc with ⟨f, hf, hff⟩
      exact h1 (List.mem_map.2 ⟨f, (mem_removeKeyA.1 hf).1, hff⟩)

theorem nodupKeysA_insertKeyA {α β : Type} [DecidableEq α] {m : List (α × β)} (k : α)
    (v : β) (hn : nodupKeysA m) : nodupKeysA (insertKeyA m k v) := by
  refine List.nodup_cons.2 ⟨?_, nodupKeysA_removeKeyA k hn⟩
  intro hc
  rcases List.mem_map.1 hc with ⟨f, hf, hff⟩
  exact (mem_removeKeyA.1 hf).2 hff

theorem memB_iff (l : List Position) (p : Position) : memB l p = true ↔ p ∈ l := by
  induction l with
  | nil => simp [memB]
  | cons q t ih =>
    simp only [memB]
    by_cases h : q = p
    · simp [h]
    · have : p ≠ q := fun hp => h hp.symm
      simp [h, this, ih]

theorem mem_removeP {l : List Position} {p q : Position} :
    p ∈ removeP l q ↔ p ∈ l ∧ p ≠ q := by
  induction l with
  | nil => simp [removeP]
  | cons r t ih =>
    simp only [removeP]
    by_cases h : r = q
    · rw [if_pos h, ih]
      constructor
      · rintro ⟨h1, h2⟩; exact ⟨List.mem_cons_of_mem _ h1, h2⟩
      · rintro ⟨h1, h2⟩
        rcases List.mem_cons.1 h1 with h3 | h3
        · exact absurd (h3.trans h) h2
        · exact ⟨h3, h2⟩
    · rw [if_neg h]
      constructor
      · intro h1
        rcases List.mem_cons.1 h1 with h3 | h3
        · exact ⟨h3 ▸ List.mem_cons_self _ _, h3 ▸ h⟩
        · rcases ih.1 h3 with ⟨h4, h5⟩
          exact ⟨List.mem_cons_of_mem _ h4, h5⟩
      · rintro ⟨h1, h2⟩
        rcases List.mem_cons.1 h1 with h3 | h3
        · exact h3 ▸ List.mem_cons_self _ _
        · exact List.mem_cons_of_mem _ (ih.2 ⟨h3, h2⟩)

/-! ### Move-map and castling-map lemmas -/

theorem lookupA_mapUpdate {α β : Type} [DecidableEq α] (m : List (α × β)) (k q : α)
    (f : β → β) :
    lookupA (m.map (fun e => if e.1 = k then (e.1, f e.2) else e)) q =
      if q = k then (lookupA m k).map f else lookupA m q := by
  induction m with
  | nil => by_cases h : q = k <;> simp [lookupA, h]
  | cons e t ih =>
    by_cases h1 : e.1 = k <;> by_cases h2 : q = k
    · subst h2; simp [lookupA, h1]
    · have h3 : e.1 ≠ q := by rw [h1]; exact fun h => h2 h.symm
      simp only [List.map_cons, lookupA, if_pos h1, if_neg h3, ih, if_neg h2]
    · subst h2; simp only [List.map_cons, lookupA, if_neg h1, ih, if_pos rfl]
    · by_cases h3 : e.1 = q
      · have : q ≠ k := by rw [← h3]; exact h1
        simp only [List.map_cons, lookupA, if_neg h1, if_pos h3, if_neg this]
      · simp only [List.map_cons, lookupA, if_neg h1, if_neg h3, ih]

theorem getC_modifyC (m : CastlingMap) (k q : PieceColor) (f : Castling → Castling) :
    getC (modifyC m k f) q = if q = k then (getC m k).map f else getC m q :=
  lookupA_mapUpdate m k q f

theorem getM_movesAdd (ms : Moves) (k v : Position) (q : Position) :
    getM (movesAdd ms k v) q =
      if q = k then some (v :: ((getM ms k).getD [])) else getM ms q := by
  unfold movesAdd
  cases h : getM ms k with
  | none =>
    show lookupA ((k, [v]) :: ms) q = _
    rw [show lookupA ((k, [v]) :: ms) q
        = if k = q then some [v] else lookupA ms q from rfl]
    by_cases h2 : q = k
    · subst h2
      rw [if_pos rfl, if_pos rfl]
      rfl
    · rw [if_neg (fun hk => h2 hk.symm), if_neg h2]
  | some l =>
    show lookupA (ms.map (fun e => if e.1 = k then (e.1, v :: e.2) else e)) q = _
    rw [lookupA_mapUpdate ms k q (fun e => v :: e)]
    by_cases h2 : q = k
    · simp [h2, h]
    · simp [h2]

theorem inMoves_movesAdd {ms : Moves} {k v o d : Position} :
    inMoves (movesAdd ms k v) o d ↔ (o = k ∧ d = v) ∨ inMoves ms o d := by
  unfold inMoves
  rw [getM_movesAdd]
  by_cases h : o = k
  · subst h
    rw [if_pos rfl]
    constructor
    · rintro ⟨l, hl, hd⟩
      cases hl
      rcases List.mem_cons.1 hd with h1 | h1
      · exact Or.inl ⟨rfl, h1⟩
      · cases h2 : getM ms o with
        | none => rw [h2] at h1; simp at h1
        | some l0 => rw [h2] at h1; exact Or.inr ⟨l0, rfl, h1⟩
    · rintro (⟨-, hd⟩ | ⟨l, hl, hd⟩)
      · exact ⟨_, rfl, hd ▸ List.mem_cons_self _ _⟩
      · exact ⟨_, rfl, List.mem_cons_of_mem _ (by rw [hl]; exact hd)⟩
  · rw [if_neg h]
    constructor
    · rintro ⟨l, hl, hd⟩; exact Or.inr ⟨l, hl, hd⟩
    · rintro (⟨h1, -⟩ | ⟨l, hl, hd⟩)
      · exact absurd h1 h
      · exact ⟨l, hl, hd⟩

theorem inMoves_movesInsert {ms : Moves} {k : Position} {vl : List Position}
    {o d : Position} :
    inMoves (movesInsert ms k vl) o d ↔
      (o = k ∧ d ∈ vl) ∨ (o ≠ k ∧ inMoves ms o d) := by
  unfold inMoves movesInsert
  by_cases h : o = k
  · subst h
    rw [show getM (insertKeyA ms o vl) o = some vl by
      rw [show getM (insertKeyA ms o vl) o = lookupA (insertKeyA ms o vl) o from rfl,
        lookupA_insertKeyA, if_pos rfl]]
    constructor
    · rintro ⟨l, hl, hd⟩; cases hl; exact Or.inl ⟨rfl, hd⟩
    · rintro (⟨-, hd⟩ | ⟨hne, -⟩)
      · exact ⟨vl, rfl, hd⟩
      · exact absurd rfl hne
  · rw [show getM (insertKeyA ms k vl) o = getM ms o by
      rw [show getM (insertKeyA ms k vl) o = lookupA (insertKeyA ms k vl) o from rfl,
        lookupA_insertKeyA, if_neg h]]
    constructor
    · rintro ⟨l, hl, hd⟩; exact Or.inr ⟨h, l, hl, hd⟩
    · rintro (⟨h1, -⟩ | ⟨-, l, hl, hd⟩)
      · exact absurd h1 h
      · exact ⟨l, hl, hd⟩

theorem memMovesO_iff_inMoves {ms : Moves} {o d : Position} :
    memMovesO (some ms) o d = true ↔ inMoves ms o d := by
  show (match getM ms o with
    | none => false
    | some l => memB l d) = true ↔ _
  unfold inMoves
  cases h : getM ms o with
  | none =>
    constructor
    · intro hc; cases hc
    · rintro ⟨l, hl, -⟩; cases hl
  | some l =>
    rw [memB_iff]
    constructor
    · intro hm; exact ⟨l, rfl, hm⟩
    · rintro ⟨l0, hl, hd⟩; cases hl; exact hd

/-! ### Ray-walk characterization -/

theorem chunkWalk_cons_invalid {board : Board} {c : PieceColor} {p : Position}
    {gen : Position → Int → Position} {i : Int} {rest : List Int} {out : List Position}
    (hv : ¬ is_valid_chess_position (gen p i)) :
    chunkWalk p board gen c (i :: rest) out = out := by
  simp [chunkWalk, hv]

theorem chunkWalk_cons_none {board : Board} {c : PieceColor} {p : Position}
    {gen : Position → Int → Position} {i : Int} {rest : List Int} {out : List Position}
    (hv : is_valid_chess_position (gen p i)) (hb : getB board (gen p i) = none) :
    chunkWalk p board gen c (i :: rest) out =
      chunkWalk p board gen c rest (gen p i :: out) := by
  simp [chunkWalk, hv, hb]

theorem chunkWalk_cons_enemy {board : Board} {c : PieceColor} {p : Position}
    {gen : Position → Int → Position} {i : Int} {rest : List Int} {out : List Position}
    {piece : PieceType} (hv : is_valid_chess_position (gen p i))
    (hb : getB board (gen p i) = some piece) (hc : piece.get_color ≠ c) :
    chunkWalk p board gen c (i :: rest) out = gen p i :: out := by
  simp [chunkWalk, hv, hb, hc]

theorem chunkWalk_cons_friendly {board : Board} {c : PieceColor} {p : Position}
    {gen : Position → Int → Position} {i : Int} {rest : List Int} {out : List Position}
    {piece : PieceType} (hv : is_valid_chess_position (gen p i))
    (hb : getB board (gen p i) = some piece) (hc : piece.get_color = c) :
    chunkWalk p board gen c (i :: rest) out = out := by
  simp [chunkWalk, hv, hb, hc]

theorem mem_chunkWalk_seg {board : Board} {c : PieceColor} {p q : Position}
    {gen : Position → Int → Position} {d : Int × Int}
    (hgen : ∀ i : Int, gen p i = rayPos p d (i + 1)) :
    ∀ (n a : Nat) (out : List Position),
      q ∈ chunkWalk p board gen c (segList a n) out ↔
        q ∈ out ∨ ∃ k : Nat, a + 1 ≤ k ∧ k ≤ a + n ∧
          (∀ j : Nat, a + 1 ≤ j → j < k →
            is_valid_chess_position (rayPos p d (j : Int)) ∧
              getB board (rayPos p d (j : Int)) = none) ∧
          q = rayPos p d (k : Int) ∧ is_valid_chess_position q ∧
          (getB board q = none ∨
            ∃ piece, getB board q = some piece ∧ piece.get_color ≠ c) := by
  intro n
  induction n with
  | zero =>
    intro a out
    simp only [segList, chunkWalk]
    constructor
    · exact Or.inl
    · rintro (h | ⟨k, h1, h2, -⟩)
      · exact h
      · omega
  | succ n ih =>
    intro a out
    have hcast : ((a : Int) + 1) = ((a + 1 : Nat) : Int) := by push_cast; ring
    have hap : gen p (a : Int) = rayPos p d ((a + 1 : Nat) : Int) := by
      rw [hgen, hcast]
    rw [show segList a (n + 1) = (a : Int) :: segList (a + 1) n from rfl]
    by_cases hv : is_valid_chess_position (rayPos p d ((a + 1 : Nat) : Int))
    · cases hb : getB board (rayPos p d ((a + 1 : Nat) : Int)) with
      | none =>
        rw [chunkWalk_cons_none (by rw [hap]; exact hv) (by rw [hap]; exact hb), hap]
        rw [ih (a + 1) (rayPos p d ((a + 1 : Nat) : Int) :: out)]
        constructor
        · rintro (hq | ⟨k, hk1, hk2, hall, hqk, hqv, hcond⟩)
          · rcases List.mem_cons.1 hq with hq | hq
            · refine Or.inr ⟨a + 1, by omega, by omega, ?_, hq, hq ▸ hv, hq ▸ Or.inl hb⟩
              intro j h1 h2; omega
            · exact Or.inl hq
          · refine Or.inr ⟨k, by omega, by omega, ?_, hqk, hqv, hcond⟩
            intro j h1 h2
            rcases Nat.eq_or_lt_of_le h1 with h3 | h3
            · exact h3 ▸ ⟨hv, hb⟩
            · exact hall j (by omega) h2
        · rintro (hq | ⟨k, hk1, hk2, hall, hqk, hqv, hcond⟩)
          · exact Or.inl (List.mem_cons_of_mem _ hq)
          · rcases Nat.eq_or_lt_of_le hk1 with h3 | h3
            · exact Or.inl (List.mem_cons.2 (Or.inl (by rw [hqk, ← h3])))
            · exact Or.inr ⟨k, by omega, by omega,
                fun j h1 h2 => hall j (by omega) h2, hqk, hqv, hcond⟩
      | some piece =>
        by_cases hc : piece.get_color = c
        · rw [chunkWalk_cons_friendly (by rw [hap]; exact hv)
            (by rw [hap]; exact hb) hc]
          constructor
          · exact Or.inl
          · rintro (hq | ⟨k, hk1, hk2, hall, hqk, hqv, hcond⟩)
            · exact hq
            · rcases Nat.eq_or_lt_of_le hk1 with h3 | h3
              · rw [hqk, ← h3] at hcond
                rcases hcond with h4 | ⟨piece2, h4, h5⟩
                · rw [hb] at h4; cases h4
                · rw [hb] at h4; cases h4; exact absurd hc h5
              · exact absurd (hall (a + 1) (le_refl _) (by omega)).2 (by rw [hb]; simp)
        · rw [chunkWalk_cons_enemy (by rw [hap]; exact hv)
            (by rw [hap]; exact hb) hc, hap]
          constructor
          · intro hq
            rcases List.mem_cons.1 hq with hq | hq
            · refine Or.inr ⟨a + 1, by omega, by omega, ?_, hq, hq ▸ hv,
                hq ▸ Or.inr ⟨piece, hb, hc⟩⟩
              intro j h1 h2; omega
            · exact Or.inl hq
          · rintro (hq | ⟨k, hk1, hk2, hall, hqk, hqv, hcond⟩)
            · exact List.mem_cons_of_mem _ hq
            · rcases Nat.eq_or_lt_of_le hk1 with h3 | h3
              · exact List.mem_cons.2 (Or.inl (by rw [hqk, ← h3]))
              · exact absurd (hall (a + 1) (le_refl _) (by omega)).2 (by rw [hb]; simp)
    · rw [chunkWalk_cons_invalid (by rw [hap]; exact hv)]
      constructor
      · exact Or.inl
      · rintro (hq | ⟨k, hk1, hk2, hall, hqk, hqv, hcond⟩)
        · exact hq
        · rcases Nat.eq_or_lt_of_le hk1 with h3 | h3
          · rw [← h3] at hqk
            exact absurd (hqk ▸ hqv) hv
          · exact absurd (hall (a + 1) (le_refl _) (by omega)).1 hv

theorem mem_generate_generic_chunk_ray {board : Board} {p q : Position}
    {out : List Position} {gen : Position → Int → Position} {d : Int × Int}
    (hgen : ∀ i : Int, gen p i = rayPos p d (i + 1)) :
    q ∈ generate_generic_chunk p board out gen ↔
      q ∈ out ∨ ChunkHit board (colorD board p) p d q := by
  have h8 : chunkIdx = segList 0 8 := by rfl
  unfold generate_generic_chunk
  rw [h8, mem_chunkWalk_seg hgen 8 0 out]
  unfold ChunkHit
  constructor
  · rintro (h | ⟨k, h1, h2, h3, h4⟩)
    · exact Or.inl h
    · exact Or.inr ⟨k, by omega, by omega, fun j hj1 hj2 => h3 j (by omega) hj2, h4⟩
  · rintro (h | ⟨k, h1, h2, h3, h4⟩)
    · exact Or.inl h
    · exact Or.inr ⟨k, by omega, by omega, fun j hj1 hj2 => h3 j (by omega) hj2, h4⟩

theorem mem_generate_vertical_horizontal {board : Board} {p q : Position}
    {out : List Position} :
    q ∈ generate_vertical_horizontal p board out ↔
      q ∈ out ∨ ∃ d ∈ rookDirs, ChunkHit board (colorD board p) p d q := by
  have g1 : ∀ i : Int,
      (fun (pos : Position) (x : Int) => Position.mk (pos.x - x - 1) pos.y) p i =
        rayPos p (-1, 0) (i + 1) := by
    intro i; unfold rayPos; show Position.mk (p.x - i - 1) p.y = _; congr 1 <;> ring
  have g2 : ∀ i : Int,
      (fun (pos : Position) (x : Int) => Position.mk (pos.x + x + 1) pos.y) p i =
        rayPos p (1, 0) (i + 1) := by
    intro i; unfold rayPos; show Position.mk (p.x + i + 1) p.y = _; congr 1 <;> ring
  have g3 : ∀ i : Int,
      (fun (pos : Position) (x : Int) => Position.mk pos.x (pos.y + x + 1)) p i =
        rayPos p (0, 1) (i + 1) := by
    intro i; unfold rayPos; show Position.mk p.x (p.y + i + 1) = _; congr 1 <;> ring
  have g4 : ∀ i : Int,
      (fun (pos : Position) (x : Int) => Position.mk pos.x (pos.y - x - 1)) p i =
        rayPos p (0, -1) (i + 1) := by
    intro i; unfold rayPos; show Position.mk p.x (p.y - i - 1) = _; congr 1 <;> ring
  unfold generate_vertical_horizontal
  rw [mem_generate_generic_chunk_ray g4, mem_generate_generic_chunk_ray g3,
    mem_generate_generic_chunk_ray g2, mem_generate_generic_chunk_ray g1]
  unfold rookDirs
  simp only [List.mem_cons, List.not_mem_nil, or_false, exists_eq_or_imp,
    exists_eq_left]
  tauto

theorem mem_generate_cross {board : Board} {p q : Position} {out : List Position} :
    q ∈ generate_cross p board out ↔
      q ∈ out ∨ ∃ d ∈ bishopDirs, ChunkHit board (colorD board p) p d q := by
  have g1 : ∀ i : Int,
      (fun (pos : Position) (x : Int) => Position.mk (pos.x - x - 1) (pos.y - x - 1)) p i =
        rayPos p (-1, -1) (i + 1) := by
    intro i; unfold rayPos
    show Position.mk (p.x - i - 1) (p.y - i - 1) = _; congr 1 <;> ring
  have g2 : ∀ i : Int,
      (fun (pos : Position) (x : Int) => Position.mk (pos.x + x + 1) (pos.y + x + 1)) p i =
        rayPos p (1, 1) (i + 1) := by
    intro i; unfold rayPos
    show Position.mk (p.x + i + 1) (p.y + i + 1) = _; congr 1 <;> ring
  have g3 : ∀ i : Int,
      (fun (pos : Position) (x : Int) => Position.mk (pos.x - x - 1) (pos.y + x + 1)) p i =
        rayPos p (-1, 1) (i + 1) := by
    intro i; unfold rayPos
    show Position.mk (p.x - i - 1) (p.y + i + 1) = _; congr 1 <;> ring
  have g4 : ∀ i : Int,
      (fun (pos : Position) (x : Int) => Position.mk (pos.x + x + 1) (pos.y - x - 1)) p i =
        rayPos p (1, -1) (i + 1) := by
    intro i; unfold rayPos
    show Position.mk (p.x + i + 1) (p.y - i - 1) = _; congr 1 <;> ring
  unfold generate_cross
  rw [mem_generate_generic_chunk_ray g4, mem_generate_generic_chunk_ray g3,
    mem_generate_generic_chunk_ray g2, mem_generate_generic_chunk_ray g1]
  unfold bishopDirs
  simp only [List.mem_cons, List.not_mem_nil, or_false, exists_eq_or_imp,
    exists_eq_left]
  tauto

theorem mem_generate_squares_under_attack_queen {board : Board} {p q : Position}
    {out : List Position} :
    q ∈ generate_squares_under_attack_queen board p out ↔
      q ∈ out ∨ ∃ d ∈ bishopDirs ++ rookDirs, ChunkHit board (colorD board p) p d q := by
  unfold generate_squares_under_attack_queen
  rw [mem_generate_vertical_horizontal, mem_generate_cross]
  simp only [List.mem_append]
  constructor
  · rintro ((h | ⟨d, hd, hh⟩) | ⟨d, hd, hh⟩)
    · exact Or.inl h
    · exact Or.inr ⟨d, Or.inl hd, hh⟩
    · exact Or.inr ⟨d, Or.inr hd, hh⟩
  · rintro (h | ⟨d, hd | hd, hh⟩)
    · exact Or.inl (Or.inl h)
    · exact Or.inl (Or.inr ⟨d, hd, hh⟩)
    · exact Or.inr ⟨d, hd, hh⟩

theorem mem_generate_from_points {position : Position} {board : Board}
    {pts : List Position} {out : List Position} {q : Position} :
    q ∈ generate_from_points position board out pts ↔
      q ∈ out ∨ (q ∈ pts ∧ is_valid_chess_position q ∧
        ∀ piece, getB board q = some piece →
          piece.get_color ≠ colorD board position) := by
  unfold generate_from_points
  induction pts generalizing out with
  | nil => simp
  | cons ap rest ih =>
    rw [List.foldl_cons, ih]
    by_cases hv : is_valid_chess_position ap
    · cases hb : getB board ap with
      | none =>
        have hP : is_valid_chess_position ap ∧
            ∀ piece, getB board ap = some piece →
              piece.get_color ≠ colorD board position := by
          refine ⟨hv, ?_⟩
          intro piece hp; rw [hb] at hp; cases hp
        rw [if_pos hv]
        show (q ∈ ap :: out ∨ _) ↔ _
        simp only [List.mem_cons]
        constructor
        · rintro ((h | h) | ⟨h1, h2⟩)
          · subst h; exact Or.inr ⟨Or.inl rfl, hP⟩
          · exact Or.inl h
          · exact Or.inr ⟨Or.inr h1, h2⟩
        · rintro (h | ⟨h1 | h1, h2⟩)
          · exact Or.inl (Or.inr h)
          · exact Or.inl (Or.inl h1)
          · exact Or.inr ⟨h1, h2⟩
      | some piece =>
        rw [if_pos hv]
        show (q ∈ (if piece.get_color = colorD board position then out else ap :: out)
          ∨ _) ↔ _
        by_cases hc : piece.get_color = colorD board position
        · rw [if_pos hc]
          simp only [List.mem_cons]
          constructor
          · rintro (h | ⟨h1, h2⟩)
            · exact Or.inl h
            · exact Or.inr ⟨Or.inr h1, h2⟩
          · rintro (h | ⟨h1 | h1, h2, h3⟩)
            · exact Or.inl h
            · exact absurd hc (h3 piece (h1 ▸ hb))
            · exact Or.inr ⟨h1, h2, h3⟩
        · rw [if_neg hc]
          have hP : is_valid_chess_position ap ∧
              ∀ piece2, getB board ap = some piece2 →
                piece2.get_color ≠ colorD board position := by
            refine ⟨hv, ?_⟩
            intro piece2 hp; rw [hb] at hp; cases hp; exact hc
          simp only [List.mem_cons]
          constructor
          · rintro ((h | h) | ⟨h1, h2⟩)
            · subst h; exact Or.inr ⟨Or.inl rfl, hP⟩
            · exact Or.inl h
            · exact Or.inr ⟨Or.inr h1, h2⟩
          · rintro (h | ⟨h1 | h1, h2⟩)
            · exact Or.inl (Or.inr h)
            · exact Or.inl (Or.inl h1)
            · exact Or.inr ⟨h1, h2⟩
    · rw [if_neg hv]
      simp only [List.mem_cons]
      constructor
      · rintro (h | ⟨h1, h2⟩)
        · exact Or.inl h
        · exact Or.inr ⟨Or.inr h1, h2⟩
      · rintro (h | ⟨h1 | h1, h2, h3⟩)
        · exact Or.inl h
        · exact absurd (h1 ▸ h2) hv
        · exact Or.inr ⟨h1, h2, h3⟩

theorem mem_generate_squares_under_attack_king {board : Board} {p : Position}
    {out : List Position} {q : Position} :
    q ∈ generate_squares_under_attack_king board p out ↔
      q ∈ out ∨ ((∃ ij ∈ kingOffsets, q = ⟨p.x + ij.1, p.y + ij.2⟩) ∧
        is_valid_chess_position q ∧
        ∀ piece, getB board q = some piece → piece.get_color ≠ colorD board p) := by
  unfold generate_squares_under_attack_king
  rw [mem_generate_from_points]
  simp only [List.mem_map]
  constructor
  · rintro (h | ⟨⟨ij, hij, hq⟩, h2, h3⟩)
    · exact Or.inl h
    · exact Or.inr ⟨⟨ij, hij, hq.symm⟩, h2, h3⟩
  · rintro (h | ⟨⟨ij, hij, hq⟩, h2, h3⟩)
    · exact Or.inl h
    · exact Or.inr ⟨⟨ij, hij, hq.symm⟩, h2, h3⟩

theorem mem_generate_squares_under_attack_knight {board : Board} {p : Position}
    {out : List Position} {q : Position} :
    q ∈ generate_squares_under_attack_knight board p out ↔
      q ∈ out ∨ (q ∈ knightPoints p ∧ is_valid_chess_position q ∧
        ∀ piece, getB board q = some piece → piece.get_color ≠ colorD board p) := by
  unfold generate_squares_under_attack_knight
  exact mem_generate_from_points

theorem mem_generate_squares_under_attack_pawn {board : Board} {p : Position}
    {out : List Position} {q : Position} :
    q ∈ generate_squares_under_attack_pawn board p out ↔
      q ∈ out ∨ (q ∈ pawnAttackPoints (colorD board p) p ∧ is_valid_chess_position q ∧
        ∀ piece, getB board q = some piece → piece.get_color ≠ colorD board p) := by
  unfold generate_squares_under_attack_pawn
  exact mem_generate_from_points

theorem mem_for_position_acc {board : Board} {p : Position} {out : List Position}
    {q : Position} :
    q ∈ generate_squares_under_attack_for_position board p out ↔
      q ∈ out ∨ q ∈ generate_squares_under_attack_for_position board p [] := by
  unfold generate_squares_under_attack_for_position
  cases hb : getB board p with
  | none => simp
  | some piece =>
    cases piece
    case King c =>
      rw [mem_generate_squares_under_attack_king, mem_generate_squares_under_attack_king]
      simp only [List.not_mem_nil, false_or]
    case Queen c =>
      rw [mem_generate_squares_under_attack_queen, mem_generate_squares_under_attack_queen]
      simp only [List.not_mem_nil, false_or]
    case Bishop c =>
      show q ∈ generate_cross p board out ↔ _ ∨ q ∈ generate_cross p board []
      rw [mem_generate_cross, mem_generate_cross]
      simp only [List.not_mem_nil, false_or]
    case Knight c =>
      rw [mem_generate_squares_under_attack_knight, mem_generate_squares_under_attack_knight]
      simp only [List.not_mem_nil, false_or]
    case Rook c =>
      show q ∈ generate_vertical_horizontal p board out ↔
        _ ∨ q ∈ generate_vertical_horizontal p board []
      rw [mem_generate_vertical_horizontal, mem_generate_vertical_horizontal]
      simp only [List.not_mem_nil, false_or]
    case Pawn c =>
      rw [mem_generate_squares_under_attack_pawn, mem_generate_squares_under_attack_pawn]
      simp only [List.not_mem_nil, false_or]

theorem mem_side_fold {board : Board} {tm : PieceColor} {q : Position} :
    ∀ (L : Board) (out : List Position),
      q ∈ L.foldl (fun acc e =>
        if e.2.get_color = tm then
          generate_squares_under_attack_for_position board e.1 acc
        else acc) out ↔
      q ∈ out ∨ ∃ e ∈ L, e.2.get_color = tm ∧
        q ∈ generate_squares_under_attack_for_position board e.1 [] := by
  intro L
  induction L with
  | nil => intro out; simp
  | cons e t ih =>
    intro out
    rw [List.foldl_cons]
    by_cases hc : e.2.get_color = tm
    · rw [if_pos hc, ih, mem_for_position_acc]
      simp only [List.mem_cons]
      constructor
      · rintro ((h | h) | ⟨f, hf, h1, h2⟩)
        · exact Or.inl h
        · exact Or.inr ⟨e, Or.inl rfl, hc, h⟩
        · exact Or.inr ⟨f, Or.inr hf, h1, h2⟩
      · rintro (h | ⟨f, hf | hf, h1, h2⟩)
        · exact Or.inl (Or.inl h)
        · exact Or.inl (Or.inr (by rw [hf] at h2; exact h2))
        · exact Or.inr ⟨f, hf, h1, h2⟩
    · rw [if_neg hc, ih]
      simp only [List.mem_cons]
      constructor
      · rintro (h | ⟨f, hf, h1, h2⟩)
        · exact Or.inl h
        · exact Or.inr ⟨f, Or.inr hf, h1, h2⟩
      · rintro (h | ⟨f, hf | hf, h1, h2⟩)
        · exact Or.inl h
        · exact absurd (by rw [hf] at h1; exact h1) hc
        · exact Or.inr ⟨f, hf, h1, h2⟩

theorem mem_generate_squares_under_attack_for_side {board : Board} {tm : PieceColor}
    {out : List Position} {q : Position} :
    q ∈ generate_squares_under_attack_for_side board tm out ↔
      q ∈ out ∨ ∃ e ∈ board, e.2.get_color = tm ∧
        q ∈ generate_squares_under_attack_for_position board e.1 [] :=
  mem_side_fold board out

/-! ### `collect_kings` -/

theorem lastKing_cons (e : Position × PieceType) (t : Board) (c : PieceColor) :
    lastKing (e :: t) c =
      match lastKing t c with
      | some p => some p
      | none =>
        match e.2 with
        | PieceType.King c' => if c' = c then some e.1 else none
        | _ => none := rfl

theorem lookupA_cons {α β : Type} [DecidableEq α] (e : α × β) (t : List (α × β)) (k : α) :
    lookupA (e :: t) k = if e.1 = k then some e.2 else lookupA t k := rfl

theorem removeKeyA_cons {α β : Type} [DecidableEq α] (e : α × β) (t : List (α × β))
    (k : α) :
    removeKeyA (e :: t) k = if e.1 = k then removeKeyA t k else e :: removeKeyA t k := rfl

theorem countKings_cons (e : Position × PieceType) (t : Board) (c : PieceColor) :
    countKings (e :: t) c =
      (if e.2 = PieceType.King c then 1 else 0) + countKings t c := rfl

theorem getK_collect_fold {c : PieceColor} :
    ∀ (L : Board) (acc : KingMap),
      getK (L.foldl (fun acc e =>
        match e.2 with
        | .King _ => insertKeyK acc e.2.get_color e.1
        | _ => acc) acc) c =
      match lastKing L c with
      | some p => some p
      | none => getK acc c := by
  intro L
  induction L with
  | nil => intro acc; rfl
  | cons e t ih =>
    obtain ⟨pe, pt⟩ := e
    intro acc
    rw [List.foldl_cons, ih, lastKing_cons]
    cases hl : lastKing t c with
    | some p => rfl
    | none =>
      cases pt with
      | King c' =>
        show getK (insertKeyA acc c' pe) c =
          match (if c' = c then some pe else none) with
          | some p => some p
          | none => getK acc c
        by_cases hcc : c' = c
        · subst hcc
          rw [if_pos rfl]
          show lookupA (insertKeyA acc c' pe) c' = some pe
          rw [lookupA_insertKeyA, if_pos rfl]
        · rw [if_neg hcc]
          show lookupA (insertKeyA acc c' pe) c = getK acc c
          rw [lookupA_insertKeyA, if_neg (fun h => hcc ((h : c = c')).symm)]
      | Queen c' => rfl
      | Bishop c' => rfl
      | Knight c' => rfl
      | Rook c' => rfl
      | Pawn c' => rfl

theorem getK_collect_kings (board : Board) (c : PieceColor) :
    getK (collect_kings board) c = lastKing board c := by
  have h := @getK_collect_fold c board ([] : KingMap)
  cases hl : lastKing board c with
  | some p => rw [hl] at h; exact h
  | none => rw [hl] at h; exact h

theorem lastKing_mem {board : Board} {c : PieceColor} {p : Position}
    (h : lastKing board c = some p) : (p, PieceType.King c) ∈ board := by
  induction board with
  | nil => cases h
  | cons e t ih =>
    rw [lastKing_cons] at h
    cases hl : lastKing t c with
    | some r =>
      rw [hl] at h
      cases h
      exact List.mem_cons_of_mem _ (ih hl)
    | none =>
      rw [hl] at h
      obtain ⟨pe, pt⟩ := e
      cases pt with
      | King c' =>
        by_cases hcc : c' = c
        · rw [show (match (pe, PieceType.King c').2 with
              | PieceType.King c' => if c' = c then some (pe, PieceType.King c').1 else none
              | _ => none) = if c' = c then some pe else none from rfl,
            if_pos hcc] at h
          cases h
          subst hcc
          exact List.mem_cons.2 (Or.inl rfl)
        · rw [show (match (pe, PieceType.King c').2 with
              | PieceType.King c' => if c' = c then some (pe, PieceType.King c').1 else none
              | _ => none) = if c' = c then some pe else none from rfl,
            if_neg hcc] at h
          cases h
      | Queen c' => cases h
      | Bishop c' => cases h
      | Knight c' => cases h
      | Rook c' => cases h
      | Pawn c' => cases h

theorem lastKing_eq_none_iff {board : Board} {c : PieceColor} :
    lastKing board c = none ↔ ∀ p, (p, PieceType.King c) ∉ board := by
  induction board with
  | nil => simp [lastKing]
  | cons e t ih =>
    rw [lastKing_cons]
    cases hl : lastKing t c with
    | some r =>
      constructor
      · intro h; cases h
      · intro h
        exact absurd (List.mem_cons_of_mem _ (lastKing_mem hl)) (h r)
    | none =>
      obtain ⟨pe, pt⟩ := e
      have hnt : ∀ p, (p, PieceType.King c) ∉ t := ih.1 hl
      cases pt with
      | King c' =>
        show (if c' = c then some pe else none) = none ↔ _
        by_cases hcc : c' = c
        · rw [if_pos hcc]
          constructor
          · intro h; cases h
          · intro h
            subst hcc
            exact absurd (List.mem_cons.2 (Or.inl rfl)) (h pe)
        · rw [if_neg hcc]
          constructor
          · intro _ p hp
            rcases List.mem_cons.1 hp with h1 | h1
            · cases h1; exact hcc rfl
            · exact hnt p h1
          · intro _; rfl
      | Queen c' =>
        constructor
        · intro _ p hp
          rcases List.mem_cons.1 hp with h1 | h1
          · cases h1
          · exact hnt p h1
        · intro _; rfl
      | Bishop c' =>
        constructor
        · intro _ p hp
          rcases List.mem_cons.1 hp with h1 | h1
          · cases h1
          · exact hnt p h1
        · intro _; rfl
      | Knight c' =>
        constructor
        · intro _ p hp
          rcases List.mem_cons.1 hp with h1 | h1
          · cases h1
          · exact hnt p h1
        · intro _; rfl
      | Rook c' =>
        constructor
        · intro _ p hp
          rcases List.mem_cons.1 hp with h1 | h1
          · cases h1
          · exact hnt p h1
        · intro _; rfl
      | Pawn c' =>
        constructor
        · intro _ p hp
          rcases List.mem_cons.1 hp with h1 | h1
          · cases h1
          · exact hnt p h1
        · intro _; rfl

theorem lastKing_unique {board : Board} {c : PieceColor} {p : Position}
    (hmem : (p, PieceType.King c) ∈ board)
    (huniq : ∀ q, (q, PieceType.King c) ∈ board → q = p) :
    lastKing board c = some p := by
  induction board with
  | nil => cases hmem
  | cons e t ih =>
    rw [lastKing_cons]
    cases hl : lastKing t c with
    | some r =>
      have : r = p := huniq r (List.mem_cons_of_mem _ (lastKing_mem hl))
      rw [this]
    | none =>
      have hnt : ∀ q, (q, PieceType.King c) ∉ t := lastKing_eq_none_iff.1 hl
      have he : e = (p, PieceType.King c) := by
        rcases List.mem_cons.1 hmem with h1 | h1
        · exact h1.symm
        · exact absurd h1 (hnt p)
      rw [he]
      show (if c = c then some p else none) = some p
      rw [if_pos rfl]

/-! ### King counting -/

theorem countKings_pos_of_mem {board : Board} {c : PieceColor} {p : Position}
    (h : (p, PieceType.King c) ∈ board) : 1 ≤ countKings board c := by
  induction board with
  | nil => cases h
  | cons e t ih =>
    rw [countKings_cons]
    rcases List.mem_cons.1 h with h1 | h1
    · rw [← h1]
      simp
    · have := ih h1
      omega

theorem countKings_unique {board : Board} {c : PieceColor} {p q : Position}
    (hc : countKings board c ≤ 1) (hp : (p, PieceType.King c) ∈ board)
    (hq : (q, PieceType.King c) ∈ board) : p = q := by
  induction board with
  | nil => cases hp
  | cons e t ih =>
    rw [countKings_cons] at hc
    rcases List.mem_cons.1 hp with h1 | h1 <;> rcases List.mem_cons.1 hq with h2 | h2
    · rw [← h2] at h1; exact congrArg Prod.fst h1
    · exfalso
      have he : e.2 = PieceType.King c := by rw [← h1]
      rw [if_pos he] at hc
      have := countKings_pos_of_mem h2
      omega
    · exfalso
      have he : e.2 = PieceType.King c := by rw [← h2]
      rw [if_pos he] at hc
      have := countKings_pos_of_mem h1
      omega
    · exact ih (by omega) h1 h2

theorem countKings_removeKeyA_le (board : Board) (p : Position) (c : PieceColor) :
    countKings (removeKeyA board p) c ≤ countKings board c := by
  induction board with
  | nil => exact Nat.le_refl _
  | cons e t ih =>
    rw [removeKeyA_cons, countKings_cons]
    by_cases h : e.1 = p
    · rw [if_pos h]
      omega
    · rw [if_neg h, countKings_cons]
      omega

theorem removeKeyA_eq_self {α β : Type} [DecidableEq α] {m : List (α × β)} {k : α}
    (h : ∀ v, (k, v) ∉ m) : removeKeyA m k = m := by
  induction m with
  | nil => rfl
  | cons e t ih =>
    rw [removeKeyA_cons]
    by_cases h1 : e.1 = k
    · exfalso
      refine h e.2 ?_
      have : (k, e.2) = e := by rw [← h1]
      rw [this]
      exact List.mem_cons_self _ _
    · rw [if_neg h1, ih (fun v hv => h v (List.mem_cons_of_mem _ hv))]

theorem countKings_removeKeyA_getB {board : Board} {p : Position} {v : PieceType}
    (hn : nodupKeysA board) (h : getB board p = some v) (c : PieceColor) :
    countKings board c =
      countKings (removeKeyA board p) c + (if v = PieceType.King c then 1 else 0) := by
  induction board with
  | nil => cases h
  | cons e t ih =>
    have hn2 := (List.nodup_cons.1 hn).2
    rw [countKings_cons, removeKeyA_cons]
    rw [show getB (e :: t) p = (if e.1 = p then some e.2 else getB t p) from rfl] at h
    by_cases h1 : e.1 = p
    · rw [if_pos h1] at h ⊢
      cases h
      have hrem : removeKeyA t p = t := by
        refine removeKeyA_eq_self ?_
        intro w hw
        exact (List.nodup_cons.1 hn).1 (List.mem_map.2 ⟨(p, w), hw, h1.symm ▸ rfl⟩)
      rw [hrem]
      omega
    · rw [if_neg h1] at h ⊢
      rw [countKings_cons, ih hn2 h]
      omega

/-! ### Generator soundness -/

theorem filterValidMoves_sound {gd : GameData} {pos : Position} :
    ∀ {l : List Position} {valid : List Position},
      filterValidMoves gd pos l = some valid →
      ∀ q ∈ valid, q ∈ l ∧ try_make_move gd pos q = some true := by
  intro l
  induction l with
  | nil =>
    intro valid h q hq
    cases h
    cases hq
  | cons m rest ih =>
    intro valid h q hq
    unfold filterValidMoves at h
    cases ht : try_make_move gd pos m with
    | none => rw [ht] at h; cases h
    | some ok =>
      rw [ht] at h
      cases hr : filterValidMoves gd pos rest with
      | none => rw [hr] at h; cases h
      | some valid0 =>
        rw [hr] at h
        cases h
        by_cases hok : ok = true
        · subst hok
          rw [if_pos rfl] at hq
          rcases List.mem_cons.1 hq with h1 | h1
          · subst h1; exact ⟨List.mem_cons_self _ _, ht⟩
          · rcases ih hr q h1 with ⟨h2, h3⟩
            exact ⟨List.mem_cons_of_mem _ h2, h3⟩
        · rw [if_neg (by simp [hok])] at hq
          rcases ih hr q hq with ⟨h2, h3⟩
          exact ⟨List.mem_cons_of_mem _ h2, h3⟩

theorem normal_piece_step_some (gd : GameData) (ms : Moves) (e : Position × PieceType) :
    normal_piece_step gd (some ms) e =
      if e.2.get_color ≠ gd.to_move then some ms
      else
        match filterValidMoves gd e.1 (generate_default_moves gd e.1 []) with
        | none => none
        | some valid_moves =>
          some (if valid_moves = [] then ms else movesInsert ms e.1 valid_moves) := rfl

theorem ep_candidate_step_some (gd : GameData) (t : Position) (opp : PieceColor)
    (ym : Int) (ms : Moves) (cand : Position) :
    ep_candidate_step gd t opp ym (some ms) cand =
      if is_valid_chess_position cand then
        match getB gd.board cand with
        | some (.Pawn _) =>
          if opp = gd.to_move then
            match ep_capture_board gd.board t cand ⟨t.x, cand.y + ym⟩ with
            | none => none
            | some new_board =>
              match verify_board gd.to_move new_board with
              | none => none
              | some ok =>
                some (if ok then movesAdd ms cand ⟨t.x, cand.y + ym⟩ else ms)
          else some ms
        | _ => some ms
      else some ms := rfl

theorem normal_fold_none (gd : GameData) :
    ∀ (L : Board), L.foldl (normal_piece_step gd) none = none := by
  intro L
  induction L with
  | nil => rfl
  | cons e t ih => rw [List.foldl_cons]; exact ih

theorem normal_fold_sound {gd : GameData} {o d : Position} :
    ∀ (L : Board) (ms0 ms : Moves),
      L.foldl (normal_piece_step gd) (some ms0) = some ms →
      inMoves ms o d →
      inMoves ms0 o d ∨ ∃ pt, (o, pt) ∈ L ∧ pt.get_color = gd.to_move ∧
        d ∈ generate_default_moves gd o [] ∧ try_make_move gd o d = some true := by
  intro L
  induction L with
  | nil =>
    intro ms0 ms h hm
    cases h
    exact Or.inl hm
  | cons e t ih =>
    intro ms0 ms h hm
    rw [List.foldl_cons] at h
    cases hstep : normal_piece_step gd (some ms0) e with
    | none =>
      rw [hstep, normal_fold_none] at h
      cases h
    | some ms1 =>
      rw [hstep] at h
      rcases ih ms1 ms h hm with h1 | ⟨pt, h1, h2, h3, h4⟩
      · rw [normal_piece_step_some] at hstep
        by_cases hc : e.2.get_color ≠ gd.to_move
        · rw [if_pos hc] at hstep
          cases hstep
          exact Or.inl h1
        · rw [if_neg hc] at hstep
          push_neg at hc
          cases hf : filterValidMoves gd e.1 (generate_default_moves gd e.1 []) with
          | none => rw [hf] at hstep; cases hstep
          | some valid =>
            rw [hf] at hstep
            cases hstep
            by_cases hv : valid = []
            · rw [if_pos hv] at h1
              exact Or.inl h1
            · rw [if_neg hv] at h1
              rcases inMoves_movesInsert.1 h1 with ⟨hok, hd⟩ | ⟨-, hms0⟩
              · subst hok
                rcases filterValidMoves_sound hf d hd with ⟨h5, h6⟩
                exact Or.inr ⟨e.2, List.mem_cons.2 (Or.inl rfl), hc, h5, h6⟩
              · exact Or.inl hms0
      · exact Or.inr ⟨pt, List.mem_cons_of_mem _ h1, h2, h3, h4⟩

theorem generate_normal_default_moves_sound {gd : GameData} {ms0 ms : Moves}
    {o d : Position} (h : generate_normal_default_moves gd ms0 = some ms)
    (hm : inMoves ms o d) :
    inMoves ms0 o d ∨ ∃ pt, (o, pt) ∈ gd.board ∧ pt.get_color = gd.to_move ∧
      d ∈ generate_default_moves gd o [] ∧ try_make_move gd o d = some true :=
  normal_fold_sound gd.board ms0 ms h hm

theorem ep_step_none (gd : GameData) (t : Position) (opp : PieceColor) (ym : Int)
    (cand : Position) : ep_candidate_step gd t opp ym none cand = none := rfl

theorem ep_step_sound {gd : GameData} {t : Position} {opp : PieceColor} {ym : Int}
    {ms0 r : Moves} {cand o d : Position}
    (h : ep_candidate_step gd t opp ym (some ms0) cand = some r)
    (hm : inMoves r o d) :
    inMoves ms0 o d ∨
      (o = cand ∧ is_valid_chess_position cand ∧
        (∃ pc2, getB gd.board cand = some (.Pawn pc2)) ∧ opp = gd.to_move ∧
        d = ⟨t.x, cand.y + ym⟩ ∧
        ∃ b, ep_capture_board gd.board t cand ⟨t.x, cand.y + ym⟩ = some b ∧
          verify_board gd.to_move b = some true) := by
  rw [ep_candidate_step_some] at h
  by_cases hv : is_valid_chess_position cand
  · rw [if_pos hv] at h
    cases hb : getB gd.board cand with
    | none => rw [hb] at h; cases h; exact Or.inl hm
    | some piece =>
      rw [hb] at h
      cases piece with
      | Pawn pc2 =>
        by_cases hopp : opp = gd.to_move
        · rw [if_pos hopp] at h
          cases hcap : ep_capture_board gd.board t cand ⟨t.x, cand.y + ym⟩ with
          | none => rw [hcap] at h; cases h
          | some b =>
            rw [hcap] at h
            replace h : (match verify_board gd.to_move b with
              | none => none
              | some ok =>
                some (if ok = true then movesAdd ms0 cand ⟨t.x, cand.y + ym⟩
                  else ms0)) = some r := h
            cases hver : verify_board gd.to_move b with
            | none => rw [hver] at h; cases h
            | some ok =>
              rw [hver] at h
              replace h : (if ok = true then movesAdd ms0 cand ⟨t.x, cand.y + ym⟩
                else ms0) = r := Option.some.inj h
              cases h
              by_cases hok : ok = true
              · subst hok
                rw [if_pos rfl] at hm
                rcases inMoves_movesAdd.1 hm with ⟨ho, hd⟩ | hms0
                · exact Or.inr ⟨ho, hv, ⟨pc2, rfl⟩, hopp, hd, b, rfl, hver⟩
                · exact Or.inl hms0
              · rw [if_neg (by simp [hok])] at hm
                exact Or.inl hm
        · rw [if_neg hopp] at h; cases h; exact Or.inl hm
      | King c2 => cases h; exact Or.inl hm
      | Queen c2 => cases h; exact Or.inl hm
      | Bishop c2 => cases h; exact Or.inl hm
      | Knight c2 => cases h; exact Or.inl hm
      | Rook c2 => cases h; exact Or.inl hm
  · rw [if_neg hv] at h
    cases h
    exact Or.inl hm

theorem generate_en_passant_moves_sound {gd : GameData} {ms0 ms : Moves}
    {o d : Position} (h : generate_en_passant_moves gd ms0 = some ms)
    (hm : inMoves ms o d) :
    inMoves ms0 o d ∨ EpAdded gd o d := by
  unfold generate_en_passant_moves at h
  cases hm2 : gd.moved_2_squares with
  | none =>
    rw [hm2] at h
    replace h : ms0 = ms := Option.some.inj h
    exact Or.inl (h ▸ hm)
  | some t =>
    rw [hm2] at h
    replace h : (match getB gd.board t with
      | some (.Pawn color) =>
        [Position.mk (t.x - 1) t.y, Position.mk (t.x + 1) t.y].foldl
          (ep_candidate_step gd t color.get_opposite
            (if gd.to_move = .White then 1 else -1)) (some ms0)
      | _ => some ms0) = some ms := h
    cases hb : getB gd.board t with
    | none =>
      rw [hb] at h
      replace h : ms0 = ms := Option.some.inj h
      exact Or.inl (h ▸ hm)
    | some piece =>
      rw [hb] at h
      cases piece with
      | Pawn pc =>
        replace h : [Position.mk (t.x - 1) t.y, Position.mk (t.x + 1) t.y].foldl
            (ep_candidate_step gd t pc.get_opposite
              (if gd.to_move = .White then 1 else -1)) (some ms0) = some ms := h
        rw [List.foldl_cons, List.foldl_cons, List.foldl_nil] at h
        have hym : (if gd.to_move = PieceColor.White then (1 : Int) else -1) =
            ymod gd.to_move := rfl
        cases hs1 : ep_candidate_step gd t pc.get_opposite
            (if gd.to_move = .White then 1 else -1) (some ms0)
            ⟨t.x - 1, t.y⟩ with
        | none => rw [hs1, ep_step_none] at h; cases h
        | some r1 =>
          rw [hs1] at h
          rcases ep_step_sound h hm with hr1 | ⟨ho, hv, hp2, hopp, hd, b, hcap, hver⟩
          · rcases ep_step_sound hs1 hr1 with hms0 |
              ⟨ho, hv, hp2, hopp, hd, b, hcap, hver⟩
            · exact Or.inl hms0
            · refine Or.inr ⟨t, pc, hm2, hb, Or.inl ho, ho ▸ hv, ho ▸ hp2, hopp,
                ?_, ?_⟩
              · rw [hd, ho, hym]
              · rw [hd, ho]
                exact ⟨b, hcap, hver⟩
          · refine Or.inr ⟨t, pc, hm2, hb, Or.inr ho, ho ▸ hv, ho ▸ hp2, hopp,
              ?_, ?_⟩
            · rw [hd, ho, hym]
            · rw [hd, ho]
              exact ⟨b, hcap, hver⟩
      | King c2 => replace h : ms0 = ms := Option.some.inj h; exact Or.inl (h ▸ hm)
      | Queen c2 => replace h : ms0 = ms := Option.some.inj h; exact Or.inl (h ▸ hm)
      | Bishop c2 => replace h : ms0 = ms := Option.some.inj h; exact Or.inl (h ▸ hm)
      | Knight c2 => replace h : ms0 = ms := Option.some.inj h; exact Or.inl (h ▸ hm)
      | Rook c2 => replace h : ms0 = ms := Option.some.inj h; exact Or.inl (h ▸ hm)

theorem isSome_false_iff {α : Type} {o : Option α} : o.isSome = false ↔ o = none := by
  cases o <;> simp

theorem inMoves_castling_common {board : Board} {kp rp fkp frp : Position}
    {mbe mna : List Position} {atk : List Position} {ms : Moves} {o d : Position} :
    inMoves (castling_common board kp rp fkp frp mbe mna atk ms) o d ↔
      inMoves ms o d ∨ (o = kp ∧ d = fkp ∧
        mbe.any (fun pos => (getB board pos).isSome) = false ∧
        mna.any (fun pos => memB atk pos) = false) := by
  have hor : ∀ a b : Bool, (a || b) = true → a = true ∨ b = true := by decide
  have horf : ∀ a b : Bool, (a || b) ≠ true → a = false ∧ b = false := by decide
  unfold castling_common
  by_cases hc : (mbe.any (fun pos => (getB board pos).isSome)
      || mna.any (fun pos => memB atk pos)) = true
  · rw [if_pos hc]
    rcases hor _ _ hc with h1 | h1
    · constructor
      · exact Or.inl
      · rintro (h | ⟨-, -, h2, -⟩)
        · exact h
        · rw [h1] at h2; cases h2
    · constructor
      · exact Or.inl
      · rintro (h | ⟨-, -, -, h2⟩)
        · exact h
        · rw [h1] at h2; cases h2
  · rw [if_neg hc]
    have h1 : mbe.any (fun pos => (getB board pos).isSome) = false := (horf _ _ hc).1
    have h2 : mna.any (fun pos => memB atk pos) = false := (horf _ _ hc).2
    rw [inMoves_movesAdd]
    constructor
    · rintro (⟨ho, hd⟩ | h)
      · exact Or.inr ⟨ho, hd, h1, h2⟩
      · exact Or.inl h
    · rintro (h | ⟨ho, hd, -, -⟩)
      · exact Or.inr h
      · exact Or.inl ⟨ho, hd⟩

theorem generate_castling_moves_char {gd : GameData} {ms0 ms : Moves} {o d : Position}
    (h : generate_castling_moves gd ms0 = some ms) :
    inMoves ms o d ↔ inMoves ms0 o d ∨ CastleAdded gd o d := by
  unfold generate_castling_moves at h
  cases hc : getC gd.castling gd.to_move with
  | none =>
    rw [hc] at h
    replace h : ms0 = ms := Option.some.inj h
    subst h
    unfold CastleAdded
    constructor
    · exact Or.inl
    · rintro (h1 | ⟨c, kp, hcc, -⟩)
      · exact h1
      · rw [hc] at hcc; cases hcc
  | some castling =>
    rw [hc] at h
    replace h : (match getK (collect_kings gd.board) gd.to_move with
      | none => none
      | some king_pos =>
        if memB (generate_squares_under_attack_for_side gd.board
            gd.to_move.get_opposite []) king_pos then some ms0
        else
          some (if castling.queen_side then
            castling_common gd.board king_pos ⟨7, king_pos.y⟩ ⟨2, king_pos.y⟩
              ⟨3, king_pos.y⟩
              [⟨1, king_pos.y⟩, ⟨2, king_pos.y⟩, ⟨3, king_pos.y⟩]
              [⟨2, king_pos.y⟩, ⟨3, king_pos.y⟩]
              (generate_squares_under_attack_for_side gd.board
                gd.to_move.get_opposite [])
              (if castling.king_side then
                castling_common gd.board king_pos ⟨7, king_pos.y⟩ ⟨6, king_pos.y⟩
                  ⟨5, king_pos.y⟩ [⟨6, king_pos.y⟩, ⟨5, king_pos.y⟩]
                  [⟨6, king_pos.y⟩, ⟨5, king_pos.y⟩]
                  (generate_squares_under_attack_for_side gd.board
                    gd.to_move.get_opposite []) ms0
              else ms0)
          else
            (if castling.king_side then
              castling_common gd.board king_pos ⟨7, king_pos.y⟩ ⟨6, king_pos.y⟩
                ⟨5, king_pos.y⟩ [⟨6, king_pos.y⟩, ⟨5, king_pos.y⟩]
                [⟨6, king_pos.y⟩, ⟨5, king_pos.y⟩]
                (generate_squares_under_attack_for_side gd.board
                  gd.to_move.get_opposite []) ms0
            else ms0))) = some ms := h
    cases hk : getK (collect_kings gd.board) gd.to_move with
    | none => rw [hk] at h; cases h
    | some king_pos =>
      rw [hk] at h
      replace h : (if memB (generate_squares_under_attack_for_side gd.board
          gd.to_move.get_opposite []) king_pos then some ms0
        else
          some (if castling.queen_side then
            castling_common gd.board king_pos ⟨7, king_pos.y⟩ ⟨2, king_pos.y⟩
              ⟨3, king_pos.y⟩
              [⟨1, king_pos.y⟩, ⟨2, king_pos.y⟩, ⟨3, king_pos.y⟩]
              [⟨2, king_pos.y⟩, ⟨3, king_pos.y⟩]
              (generate_squares_under_attack_for_side gd.board
                gd.to_move.get_opposite [])
              (if castling.king_side then
                castling_common gd.board king_pos ⟨7, king_pos.y⟩ ⟨6, king_pos.y⟩
                  ⟨5, king_pos.y⟩ [⟨6, king_pos.y⟩, ⟨5, king_pos.y⟩]
                  [⟨6, king_pos.y⟩, ⟨5, king_pos.y⟩]
                  (generate_squares_under_attack_for_side gd.board
                    gd.to_move.get_opposite []) ms0
              else ms0)
          else
            (if castling.king_side then
              castling_common gd.board king_pos ⟨7, king_pos.y⟩ ⟨6, king_pos.y⟩
                ⟨5, king_pos.y⟩ [⟨6, king_pos.y⟩, ⟨5, king_pos.y⟩]
                [⟨6, king_pos.y⟩, ⟨5, king_pos.y⟩]
                (generate_squares_under_attack_for_side gd.board
                  gd.to_move.get_opposite []) ms0
            else ms0))) = some ms := h
      by_cases hatk : memB (generate_squares_under_attack_for_side gd.board
          gd.to_move.get_opposite []) king_pos = true
      · rw [if_pos hatk] at h
        replace h : ms0 = ms := Option.some.inj h
        subst h
        unfold CastleAdded
        constructor
        · exact Or.inl
        · rintro (h1 | ⟨c, kp, hcc, hkk, -, hna, -⟩)
          · exact h1
          · rw [hc] at hcc
            cases hcc
            rw [hk] at hkk
            cases hkk
            unfold attackSideL at hna
            rw [hatk] at hna
            cases hna
      · rw [if_neg hatk] at h
        replace h' : (if castling.queen_side then
            castling_common gd.board king_pos ⟨7, king_pos.y⟩ ⟨2, king_pos.y⟩
              ⟨3, king_pos.y⟩
              [⟨1, king_pos.y⟩, ⟨2, king_pos.y⟩, ⟨3, king_pos.y⟩]
              [⟨2, king_pos.y⟩, ⟨3, king_pos.y⟩]
              (attackSideL gd)
              (if castling.king_side then
                castling_common gd.board king_pos ⟨7, king_pos.y⟩ ⟨6, king_pos.y⟩
                  ⟨5, king_pos.y⟩ [⟨6, king_pos.y⟩, ⟨5, king_pos.y⟩]
                  [⟨6, king_pos.y⟩, ⟨5, king_pos.y⟩] (attackSideL gd) ms0
              else ms0)
          else
            (if castling.king_side then
              castling_common gd.board king_pos ⟨7, king_pos.y⟩ ⟨6, king_pos.y⟩
                ⟨5, king_pos.y⟩ [⟨6, king_pos.y⟩, ⟨5, king_pos.y⟩]
                [⟨6, king_pos.y⟩, ⟨5, king_pos.y⟩] (attackSideL gd) ms0
            else ms0)) = ms := Option.some.inj h
      
        subst h'
        have hatkf : memB (attackSideL gd) king_pos = false :=
          Bool.eq_false_iff.2 hatk
        have hks : ∀ msx, inMoves (if castling.king_side then
            castling_common gd.board king_pos ⟨7, king_pos.y⟩ ⟨6, king_pos.y⟩
              ⟨5, king_pos.y⟩ [⟨6, king_pos.y⟩, ⟨5, king_pos.y⟩]
              [⟨6, king_pos.y⟩, ⟨5, king_pos.y⟩] (attackSideL gd) msx
          else msx) o d ↔ inMoves msx o d ∨
            (castling.king_side = true ∧ o = king_pos ∧ d = ⟨6, king_pos.y⟩ ∧
              getB gd.board ⟨6, king_pos.y⟩ = none ∧
              getB gd.board ⟨5, king_pos.y⟩ = none ∧
              memB (attackSideL gd) ⟨6, king_pos.y⟩ = false ∧
              memB (attackSideL gd) ⟨5, king_pos.y⟩ = false) := by
          intro msx
          by_cases hf : castling.king_side = true
          · rw [if_pos hf, inMoves_castling_common]
            simp only [List.any_cons, List.any_nil, Bool.or_false,
              Bool.or_eq_false_iff, isSome_false_iff]
            tauto
          · rw [if_neg hf]
            constructor
            · exact Or.inl
            · rintro (h1 | ⟨h1, -⟩)
              · exact h1
              · exact absurd h1 hf
        have hqs : ∀ msx, inMoves (if castling.queen_side then
            castling_common gd.board king_pos ⟨7, king_pos.y⟩ ⟨2, king_pos.y⟩
              ⟨3, king_pos.y⟩
              [⟨1, king_pos.y⟩, ⟨2, king_pos.y⟩, ⟨3, king_pos.y⟩]
              [⟨2, king_pos.y⟩, ⟨3, king_pos.y⟩] (attackSideL gd) msx
          else msx) o d ↔ inMoves msx o d ∨
            (castling.queen_side = true ∧ o = king_pos ∧ d = ⟨2, king_pos.y⟩ ∧
              getB gd.board ⟨1, king_pos.y⟩ = none ∧
              getB gd.board ⟨2, king_pos.y⟩ = none ∧
              getB gd.board ⟨3, king_pos.y⟩ = none ∧
              memB (attackSideL gd) ⟨2, king_pos.y⟩ = false ∧
              memB (attackSideL gd) ⟨3, king_pos.y⟩ = false) := by
          intro msx
          by_cases hf : castling.queen_side = true
          · rw [if_pos hf, inMoves_castling_common]
            simp only [List.any_cons, List.any_nil, Bool.or_false,
              Bool.or_eq_false_iff, isSome_false_iff]
            tauto
          · rw [if_neg hf]
            constructor
            · exact Or.inl
            · rintro (h1 | ⟨h1, -⟩)
              · exact h1
              · exact absurd h1 hf
        rw [hqs, hks]
        unfold CastleAdded
        constructor
        · rintro ((h1 | ⟨hf, ho, hd, h3, h4, h5, h6⟩) | ⟨hf, ho, hd, h3, h4, h5, h6, h7⟩)
          · exact Or.inl h1
          · exact Or.inr ⟨castling, king_pos, hc, hk, ho, hatkf,
              Or.inl ⟨hf, hd, h3, h4, h5, h6⟩⟩
          · exact Or.inr ⟨castling, king_pos, hc, hk, ho, hatkf,
              Or.inr ⟨hf, hd, h3, h4, h5, h6, h7⟩⟩
        · rintro (h1 | ⟨c, kp, hcc, hkk, ho, -, hside⟩)
          · exact Or.inl (Or.inl h1)
          · rw [hc] at hcc
            cases hcc
            rw [hk] at hkk
            cases hkk
            rcases hside with ⟨hf, hd, h3, h4, h5, h6⟩ | ⟨hf, hd, h3, h4, h5, h6, h7⟩
            · exact Or.inl (Or.inr ⟨hf, ho, hd, h3, h4, h5, h6⟩)
            · exact Or.inr ⟨hf, ho, hd, h3, h4, h5, h6, h7⟩

theorem generate_moves_decomp {gd : GameData} {m : Moves}
    (h : generate_moves gd = some m) :
    ∃ m1 m2, generate_normal_default_moves gd [] = some m1 ∧
      generate_en_passant_moves gd m1 = some m2 ∧
      generate_castling_moves gd m2 = some m := by
  unfold generate_moves at h
  cases h1 : generate_normal_default_moves gd [] with
  | none => rw [h1] at h; cases h
  | some m1 =>
    rw [h1] at h
    replace h : (match generate_en_passant_moves gd m1 with
      | none => none
      | some m2 => generate_castling_moves gd m2) = some m := h
    cases h2 : generate_en_passant_moves gd m1 with
    | none => rw [h2] at h; cases h
    | some m2 =>
      rw [h2] at h
      exact ⟨m1, m2, rfl, h2, h⟩

theorem generate_moves_sound {gd : GameData} {m : Moves} {o d : Position}
    (h : generate_moves gd = some m) (hm : inMoves m o d) :
    NormalAdded gd o d ∨ EpAdded gd o d ∨ CastleAdded gd o d := by
  rcases generate_moves_decomp h with ⟨m1, m2, h1, h2, h3⟩
  rcases (generate_castling_moves_char h3).1 hm with hm2 | hca
  · rcases generate_en_passant_moves_sound h2 hm2 with hm1 | hep
    · rcases generate_normal_default_moves_sound h1 hm1 with hm0 | hn
      · rcases hm0 with ⟨l, hl, -⟩
        cases hl
      · exact Or.inl hn
    · exact Or.inr (Or.inl hep)
  · exact Or.inr (Or.inr hca)

theorem mem_boolfilter_fold {f : Position → Bool} :
    ∀ (l out : List Position) {q : Position},
      q ∈ l.foldl (fun acc a => if f a then a :: acc else acc) out ↔
        q ∈ out ∨ (q ∈ l ∧ f q = true) := by
  intro l
  induction l with
  | nil => intro out q; simp
  | cons a rest ih =>
    intro out q
    rw [List.foldl_cons, ih]
    by_cases hf : f a = true
    · rw [if_pos hf]
      simp only [List.mem_cons]
      constructor
      · rintro ((h | h) | ⟨h1, h2⟩)
        · exact Or.inr ⟨Or.inl h, h ▸ hf⟩
        · exact Or.inl h
        · exact Or.inr ⟨Or.inr h1, h2⟩
      · rintro (h | ⟨h1 | h1, h2⟩)
        · exact Or.inl (Or.inr h)
        · exact Or.inl (Or.inl h1)
        · exact Or.inr ⟨h1, h2⟩
    · rw [if_neg hf]
      simp only [List.mem_cons]
      constructor
      · rintro (h | ⟨h1, h2⟩)
        · exact Or.inl h
        · exact Or.inr ⟨Or.inr h1, h2⟩
      · rintro (h | ⟨h1 | h1, h2⟩)
        · exact Or.inl h
        · exact absurd (h1 ▸ h2) (by simp [hf])
        · exact Or.inr ⟨h1, h2⟩

theorem generate_moves_pawn_sound {gd : GameData} {p q : Position}
    {out : List Position} (h : q ∈ generate_moves_pawn gd p out) :
    q ∈ out ∨
    (q = pawnFwd (colorD gd.board p) p ∧ getB gd.board q = none) ∨
    (q = pawnFwd2 (colorD gd.board p) p ∧ p ∈ gd.can_move_2_squares ∧
      getB gd.board (pawnFwd (colorD gd.board p) p) = none ∧
      getB gd.board q = none) ∨
    (q ∈ pawnAttackPoints (colorD gd.board p) p ∧
      (getB gd.board q).isSome = true) := by
  unfold generate_moves_pawn at h
  cases hcol : colorD gd.board p with
  | White =>
    rw [hcol] at h
    replace h : q ∈ (generate_squares_under_attack_pawn gd.board p []).foldl
        (fun acc a => if (getB gd.board a).isSome then a :: acc else acc)
        (if p ∈ gd.can_move_2_squares ∧
            getB gd.board (⟨p.x, p.y + 2⟩ : Position) = none ∧
            getB gd.board (⟨p.x, p.y + 1⟩ : Position) = none then
          (⟨p.x, p.y + 2⟩ : Position) ::
            (if getB gd.board (⟨p.x, p.y + 1⟩ : Position) = none then
              (⟨p.x, p.y + 1⟩ : Position) :: out else out)
        else
          (if getB gd.board (⟨p.x, p.y + 1⟩ : Position) = none then
            (⟨p.x, p.y + 1⟩ : Position) :: out else out)) := h
    rw [mem_boolfilter_fold] at h
    simp only [pawnFwd, pawnFwd2]
    rcases h with h | ⟨h1, h2⟩
    · by_cases h2 : p ∈ gd.can_move_2_squares ∧
          getB gd.board (⟨p.x, p.y + 2⟩ : Position) = none ∧
          getB gd.board (⟨p.x, p.y + 1⟩ : Position) = none
      · rw [if_pos h2] at h
        rcases List.mem_cons.1 h with h3 | h3
        · exact Or.inr (Or.inr (Or.inl ⟨h3, h2.1, h2.2.2, h3 ▸ h2.2.1⟩))
        · by_cases h4 : getB gd.board (⟨p.x, p.y + 1⟩ : Position) = none
          · rw [if_pos h4] at h3
            rcases List.mem_cons.1 h3 with h5 | h5
            · exact Or.inr (Or.inl ⟨h5, h5 ▸ h4⟩)
            · exact Or.inl h5
          · rw [if_neg h4] at h3
            exact Or.inl h3
      · rw [if_neg h2] at h
        by_cases h4 : getB gd.board (⟨p.x, p.y + 1⟩ : Position) = none
        · rw [if_pos h4] at h
          rcases List.mem_cons.1 h with h5 | h5
          · exact Or.inr (Or.inl ⟨h5, h5 ▸ h4⟩)
          · exact Or.inl h5
        · rw [if_neg h4] at h
          exact Or.inl h
    · rcases (mem_generate_squares_under_attack_pawn.1 h1) with h3 | ⟨h3, -, -⟩
      · cases h3
      · rw [hcol] at h3
        exact Or.inr (Or.inr (Or.inr ⟨h3, h2⟩))
  | Black =>
    rw [hcol] at h
    replace h : q ∈ (generate_squares_under_attack_pawn gd.board p []).foldl
        (fun acc a => if (getB gd.board a).isSome then a :: acc else acc)
        (if p ∈ gd.can_move_2_squares ∧
            getB gd.board (⟨p.x, p.y - 2⟩ : Position) = none ∧
            getB gd.board (⟨p.x, p.y - 1⟩ : Position) = none then
          (⟨p.x, p.y - 2⟩ : Position) ::
            (if getB gd.board (⟨p.x, p.y - 1⟩ : Position) = none then
              (⟨p.x, p.y - 1⟩ : Position) :: out else out)
        else
          (if getB gd.board (⟨p.x, p.y - 1⟩ : Position) = none then
            (⟨p.x, p.y - 1⟩ : Position) :: out else out)) := h
    rw [mem_boolfilter_fold] at h
    simp only [pawnFwd, pawnFwd2]
    rcases h with h | ⟨h1, h2⟩
    · by_cases h2 : p ∈ gd.can_move_2_squares ∧
          getB gd.board (⟨p.x, p.y - 2⟩ : Position) = none ∧
          getB gd.board (⟨p.x, p.y - 1⟩ : Position) = none
      · rw [if_pos h2] at h
        rcases List.mem_cons.1 h with h3 | h3
        · exact Or.inr (Or.inr (Or.inl ⟨h3, h2.1, h2.2.2, h3 ▸ h2.2.1⟩))
        · by_cases h4 : getB gd.board (⟨p.x, p.y - 1⟩ : Position) = none
          · rw [if_pos h4] at h3
            rcases List.mem_cons.1 h3 with h5 | h5
            · exact Or.inr (Or.inl ⟨h5, h5 ▸ h4⟩)
            · exact Or.inl h5
          · rw [if_neg h4] at h3
            exact Or.inl h3
      · rw [if_neg h2] at h
        by_cases h4 : getB gd.board (⟨p.x, p.y - 1⟩ : Position) = none
        · rw [if_pos h4] at h
          rcases List.mem_cons.1 h with h5 | h5
          · exact Or.inr (Or.inl ⟨h5, h5 ▸ h4⟩)
          · exact Or.inl h5
        · rw [if_neg h4] at h
          exact Or.inl h
    · rcases (mem_generate_squares_under_attack_pawn.1 h1) with h3 | ⟨h3, -, -⟩
      · cases h3
      · rw [hcol] at h3
        exact Or.inr (Or.inr (Or.inr ⟨h3, h2⟩))

/-! ### `postprocess_move` branch equations -/

theorem postprocess_move_none {gd : GameData} {start stop : Position}
    (h : getB gd.board start = none) :
    postprocess_move gd start stop = none := by
  unfold postprocess_move
  rw [h]

theorem postprocess_move_eq_king {gd : GameData} {start stop : Position}
    {c : PieceColor} (h : getB gd.board start = some (.King c)) :
    postprocess_move gd start stop =
      (if (start.x - stop.x).natAbs = 2 then
        if stop.x = 6 then
          match getB (removeKey gd.board start) ⟨7, stop.y⟩ with
          | none => none
          | some rook =>
            some ({ gd with
              board := insertKey (insertKey (removeKey (removeKey gd.board start)
                  ⟨7, stop.y⟩) ⟨stop.x - 1, stop.y⟩ rook) stop (.King c)
              castling := removeKeyC gd.castling gd.to_move
              moved_2_squares := none
              to_move := gd.to_move.get_opposite }, none)
        else
          match getB (removeKey gd.board start) ⟨0, stop.y⟩ with
          | none => none
          | some rook =>
            some ({ gd with
              board := insertKey (insertKey (removeKey (removeKey gd.board start)
                  ⟨0, stop.y⟩) ⟨stop.x + 1, stop.y⟩ rook) stop (.King c)
              castling := removeKeyC gd.castling gd.to_move
              moved_2_squares := none
              to_move := gd.to_move.get_opposite }, none)
      else
        some ({ gd with
          board := insertKey (removeKey gd.board start) stop (.King c)
          castling := removeKeyC gd.castling gd.to_move
          moved_2_squares := none
          to_move := gd.to_move.get_opposite }, none)) := by
  unfold postprocess_move
  rw [h]

theorem postprocess_move_eq_rook {gd : GameData} {start stop : Position}
    {c : PieceColor} (h : getB gd.board start = some (.Rook c)) :
    postprocess_move gd start stop =
      some ({ gd with
        board := insertKey (removeKey gd.board start) stop (.Rook c)
        castling :=
          match getC gd.castling c with
          | some _ =>
            if start.x = 0 then
              modifyC gd.castling c (fun cc => { cc with queen_side := false })
            else
              modifyC gd.castling c (fun cc => { cc with king_side := false })
          | none => gd.castling
        moved_2_squares := none
        to_move := gd.to_move.get_opposite }, none) := by
  unfold postprocess_move
  rw [h]
  rfl

theorem postprocess_move_eq_pawn {gd : GameData} {start stop : Position}
    {c : PieceColor} (h : getB gd.board start = some (.Pawn c)) :
    postprocess_move gd start stop =
      some ({ gd with
        board := insertKey
          (match gd.moved_2_squares with
            | some en_passant =>
              if en_passant.x = stop.x ∧ start.y = en_passant.y then
                removeKey (removeKey gd.board start) en_passant
              else removeKey gd.board start
            | none => removeKey gd.board start) stop (.Pawn c)
        can_move_2_squares := removeP gd.can_move_2_squares start
        moved_2_squares :=
          match gd.moved_2_squares with
          | some _ => none
          | none => if (start.y - stop.y).natAbs = 2 then some stop else none
        to_move := gd.to_move.get_opposite },
        if stop.y = 0 ∨ stop.y = 7 then some stop else none) := by
  unfold postprocess_move
  rw [h]

theorem postprocess_move_eq_queen {gd : GameData} {start stop : Position}
    {c : PieceColor} (h : getB gd.board start = some (.Queen c)) :
    postprocess_move gd start stop =
      some ({ gd with
        board := insertKey (removeKey gd.board start) stop (.Queen c)
        moved_2_squares := none
        to_move := gd.to_move.get_opposite }, none) := by
  unfold postprocess_move
  rw [h]

theorem postprocess_move_eq_bishop {gd : GameData} {start stop : Position}
    {c : PieceColor} (h : getB gd.board start = some (.Bishop c)) :
    postprocess_move gd start stop =
      some ({ gd with
        board := insertKey (removeKey gd.board start) stop (.Bishop c)
        moved_2_squares := none
        to_move := gd.to_move.get_opposite }, none) := by
  unfold postprocess_move
  rw [h]

theorem postprocess_move_eq_knight {gd : GameData} {start stop : Position}
    {c : PieceColor} (h : getB gd.board start = some (.Knight c)) :
    postprocess_move gd start stop =
      some ({ gd with
        board := insertKey (removeKey gd.board start) stop (.Knight c)
        moved_2_squares := none
        to_move := gd.to_move.get_opposite }, none) := by
  unfold postprocess_move
  rw [h]

theorem pair_eq_fst {α β : Type} {a c : α} {b d : β} (h : (a, b) = (c, d)) : c = a :=
  (congrArg Prod.fst h).symm

theorem pair_eq_snd {α β : Type} {a c : α} {b d : β} (h : (a, b) = (c, d)) : d = b :=
  (congrArg Prod.snd h).symm

/-- C9: under every committed move, castling rights only ever shrink (an
entry of the successor map comes from an entry of the input map with each
`true` flag already `true` there), and the successor's
`can_move_2_squares` is a subset of the input's. -/
theorem postprocess_monotone {s : GameData} {o d : Position} {s' : GameData}
    {pr : Option Position} (h : postprocess_move s o d = some (s', pr)) :
    (∀ c r', getC s'.castling c = some r' →
      ∃ r, getC s.castling c = some r ∧
        (r'.king_side = true → r.king_side = true) ∧
        (r'.queen_side = true → r.queen_side = true)) ∧
    (∀ p, p ∈ s'.can_move_2_squares → p ∈ s.can_move_2_squares) := by
  have hKc : ∀ cc (r' : Castling),
      getC (removeKeyC s.castling s.to_move) cc = some r' →
      ∃ r, getC s.castling cc = some r ∧
        (r'.king_side = true → r.king_side = true) ∧
        (r'.queen_side = true → r.queen_side = true) := by
    intro cc r' hget
    rw [show getC (removeKeyC s.castling s.to_move) cc =
        (if cc = s.to_move then none else getC s.castling cc) from
      lookupA_removeKeyA s.castling s.to_move cc] at hget
    by_cases hcc : cc = s.to_move
    · rw [if_pos hcc] at hget; cases hget
    · rw [if_neg hcc] at hget
      exact ⟨r', hget, fun hh => hh, fun hh => hh⟩
  cases hb : getB s.board o with
  | none => rw [postprocess_move_none hb] at h; cases h
  | some piece =>
    cases piece with
    | King c =>
      rw [postprocess_move_eq_king hb] at h
      by_cases h2 : (o.x - d.x).natAbs = 2
      · rw [if_pos h2] at h
        by_cases h3 : d.x = 6
        · rw [if_pos h3] at h
          cases hr : getB (removeKey s.board o) ⟨7, d.y⟩ with
          | none => rw [hr] at h; cases h
          | some rook =>
            rw [hr] at h
            have hs' := pair_eq_fst (Option.some.inj h)
            subst hs'
            exact ⟨hKc, fun p hp => hp⟩
        · rw [if_neg h3] at h
          cases hr : getB (removeKey s.board o) ⟨0, d.y⟩ with
          | none => rw [hr] at h; cases h
          | some rook =>
            rw [hr] at h
            have hs' := pair_eq_fst (Option.some.inj h)
            subst hs'
            exact ⟨hKc, fun p hp => hp⟩
      · rw [if_neg h2] at h
        have hs' := pair_eq_fst (Option.some.inj h)
        subst hs'
        exact ⟨hKc, fun p hp => hp⟩
    | Rook c =>
      rw [postprocess_move_eq_rook hb] at h
      have hs' := pair_eq_fst (Option.some.inj h)
      subst hs'
      refine ⟨?_, fun p hp => hp⟩
      intro cc r' hget
      cases hgc : getC s.castling c with
      | none =>
        rw [hgc] at hget
        replace hget : getC s.castling cc = some r' := hget
        exact ⟨r', hget, fun hh => hh, fun hh => hh⟩
      | some c0 =>
        rw [hgc] at hget
        replace hget : getC (if o.x = 0 then
            modifyC s.castling c (fun cc => { cc with queen_side := false })
          else
            modifyC s.castling c (fun cc => { cc with king_side := false })) cc
            = some r' := hget
        by_cases hx : o.x = 0
        · rw [if_pos hx, getC_modifyC] at hget
          by_cases hcc : cc = c
          · rw [if_pos hcc, hgc] at hget
            replace hget : some ({ king_side := c0.king_side, queen_side := false } :
              Castling) = some r' := hget
            replace hget := Option.some.inj hget
            refine ⟨c0, by rw [hcc]; exact hgc, ?_, ?_⟩
            · rw [← hget]; exact fun hh => hh
            · rw [← hget]
              intro hh
              cases (show false = true from hh)
          · rw [if_neg hcc] at hget
            exact ⟨r', hget, fun hh => hh, fun hh => hh⟩
        · rw [if_neg hx, getC_modifyC] at hget
          by_cases hcc : cc = c
          · rw [if_pos hcc, hgc] at hget
            replace hget : some ({ king_side := false, queen_side := c0.queen_side } :
              Castling) = some r' := hget
            replace hget := Option.some.inj hget
            refine ⟨c0, by rw [hcc]; exact hgc, ?_, ?_⟩
            · rw [← hget]
              intro hh
              cases (show false = true from hh)
            · rw [← hget]; exact fun hh => hh
          · rw [if_neg hcc] at hget
            exact ⟨r', hget, fun hh => hh, fun hh => hh⟩
    | Pawn c =>
      rw [postprocess_move_eq_pawn hb] at h
      have hs' := pair_eq_fst (Option.some.inj h)
      subst hs'
      refine ⟨?_, ?_⟩
      · intro cc r' hget
        replace hget : getC s.castling cc = some r' := hget
        exact ⟨r', hget, fun hh => hh, fun hh => hh⟩
      · intro p hp
        replace hp : p ∈ removeP s.can_move_2_squares o := hp
        exact (mem_removeP.1 hp).1
    | Queen c =>
      rw [postprocess_move_eq_queen hb] at h
      have hs' := pair_eq_fst (Option.some.inj h)
      subst hs'
      exact ⟨fun cc r' hget => ⟨r', hget, fun hh => hh, fun hh => hh⟩,
        fun p hp => hp⟩
    | Bishop c =>
      rw [postprocess_move_eq_bishop hb] at h
      have hs' := pair_eq_fst (Option.some.inj h)
      subst hs'
      exact ⟨fun cc r' hget => ⟨r', hget, fun hh => hh, fun hh => hh⟩,
        fun p hp => hp⟩
    | Knight c =>
      rw [postprocess_move_eq_knight hb] at h
      have hs' := pair_eq_fst (Option.some.inj h)
      subst hs'
      exact ⟨fun cc r' hget => ⟨r', hget, fun hh => hh, fun hh => hh⟩,
        fun p hp => hp⟩

theorem getB_insertKey_ne {b : Board} {k q : Position} (h : q ≠ k) (v : PieceType) :
    getB (insertKey b k v) q = getB b q := by
  rw [show getB (insertKey b k v) q = lookupA (insertKeyA b k v) q from rfl,
    lookupA_insertKeyA, if_neg h]

theorem getB_removeKey_ne {b : Board} {k q : Position} (h : q ≠ k) :
    getB (removeKey b k) q = getB b q := by
  rw [show getB (removeKey b k) q = lookupA (removeKeyA b k) q from rfl,
    lookupA_removeKeyA, if_neg h]

theorem getB_removeKey_self (b : Board) (k : Position) :
    getB (removeKey b k) k = none := by
  rw [show getB (removeKey b k) k = lookupA (removeKeyA b k) k from rfl,
    lookupA_removeKeyA, if_pos rfl]

theorem getB_insertKey_self (b : Board) (k : Position) (v : PieceType) :
    getB (insertKey b k v) k = some v := by
  rw [show getB (insertKey b k v) k = lookupA (insertKeyA b k v) k from rfl,
    lookupA_insertKeyA, if_pos rfl]

/-- C10 (amended): every branch of `postprocess_move` leaves every square
outside `changedSquares` untouched, empties the origin, and places the moving
piece on the destination; for a two-file king move the relocated piece lands
on file `stop.x - 1` when the destination is file 6 and on file `stop.x + 1`
otherwise. -/
theorem postprocess_frame {s : GameData} {o d : Position} {s' : GameData}
    {pr : Option Position} (h : postprocess_move s o d = some (s', pr))
    (hne : o ≠ d) :
    getB s'.board o = none ∧ getB s'.board d = getB s.board o ∧
      ∀ p : Position, p ∉ changedSquares s o d → getB s'.board p = getB s.board p := by
  cases hb : getB s.board o with
  | none => rw [postprocess_move_none hb] at h; cases h
  | some mp =>
    cases mp with
    | King c =>
      have hcs : changedSquares s o d =
          if (o.x - d.x).natAbs = 2 then
            if d.x = 6 then [o, d, ⟨7, d.y⟩, ⟨d.x - 1, d.y⟩]
            else [o, d, ⟨0, d.y⟩, ⟨d.x + 1, d.y⟩]
          else [o, d] := by
        unfold changedSquares
        rw [hb]
      rw [postprocess_move_eq_king hb] at h
      by_cases h2 : (o.x - d.x).natAbs = 2
      · rw [if_pos h2] at h
        by_cases h6 : d.x = 6
        · rw [if_pos h6] at h
          cases hr : getB (removeKey s.board o) ⟨7, d.y⟩ with
          | none => rw [hr] at h; cases h
          | some rook =>
            rw [hr] at h
            replace h := Option.some.inj h
            have hs' := pair_eq_fst h
            subst hs'
            have hrd : (⟨d.x - 1, d.y⟩ : Position) ≠ o := by
              intro hh
              have hx := congrArg Position.x hh
              simp only at hx
              omega
            have h7o : (⟨7, d.y⟩ : Position) ≠ o := by
              intro hh
              have hx := congrArg Position.x hh
              simp only at hx
              omega
            refine ⟨?_, ?_, ?_⟩
            · show getB (insertKey (insertKey (removeKey (removeKey s.board o)
                ⟨7, d.y⟩) ⟨d.x - 1, d.y⟩ rook) d (.King c)) o = none
              rw [getB_insertKey_ne hne, getB_insertKey_ne (fun hh => hrd hh.symm),
                getB_removeKey_ne h7o.symm, getB_removeKey_self]
            · exact getB_insertKey_self _ _ _
            · intro p hp
              rw [hcs, if_pos h2, if_pos h6] at hp
              simp only [List.mem_cons, List.not_mem_nil, or_false] at hp
              push_neg at hp
              obtain ⟨hpo, hpd, hp7, hprd⟩ := hp
              show getB (insertKey (insertKey (removeKey (removeKey s.board o)
                ⟨7, d.y⟩) ⟨d.x - 1, d.y⟩ rook) d (.King c)) p = getB s.board p
              rw [getB_insertKey_ne hpd, getB_insertKey_ne hprd,
                getB_removeKey_ne hp7, getB_removeKey_ne hpo]
        · rw [if_neg h6] at h
          cases hr : getB (removeKey s.board o) ⟨0, d.y⟩ with
          | none => rw [hr] at h; cases h
          | some rook =>
            rw [hr] at h
            replace h := Option.some.inj h
            have hs' := pair_eq_fst h
            subst hs'
            have hrd : (⟨d.x + 1, d.y⟩ : Position) ≠ o := by
              intro hh
              have hx := congrArg Position.x hh
              simp only at hx
              omega
            refine ⟨?_, ?_, ?_⟩
            · show getB (insertKey (insertKey (removeKey (removeKey s.board o)
                ⟨0, d.y⟩) ⟨d.x + 1, d.y⟩ rook) d (.King c)) o = none
              rw [getB_insertKey_ne hne, getB_insertKey_ne (fun hh => hrd hh.symm)]
              by_cases hh : o = (⟨0, d.y⟩ : Position)
              · rw [hh, getB_removeKey_self]
              · rw [getB_removeKey_ne hh, getB_removeKey_self]
            · exact getB_insertKey_self _ _ _
            · intro p hp
              rw [hcs, if_pos h2, if_neg h6] at hp
              simp only [List.mem_cons, List.not_mem_nil, or_false] at hp
              push_neg at hp
              obtain ⟨hpo, hpd, hp0, hprd⟩ := hp
              show getB (insertKey (insertKey (removeKey (removeKey s.board o)
                ⟨0, d.y⟩) ⟨d.x + 1, d.y⟩ rook) d (.King c)) p = getB s.board p
              rw [getB_insertKey_ne hpd, getB_insertKey_ne hprd,
                getB_removeKey_ne hp0, getB_removeKey_ne hpo]
      · rw [if_neg h2] at h
        replace h := Option.some.inj h
        have hs' := pair_eq_fst h
        subst hs'
        refine ⟨?_, ?_, ?_⟩
        · show getB (insertKey (removeKey s.board o) d (.King c)) o = none
          rw [getB_insertKey_ne hne, getB_removeKey_self]
        · exact getB_insertKey_self _ _ _
        · intro p hp
          rw [hcs, if_neg h2] at hp
          simp only [List.mem_cons, List.not_mem_nil, or_false] at hp
          push_neg at hp
          obtain ⟨hpo, hpd⟩ := hp
          show getB (insertKey (removeKey s.board o) d (.King c)) p = getB s.board p
          rw [getB_insertKey_ne hpd, getB_removeKey_ne hpo]
    | Rook c =>
      have hcs : changedSquares s o d = [o, d] := by
        unfold changedSquares
        rw [hb]
      rw [postprocess_move_eq_rook hb] at h
      replace h := Option.some.inj h
      have hs' := pair_eq_fst h
      subst hs'
      refine ⟨?_, ?_, ?_⟩
      · show getB (insertKey (removeKey s.board o) d (.Rook c)) o = none
        rw [getB_insertKey_ne hne, getB_removeKey_self]
      · exact getB_insertKey_self _ _ _
      · intro p hp
        rw [hcs] at hp
        simp only [List.mem_cons, List.not_mem_nil, or_false] at hp
        push_neg at hp
        obtain ⟨hpo, hpd⟩ := hp
        show getB (insertKey (removeKey s.board o) d (.Rook c)) p = getB s.board p
        rw [getB_insertKey_ne hpd, getB_removeKey_ne hpo]
    | Pawn c =>
      rw [postprocess_move_eq_pawn hb] at h
      replace h := Option.some.inj h
      have hs' := pair_eq_fst h
      subst hs'
      cases hm2 : s.moved_2_squares with
      | none =>
        have hcs : changedSquares s o d = [o, d] := by
          unfold changedSquares
          rw [hb, hm2]
        refine ⟨?_, ?_, ?_⟩
        · show getB (insertKey (removeKey s.board o) d (.Pawn c)) o = none
          rw [getB_insertKey_ne hne, getB_removeKey_self]
        · exact getB_insertKey_self _ _ _
        · intro p hp
          rw [hcs] at hp
          simp only [List.mem_cons, List.not_mem_nil, or_false] at hp
          push_neg at hp
          obtain ⟨hpo, hpd⟩ := hp
          show getB (insertKey (removeKey s.board o) d (.Pawn c)) p = getB s.board p
          rw [getB_insertKey_ne hpd, getB_removeKey_ne hpo]
      | some t =>
        have hcs : changedSquares s o d =
            if t.x = d.x ∧ o.y = t.y then [o, d, t] else [o, d] := by
          unfold changedSquares
          rw [hb, hm2]
        by_cases hcap : t.x = d.x ∧ o.y = t.y
        · refine ⟨?_, ?_, ?_⟩
          · show getB (insertKey
              (if t.x = d.x ∧ o.y = t.y then removeKey (removeKey s.board o) t
                else removeKey s.board o) d (.Pawn c)) o = none
            rw [if_pos hcap, getB_insertKey_ne hne]
            by_cases hh : o = t
            · rw [hh, getB_removeKey_self]
            · rw [getB_removeKey_ne hh, getB_removeKey_self]
          · exact getB_insertKey_self _ _ _
          · intro p hp
            rw [hcs, if_pos hcap] at hp
            simp only [List.mem_cons, List.not_mem_nil, or_false] at hp
            push_neg at hp
            obtain ⟨hpo, hpd, hpt⟩ := hp
            show getB (insertKey
              (if t.x = d.x ∧ o.y = t.y then removeKey (removeKey s.board o) t
                else removeKey s.board o) d (.Pawn c)) p = getB s.board p
            rw [if_pos hcap, getB_insertKey_ne hpd, getB_removeKey_ne hpt,
              getB_removeKey_ne hpo]
        · refine ⟨?_, ?_, ?_⟩
          · show getB (insertKey
              (if t.x = d.x ∧ o.y = t.y then removeKey (removeKey s.board o) t
                else removeKey s.board o) d (.Pawn c)) o = none
            rw [if_neg hcap, getB_insertKey_ne hne, getB_removeKey_self]
          · exact getB_insertKey_self _ _ _
          · intro p hp
            rw [hcs, if_neg hcap] at hp
            simp only [List.mem_cons, List.not_mem_nil, or_false] at hp
            push_neg at hp
            obtain ⟨hpo, hpd⟩ := hp
            show getB (insertKey
              (if t.x = d.x ∧ o.y = t.y then removeKey (removeKey s.board o) t
                else removeKey s.board o) d (.Pawn c)) p = getB s.board p
            rw [if_neg hcap, getB_insertKey_ne hpd, getB_removeKey_ne hpo]
    | Queen c =>
      have hcs : changedSquares s o d = [o, d] := by
        unfold changedSquares
        rw [hb]
      rw [postprocess_move_eq_queen hb] at h
      replace h := Option.some.inj h
      have hs' := pair_eq_fst h
      subst hs'
      refine ⟨?_, ?_, ?_⟩
      · show getB (insertKey (removeKey s.board o) d (.Queen c)) o = none
        rw [getB_insertKey_ne hne, getB_removeKey_self]
      · exact getB_insertKey_self _ _ _
      · intro p hp
        rw [hcs] at hp
        simp only [List.mem_cons, List.not_mem_nil, or_false] at hp
        push_neg at hp
        obtain ⟨hpo, hpd⟩ := hp
        show getB (insertKey (removeKey s.board o) d (.Queen c)) p = getB s.board p
        rw [getB_insertKey_ne hpd, getB_removeKey_ne hpo]
    | Bishop c =>
      have hcs : changedSquares s o d = [o, d] := by
        unfold changedSquares
        rw [hb]
      rw [postprocess_move_eq_bishop hb] at h
      replace h := Option.some.inj h
      have hs' := pair_eq_fst h
      subst hs'
      refine ⟨?_, ?_, ?_⟩
      · show getB (insertKey (removeKey s.board o) d (.Bishop c)) o = none
        rw [getB_insertKey_ne hne, getB_removeKey_self]
      · exact getB_insertKey_self _ _ _
      · intro p hp
        rw [hcs] at hp
        simp only [List.mem_cons, List.not_mem_nil, or_false] at hp
        push_neg at hp
        obtain ⟨hpo, hpd⟩ := hp
        show getB (insertKey (removeKey s.board o) d (.Bishop c)) p = getB s.board p
        rw [getB_insertKey_ne hpd, getB_removeKey_ne hpo]
    | Knight c =>
      have hcs : changedSquares s o d = [o, d] := by
        unfold changedSquares
        rw [hb]
      rw [postprocess_move_eq_knight hb] at h
      replace h := Option.some.inj h
      have hs' := pair_eq_fst h
      subst hs'
      refine ⟨?_, ?_, ?_⟩
      · show getB (insertKey (removeKey s.board o) d (.Knight c)) o = none
        rw [getB_insertKey_ne hne, getB_removeKey_self]
      · exact getB_insertKey_self _ _ _
      · intro p hp
        rw [hcs] at hp
        simp only [List.mem_cons, List.not_mem_nil, or_false] at hp
        push_neg at hp
        obtain ⟨hpo, hpd⟩ := hp
        show getB (insertKey (removeKey s.board o) d (.Knight c)) p = getB s.board p
        rw [getB_insertKey_ne hpd, getB_removeKey_ne hpo]

/-! ### Preservation of the state invariant -/

theorem memMovesO_some {om : Option Moves} {o d : Position}
    (h : memMovesO om o d = true) : ∃ m, om = some m ∧ inMoves m o d := by
  cases om with
  | none => cases h
  | some m => exact ⟨m, rfl, memMovesO_iff_inMoves.1 h⟩

theorem removeKey_def (b : Board) (p : Position) : removeKey b p = removeKeyA b p := rfl

theorem insertKey_def (b : Board) (p : Position) (v : PieceType) :
    insertKey b p v = insertKeyA b p v := rfl

theorem countKings_insertKeyA_eq (X : Board) (dd : Position) (v : PieceType)
    (c : PieceColor) :
    countKings (insertKeyA X dd v) c =
      (if v = PieceType.King c then 1 else 0) + countKings (removeKeyA X dd) c := rfl

theorem countKings_move_le {b : Board} {o d : Position} {mp : PieceType}
    (hn : nodupKeysA b) (hb : getB b o = some mp) (c : PieceColor) :
    countKings (insertKey (removeKey b o) d mp) c ≤ countKings b c := by
  rw [removeKey_def, insertKey_def, countKings_insertKeyA_eq]
  have h1 := countKings_removeKeyA_le (removeKeyA b o) d c
  have h2 := countKings_removeKeyA_getB hn hb c
  by_cases hm : mp = PieceType.King c
  · rw [if_pos hm] at h2 ⊢
    omega
  · rw [if_neg hm] at h2 ⊢
    omega

theorem countKings_castle_le {b : Board} {o rh rd d : Position} {c : PieceColor}
    {rk : PieceType} (hn : nodupKeysA b) (hb : getB b o = some (.King c))
    (hr : getB (removeKey b o) rh = some rk) (c' : PieceColor) :
    countKings (insertKey (insertKey (removeKey (removeKey b o) rh) rd rk) d
      (.King c)) c' ≤ countKings b c' := by
  have hn1 : nodupKeysA (removeKeyA b o) := nodupKeysA_removeKeyA o hn
  rw [removeKey_def, removeKey_def, insertKey_def, insertKey_def,
    countKings_insertKeyA_eq]
  have l1 := countKings_removeKeyA_le (insertKeyA (removeKeyA (removeKeyA b o) rh)
    rd rk) d c'
  rw [countKings_insertKeyA_eq] at l1
  have l2 := countKings_removeKeyA_le (removeKeyA (removeKeyA b o) rh) rd c'
  have g1 := countKings_removeKeyA_getB hn1 hr c'
  have g2 := countKings_removeKeyA_getB hn hb c'
  by_cases hcc : c = c'
  · subst hcc
    rw [if_pos rfl] at g2 ⊢
    by_cases hrk : rk = PieceType.King c
    · rw [if_pos hrk] at g1 l1
      omega
    · rw [if_neg hrk] at g1 l1
      omega
  · have hne2 : PieceType.King c ≠ PieceType.King c' := by
      intro hh
      cases hh
      exact hcc rfl
    rw [if_neg hne2] at g2 ⊢
    by_cases hrk : rk = PieceType.King c'
    · rw [if_pos hrk] at g1 l1
      omega
    · rw [if_neg hrk] at g1 l1
      omega

theorem nodup_move {b : Board} (o d : Position) (mp : PieceType)
    (hn : nodupKeysA b) : nodupKeysA (insertKey (removeKey b o) d mp) :=
  nodupKeysA_insertKeyA d mp (nodupKeysA_removeKeyA o hn)

theorem nodup_castle {b : Board} (o rh rd d : Position) (rk mp : PieceType)
    (hn : nodupKeysA b) :
    nodupKeysA (insertKey (insertKey (removeKey (removeKey b o) rh) rd rk) d mp) :=
  nodupKeysA_insertKeyA d mp (nodupKeysA_insertKeyA rd rk
    (nodupKeysA_removeKeyA rh (nodupKeysA_removeKeyA o hn)))

theorem countKings_insert_nonking_le {X : Board} {v : PieceType} (dd : Position)
    (hv : ∀ cc, v ≠ PieceType.King cc) (c' : PieceColor) :
    countKings (insertKeyA X dd v) c' ≤ countKings X c' := by
  rw [countKings_insertKeyA_eq, if_neg (hv c')]
  have := countKings_removeKeyA_le X dd c'
  omega

/-- The origin of a move added by the castling generator holds the mover's
king. -/
theorem castleAdded_king {gd : GameData} {o d : Position}
    (hnd : nodupKeysB gd.board) (hca : CastleAdded gd o d) :
    getB gd.board o = some (.King gd.to_move) := by
  obtain ⟨cst, kp, _, hk, ho, _⟩ := hca
  subst ho
  rw [getK_collect_kings] at hk
  exact lookupA_eq_some_of_mem hnd (lastKing_mem hk)

/-- The pseudo-legal destinations of a pawn are the empty forward square, the
empty-double-step square, or an occupied attack square. -/
theorem normal_pawn_dest {gd : GameData} {o d : Position} {c : PieceColor}
    (hb : getB gd.board o = some (.Pawn c))
    (hd : d ∈ generate_default_moves gd o []) :
    (d = pawnFwd c o ∧ getB gd.board d = none) ∨
    (d = pawnFwd2 c o ∧ o ∈ gd.can_move_2_squares ∧
      getB gd.board (pawnFwd c o) = none ∧ getB gd.board d = none) ∨
    (d ∈ pawnAttackPoints c o ∧ (getB gd.board d).isSome = true) := by
  have hcol : colorD gd.board o = c := by
    unfold colorD
    rw [hb]
    rfl
  unfold generate_default_moves at hd
  rw [hb] at hd
  replace hd : d ∈ generate_moves_pawn gd o [] := hd
  rcases generate_moves_pawn_sound hd with h | h | h | h
  · cases h
  · rw [hcol] at h
    exact Or.inl h
  · rw [hcol] at h
    exact Or.inr (Or.inl h)
  · rw [hcol] at h
    exact Or.inr (Or.inr ⟨h.1, h.2⟩)

/-- A pseudo-legal king destination is at Chebyshev distance one. -/
theorem normal_king_dest {gd : GameData} {o d : Position} {c : PieceColor}
    (hb : getB gd.board o = some (.King c))
    (hd : d ∈ generate_default_moves gd o []) :
    (d.x - o.x).natAbs ≤ 1 ∧ (d.y - o.y).natAbs ≤ 1 := by
  unfold generate_default_moves at hd
  rw [hb] at hd
  replace hd : d ∈ generate_squares_under_attack_for_position gd.board o [] := hd
  unfold generate_squares_under_attack_for_position at hd
  rw [hb] at hd
  replace hd : d ∈ generate_squares_under_attack_king gd.board o [] := hd
  rcases mem_generate_squares_under_attack_king.1 hd with h | ⟨⟨ij, hij, hq⟩, -, -⟩
  · cases h
  · have hx := congrArg Position.x hq
    have hy := congrArg Position.y hq
    simp only at hx hy
    fin_cases hij <;> simp at hx hy <;> constructor <;> omega

/-- Committing a generated move preserves the state invariant. -/
theorem postprocess_preserves_inv {s : GameData} {o d : Position} {s' : GameData}
    {pr : Option Position} (hinv : StateInv s)
    (hmm : memMovesO (generate_moves s) o d = true)
    (h : postprocess_move s o d = some (s', pr)) : StateInv s' := by
  obtain ⟨hnd, hcnt, -⟩ := hinv
  cases hb : getB s.board o with
  | none => rw [postprocess_move_none hb] at h; cases h
  | some mp =>
    cases mp with
    | King c =>
      rw [postprocess_move_eq_king hb] at h
      by_cases h2 : (o.x - d.x).natAbs = 2
      · rw [if_pos h2] at h
        by_cases h6 : d.x = 6
        · rw [if_pos h6] at h
          cases hr : getB (removeKey s.board o) ⟨7, d.y⟩ with
          | none => rw [hr] at h; cases h
          | some rook =>
            rw [hr] at h
            replace h := Option.some.inj h
            have hs' := pair_eq_fst h
            subst hs'
            refine ⟨nodup_castle _ _ _ _ _ _ hnd,
              fun c' => le_trans (countKings_castle_le hnd hb hr c') (hcnt c'), ?_⟩
            intro t ht
            replace ht : (none : Option Position) = some t := ht
            cases ht
        · rw [if_neg h6] at h
          cases hr : getB (removeKey s.board o) ⟨0, d.y⟩ with
          | none => rw [hr] at h; cases h
          | some rook =>
            rw [hr] at h
            replace h := Option.some.inj h
            have hs' := pair_eq_fst h
            subst hs'
            refine ⟨nodup_castle _ _ _ _ _ _ hnd,
              fun c' => le_trans (countKings_castle_le hnd hb hr c') (hcnt c'), ?_⟩
            intro t ht
            replace ht : (none : Option Position) = some t := ht
            cases ht
      · rw [if_neg h2] at h
        replace h := Option.some.inj h
        have hs' := pair_eq_fst h
        subst hs'
        refine ⟨nodup_move _ _ _ hnd,
          fun c' => le_trans (countKings_move_le hnd hb c') (hcnt c'), ?_⟩
        intro t ht
        replace ht : (none : Option Position) = some t := ht
        cases ht
    | Rook c =>
      rw [postprocess_move_eq_rook hb] at h
      replace h := Option.some.inj h
      have hs' := pair_eq_fst h
      subst hs'
      refine ⟨nodup_move _ _ _ hnd,
        fun c' => le_trans (countKings_move_le hnd hb c') (hcnt c'), ?_⟩
      intro t ht
      replace ht : (none : Option Position) = some t := ht
      cases ht
    | Queen c =>
      rw [postprocess_move_eq_queen hb] at h
      replace h := Option.some.inj h
      have hs' := pair_eq_fst h
      subst hs'
      refine ⟨nodup_move _ _ _ hnd,
        fun c' => le_trans (countKings_move_le hnd hb c') (hcnt c'), ?_⟩
      intro t ht
      replace ht : (none : Option Position) = some t := ht
      cases ht
    | Bishop c =>
      rw [postprocess_move_eq_bishop hb] at h
      replace h := Option.some.inj h
      have hs' := pair_eq_fst h
      subst hs'
      refine ⟨nodup_move _ _ _ hnd,
        fun c' => le_trans (countKings_move_le hnd hb c') (hcnt c'), ?_⟩
      intro t ht
      replace ht : (none : Option Position) = some t := ht
      cases ht
    | Knight c =>
      rw [postprocess_move_eq_knight hb] at h
      replace h := Option.some.inj h
      have hs' := pair_eq_fst h
      subst hs'
      refine ⟨nodup_move _ _ _ hnd,
        fun c' => le_trans (countKings_move_le hnd hb c') (hcnt c'), ?_⟩
      intro t ht
      replace ht : (none : Option Position) = some t := ht
      cases ht
    | Pawn c =>
      rw [postprocess_move_eq_pawn hb] at h
      replace h := Option.some.inj h
      have hs' := pair_eq_fst h
      subst hs'
      cases hm2 : s.moved_2_squares with
      | some t0 =>
        by_cases hcap : t0.x = d.x ∧ o.y = t0.y
        · refine ⟨?_, ?_, ?_⟩
          · show nodupKeysB (insertKey
              (if t0.x = d.x ∧ o.y = t0.y then removeKey (removeKey s.board o) t0
                else removeKey s.board o) d (.Pawn c))
            rw [if_pos hcap]
            exact nodupKeysA_insertKeyA d _ (nodupKeysA_removeKeyA t0
              (nodupKeysA_removeKeyA o hnd))
          · intro c'
            show countKings (insertKey
              (if t0.x = d.x ∧ o.y = t0.y then removeKey (removeKey s.board o) t0
                else removeKey s.board o) d (.Pawn c)) c' ≤ 1
            rw [if_pos hcap]
            refine le_trans (countKings_insert_nonking_le d
              (fun cc hh => by cases hh) c') ?_
            refine le_trans (countKings_removeKeyA_le _ t0 c') ?_
            exact le_trans (countKings_removeKeyA_le _ o c') (hcnt c')
          · intro t ht
            replace ht : (none : Option Position) = some t := ht
            cases ht
        · refine ⟨?_, ?_, ?_⟩
          · show nodupKeysB (insertKey
              (if t0.x = d.x ∧ o.y = t0.y then removeKey (removeKey s.board o) t0
                else removeKey s.board o) d (.Pawn c))
            rw [if_neg hcap]
            exact nodup_move _ _ _ hnd
          · intro c'
            show countKings (insertKey
              (if t0.x = d.x ∧ o.y = t0.y then removeKey (removeKey s.board o) t0
                else removeKey s.board o) d (.Pawn c)) c' ≤ 1
            rw [if_neg hcap]
            exact le_trans (countKings_move_le hnd hb c') (hcnt c')
          · intro t ht
            replace ht : (none : Option Position) = some t := ht
            cases ht
      | none =>
        refine ⟨nodup_move _ _ _ hnd,
          fun c' => le_trans (countKings_move_le hnd hb c') (hcnt c'), ?_⟩
        intro t ht
        replace ht : (if (o.y - d.y).natAbs = 2 then some d else none) = some t := ht
        by_cases hna : (o.y - d.y).natAbs = 2
        · rw [if_pos hna] at ht
          replace ht := Option.some.inj ht
          subst ht
          obtain ⟨m, hg, hmv⟩ := memMovesO_some hmm
          rcases generate_moves_sound hg hmv with hN | hE | hC
          · obtain ⟨pt, hmem, hcol, hdm, -⟩ := hN
            have hpt : getB s.board o = some pt := lookupA_eq_some_of_mem hnd hmem
            rw [hb] at hpt
            replace hpt := Option.some.inj hpt
            rw [← hpt] at hcol
            replace hcol : c = s.to_move := hcol
            rcases normal_pawn_dest hb hdm with ⟨hdf, -⟩ | ⟨hdf, -, hmid, -⟩ |
              ⟨hdp, -⟩
            · exfalso
              rw [hdf] at hna
              cases c <;> simp [pawnFwd] at hna
            · have hsk : skippedSquare d s.to_move.get_opposite = pawnFwd c o := by
                rw [← hcol, hdf]
                cases c
                · show (⟨o.x, o.y - 2 + 1⟩ : Position) = (⟨o.x, o.y - 1⟩ : Position)
                  congr 1
                  ring
                · show (⟨o.x, o.y + 2 + -1⟩ : Position) = (⟨o.x, o.y + 1⟩ : Position)
                  congr 1
                  ring
              have hfo : pawnFwd c o ≠ o := by
                intro hh
                have hy := congrArg Position.y hh
                cases c <;> simp only [pawnFwd] at hy <;> omega
              have hfd : pawnFwd c o ≠ d := by
                intro hh
                rw [hdf] at hh
                have hy := congrArg Position.y hh
                cases c <;> simp only [pawnFwd, pawnFwd2] at hy <;> omega
              show getB (insertKey (removeKey s.board o) d (.Pawn c))
                (skippedSquare d s.to_move.get_opposite) = none
              rw [hsk, getB_insertKey_ne hfd, getB_removeKey_ne hfo]
              exact hmid
            · exfalso
              cases c <;> simp [pawnAttackPoints] at hdp <;>
                rcases hdp with hdp | hdp <;> rw [hdp] at hna <;> simp at hna
          · obtain ⟨t1, pc1, hm2e, -⟩ := hE
            rw [hm2] at hm2e
            cases hm2e
          · have hk := castleAdded_king hnd hC
            rw [hb] at hk
            cases Option.some.inj hk
        · rw [if_neg hna] at ht
          cases ht

/-- The initial state satisfies the invariant. -/
theorem default_inv : StateInv default_game_data := by
  refine ⟨?_, ?_, ?_⟩
  · show (default_game_data.board.map Prod.fst).Nodup
    decide
  · intro c
    cases c <;> decide
  · intro t ht
    replace ht : (none : Option Position) = some t := ht
    cases ht

/-- Every engine-reachable state satisfies the invariant. -/
theorem reachable_inv {s : GameData} (h : Reachable s) : StateInv s := by
  induction h with
  | init => exact default_inv
  | step hr hm hp ih => exact postprocess_preserves_inv ih hm hp

theorem get_opposite_ne (c : PieceColor) : c.get_opposite ≠ c := by
  cases c <;> decide

/-! ### Attack transfer onto the castling simulation board -/

theorem rayPos_inj_nat {p : Position} {dir : Int × Int}
    (hd : ¬(dir.1 = 0 ∧ dir.2 = 0)) {j k : Nat}
    (h : rayPos p dir (j : Int) = rayPos p dir (k : Int)) : j = k := by
  have hx := congrArg Position.x h
  have hy := congrArg Position.y h
  simp only [rayPos] at hx hy
  have h1 : ((j : Int) - k) * dir.1 = 0 := by
    have : (j : Int) * dir.1 = k * dir.1 := by linarith
    rw [sub_mul, this, sub_self]
  have h2 : ((j : Int) - k) * dir.2 = 0 := by
    have : (j : Int) * dir.2 = k * dir.2 := by linarith
    rw [sub_mul, this, sub_self]
  rcases mul_eq_zero.1 h1 with h1' | h1'
  · omega
  · rcases mul_eq_zero.1 h2 with h2' | h2'
    · omega
    · exact absurd ⟨h1', h2'⟩ hd

theorem rookDirs_ne_zero : ∀ dd ∈ rookDirs, ¬(dd.1 = 0 ∧ dd.2 = 0) := by decide

theorem bishopDirs_ne_zero : ∀ dd ∈ bishopDirs, ¬(dd.1 = 0 ∧ dd.2 = 0) := by decide

theorem queenDirs_ne_zero : ∀ dd ∈ bishopDirs ++ rookDirs, ¬(dd.1 = 0 ∧ dd.2 = 0) := by
  decide

theorem getB_sim_eq {b : Board} {o d q : Position} {v : PieceType}
    (h1 : q ≠ o) (h2 : q ≠ d) :
    getB (insertKey (removeKey b o) d v) q = getB b q := by
  rw [getB_insertKey_ne h2, getB_removeKey_ne h1]

/-- A ray hit of the simulation board transfers to a hit of the original
board, either at the same square or (when the vacated king square blocked the
ray) at the king's square. -/
theorem chunk_transfer {b : Board} {tm : PieceColor} {o d e1 : Position}
    {c' : PieceColor} {dirs : List (Int × Int)}
    (hdz : ∀ dd ∈ dirs, ¬(dd.1 = 0 ∧ dd.2 = 0))
    (hb : getB b o = some (.King tm)) (hdemp : getB b d = none)
    (hcne : tm ≠ c')
    (h : ∃ dir ∈ dirs, ChunkHit (insertKey (removeKey b o) d (.King tm)) c' e1 dir d) :
    (∃ dir ∈ dirs, ChunkHit b c' e1 dir d) ∨
      (∃ dir ∈ dirs, ChunkHit b c' e1 dir o) := by
  obtain ⟨dir, hdir, k, hk1, hk8, hint, hray, hv, -⟩ := h
  have hdz' := hdz dir hdir
  by_cases hno : ∀ j : Nat, 1 ≤ j → j < k → rayPos e1 dir j ≠ o
  · left
    refine ⟨dir, hdir, k, hk1, hk8, ?_, hray, hv, Or.inl hdemp⟩
    intro j hj1 hjk
    obtain ⟨hjv, hje⟩ := hint j hj1 hjk
    refine ⟨hjv, ?_⟩
    have hjd : rayPos e1 dir (j : Int) ≠ d := by
      intro hh
      rw [hray] at hh
      have := rayPos_inj_nat hdz' hh
      omega
    rw [← getB_sim_eq (hno j hj1 hjk) hjd]
    exact hje
  · push_neg at hno
    obtain ⟨j, hj1, hjk, hjo⟩ := hno
    right
    refine ⟨dir, hdir, j, hj1, by omega, ?_, hjo.symm, ?_, ?_⟩
    · intro i hi1 hij
      obtain ⟨hiv, hie⟩ := hint i hi1 (by omega)
      refine ⟨hiv, ?_⟩
      have hio : rayPos e1 dir (i : Int) ≠ o := by
        intro hh
        rw [← hjo] at hh
        have := rayPos_inj_nat hdz' hh
        omega
      have hid : rayPos e1 dir (i : Int) ≠ d := by
        intro hh
        rw [hray] at hh
        have := rayPos_inj_nat hdz' hh
        omega
      rw [← getB_sim_eq hio hid]
      exact hie
    · rw [← hjo]
      exact (hint j hj1 hjk).1
    · exact Or.inr ⟨.King tm, hb, hcne⟩

theorem colorD_eq {b : Board} {p : Position} {v : PieceType}
    (h : getB b p = some v) : colorD b p = v.get_color := by
  unfold colorD
  rw [h]

theorem for_position_eq_king {b : Board} {p : Position} {c : PieceColor}
    (h : getB b p = some (.King c)) (out : List Position) :
    generate_squares_under_attack_for_position b p out =
      generate_squares_under_attack_king b p out := by
  unfold generate_squares_under_attack_for_position
  rw [h]

theorem for_position_eq_queen {b : Board} {p : Position} {c : PieceColor}
    (h : getB b p = some (.Queen c)) (out : List Position) :
    generate_squares_under_attack_for_position b p out =
      generate_squares_under_attack_queen b p out := by
  unfold generate_squares_under_attack_for_position
  rw [h]

theorem for_position_eq_bishop {b : Board} {p : Position} {c : PieceColor}
    (h : getB b p = some (.Bishop c)) (out : List Position) :
    generate_squares_under_attack_for_position b p out =
      generate_squares_under_attack_bishop b p out := by
  unfold generate_squares_under_attack_for_position
  rw [h]

theorem for_position_eq_knight {b : Board} {p : Position} {c : PieceColor}
    (h : getB b p = some (.Knight c)) (out : List Position) :
    generate_squares_under_attack_for_position b p out =
      generate_squares_under_attack_knight b p out := by
  unfold generate_squares_under_attack_for_position
  rw [h]

theorem for_position_eq_rook {b : Board} {p : Position} {c : PieceColor}
    (h : getB b p = some (.Rook c)) (out : List Position) :
    generate_squares_under_attack_for_position b p out =
      generate_squares_under_attack_rook b p out := by
  unfold generate_squares_under_attack_for_position
  rw [h]

theorem for_position_eq_pawn {b : Board} {p : Position} {c : PieceColor}
    (h : getB b p = some (.Pawn c)) (out : List Position) :
    generate_squares_under_attack_for_position b p out =
      generate_squares_under_attack_pawn b p out := by
  unfold generate_squares_under_attack_for_position
  rw [h]

/-- An attack on the castling destination of the simulated board implies an
attack on the destination or on the king's own square of the original board. -/
theorem castle_sim_attack_d {b : Board} {tm : PieceColor} {o d : Position}
    (hnd : nodupKeysA b) (hb : getB b o = some (.King tm))
    (hdemp : getB b d = none) (hod : o ≠ d)
    (hatt : d ∈ generate_squares_under_attack_for_side
      (insertKey (removeKey b o) d (.King tm)) tm.get_opposite []) :
    d ∈ generate_squares_under_attack_for_side b tm.get_opposite [] ∨
      o ∈ generate_squares_under_attack_for_side b tm.get_opposite [] := by
  have hcne : tm ≠ tm.get_opposite := (get_opposite_ne tm).symm
  rcases mem_generate_squares_under_attack_for_side.1 hatt with h | ⟨e, he, hec, hattp⟩
  · cases h
  rcases mem_insertKeyA.1 he with he1 | ⟨he2, hed⟩
  · exfalso
    subst he1
    exact get_opposite_ne tm hec.symm
  obtain ⟨heb, heo⟩ := mem_removeKeyA.1 he2
  obtain ⟨ep, et⟩ := e
  replace heo : ep ≠ o := heo
  replace hed : ep ≠ d := hed
  replace hec : et.get_color = tm.get_opposite := hec
  have hlb : getB b ep = some et := lookupA_eq_some_of_mem hnd heb
  have hlsim : getB (insertKey (removeKey b o) d (.King tm)) ep = some et := by
    rw [getB_sim_eq heo hed]
    exact hlb
  have hcd1 : colorD (insertKey (removeKey b o) d (.King tm)) ep = et.get_color :=
    colorD_eq hlsim
  have hcd2 : colorD b ep = et.get_color := colorD_eq hlb
  have hvac : ∀ piece : PieceType, getB b d = some piece →
      piece.get_color ≠ colorD b ep := by
    intro piece hp
    rw [hdemp] at hp
    cases hp
  cases et with
  | King c2 =>
    rw [for_position_eq_king hlsim] at hattp
    rcases mem_generate_squares_under_attack_king.1 hattp with h | ⟨hpts, hv, -⟩
    · cases h
    refine Or.inl (mem_generate_squares_under_attack_for_side.2 (Or.inr
      ⟨(ep, .King c2), heb, hec, ?_⟩))
    rw [for_position_eq_king hlb]
    exact mem_generate_squares_under_attack_king.2 (Or.inr ⟨hpts, hv, hvac⟩)
  | Knight c2 =>
    rw [for_position_eq_knight hlsim] at hattp
    rcases mem_generate_squares_under_attack_knight.1 hattp with h | ⟨hpts, hv, -⟩
    · cases h
    refine Or.inl (mem_generate_squares_under_attack_for_side.2 (Or.inr
      ⟨(ep, .Knight c2), heb, hec, ?_⟩))
    rw [for_position_eq_knight hlb]
    exact mem_generate_squares_under_attack_knight.2 (Or.inr ⟨hpts, hv, hvac⟩)
  | Pawn c2 =>
    rw [for_position_eq_pawn hlsim] at hattp
    rcases mem_generate_squares_under_attack_pawn.1 hattp with h | ⟨hpts, hv, -⟩
    · cases h
    rw [hcd1] at hpts
    refine Or.inl (mem_generate_squares_under_attack_for_side.2 (Or.inr
      ⟨(ep, .Pawn c2), heb, hec, ?_⟩))
    rw [for_position_eq_pawn hlb]
    refine mem_generate_squares_under_attack_pawn.2 (Or.inr ⟨?_, hv, hvac⟩)
    rw [hcd2]
    exact hpts
  | Rook c2 =>
    rw [for_position_eq_rook hlsim] at hattp
    rcases mem_generate_vertical_horizontal.1 hattp with h | hhit
    · cases h
    rw [hcd1] at hhit
    have hcne2 : tm ≠ (PieceType.Rook c2).get_color := by
      rw [hec]
      exact hcne
    rcases chunk_transfer rookDirs_ne_zero hb hdemp hcne2 hhit with hh | hh
    · refine Or.inl (mem_generate_squares_under_attack_for_side.2 (Or.inr
        ⟨(ep, .Rook c2), heb, hec, ?_⟩))
      rw [for_position_eq_rook hlb]
      refine mem_generate_vertical_horizontal.2 (Or.inr ?_)
      rw [hcd2]
      exact hh
    · refine Or.inr (mem_generate_squares_under_attack_for_side.2 (Or.inr
        ⟨(ep, .Rook c2), heb, hec, ?_⟩))
      rw [for_position_eq_rook hlb]
      refine mem_generate_vertical_horizontal.2 (Or.inr ?_)
      rw [hcd2]
      exact hh
  | Bishop c2 =>
    rw [for_position_eq_bishop hlsim] at hattp
    rcases mem_generate_cross.1 hattp with h | hhit
    · cases h
    rw [hcd1] at hhit
    have hcne2 : tm ≠ (PieceType.Bishop c2).get_color := by
      rw [hec]
      exact hcne
    rcases chunk_transfer bishopDirs_ne_zero hb hdemp hcne2 hhit with hh | hh
    · refine Or.inl (mem_generate_squares_under_attack_for_side.2 (Or.inr
        ⟨(ep, .Bishop c2), heb, hec, ?_⟩))
      rw [for_position_eq_bishop hlb]
      refine mem_generate_cross.2 (Or.inr ?_)
      rw [hcd2]
      exact hh
    · refine Or.inr (mem_generate_squares_under_attack_for_side.2 (Or.inr
        ⟨(ep, .Bishop c2), heb, hec, ?_⟩))
      rw [for_position_eq_bishop hlb]
      refine mem_generate_cross.2 (Or.inr ?_)
      rw [hcd2]
      exact hh
  | Queen c2 =>
    rw [for_position_eq_queen hlsim] at hattp
    rcases mem_generate_squares_under_attack_queen.1 hattp with h | hhit
    · cases h
    rw [hcd1] at hhit
    have hcne2 : tm ≠ (PieceType.Queen c2).get_color := by
      rw [hec]
      exact hcne
    rcases chunk_transfer queenDirs_ne_zero hb hdemp hcne2 hhit with hh | hh
    · refine Or.inl (mem_generate_squares_under_attack_for_side.2 (Or.inr
        ⟨(ep, .Queen c2), heb, hec, ?_⟩))
      rw [for_position_eq_queen hlb]
      refine mem_generate_squares_under_attack_queen.2 (Or.inr ?_)
      rw [hcd2]
      exact hh
    · refine Or.inr (mem_generate_squares_under_attack_for_side.2 (Or.inr
        ⟨(ep, .Queen c2), heb, hec, ?_⟩))
      rw [for_position_eq_queen hlb]
      refine mem_generate_squares_under_attack_queen.2 (Or.inr ?_)
      rw [hcd2]
      exact hh

/-- A move added by the castling generator passes the remove/place
simulation: the conditions the generator checked keep the relocated king out
of the opponent's attack set. -/
theorem castle_safe {s : GameData} (hnd : nodupKeysB s.board)
    (hcnt : ∀ c, countKings s.board c ≤ 1) {o d : Position}
    (hca : CastleAdded s o d) : try_make_move s o d = some true := by
  have hb : getB s.board o = some (.King s.to_move) := castleAdded_king hnd hca
  obtain ⟨cst, kp0, hc, hk, ho, hkatt, hcase⟩ := hca
  subst ho
  have hdemp : getB s.board d = none := by
    rcases hcase with ⟨-, hd, he6, -, -, -⟩ | ⟨-, hd, -, he2, -, -, -⟩
    · rw [hd]
      exact he6
    · rw [hd]
      exact he2
  have hdatt : memB (attackSideL s) d = false := by
    rcases hcase with ⟨-, hd, -, -, ha6, -⟩ | ⟨-, hd, -, -, -, ha2, -⟩
    · rw [hd]
      exact ha6
    · rw [hd]
      exact ha2
  have hod : o ≠ d := by
    intro hh
    rw [← hh] at hdemp
    rw [hdemp] at hb
    cases hb
  unfold try_make_move
  rw [hb]
  have hcnt0 : countKings (removeKeyA s.board o) s.to_move = 0 := by
    have hcm := countKings_removeKeyA_getB hnd hb s.to_move
    rw [if_pos rfl] at hcm
    have hpos := countKings_pos_of_mem (mem_of_lookupA_eq_some hb)
    have := hcnt s.to_move
    omega
  have hcnt1 : countKings (removeKeyA (removeKeyA s.board o) d) s.to_move = 0 := by
    have := countKings_removeKeyA_le (removeKeyA s.board o) d s.to_move
    omega
  have hlast : lastKing (insertKey (removeKey s.board o) d (.King s.to_move))
      s.to_move = some d := by
    rw [show insertKey (removeKey s.board o) d (.King s.to_move) =
      ((d, PieceType.King s.to_move) :: removeKeyA (removeKeyA s.board o) d)
      from rfl, lastKing_cons]
    have htail : lastKing (removeKeyA (removeKeyA s.board o) d) s.to_move = none := by
      rw [lastKing_eq_none_iff]
      intro p hp
      have := countKings_pos_of_mem hp
      omega
    rw [htail]
    show (if s.to_move = s.to_move then some d else none) = some d
    rw [if_pos rfl]
  have hnot : d ∉ generate_squares_under_attack_for_side
      (insertKey (removeKey s.board o) d (.King s.to_move))
      s.to_move.get_opposite [] := by
    intro hmem'
    rcases castle_sim_attack_d hnd hb hdemp hod hmem' with hd' | ho'
    · have hmb := (memB_iff _ d).2 hd'
      rw [show generate_squares_under_attack_for_side s.board
        s.to_move.get_opposite [] = attackSideL s from rfl] at hmb
      rw [hdatt] at hmb
      cases hmb
    · have hmb := (memB_iff _ o).2 ho'
      rw [show generate_squares_under_attack_for_side s.board
        s.to_move.get_opposite [] = attackSideL s from rfl] at hmb
      rw [hkatt] at hmb
      cases hmb
  have hfalse : memB (generate_squares_under_attack_for_side
      (insertKey (removeKey s.board o) d (.King s.to_move))
      s.to_move.get_opposite []) d = false := by
    cases hmb : memB (generate_squares_under_attack_for_side
      (insertKey (removeKey s.board o) d (.King s.to_move))
      s.to_move.get_opposite []) d with
    | false => rfl
    | true => exact absurd ((memB_iff _ _).1 hmb) hnot
  show verify_board s.to_move
    (insertKey (removeKey s.board o) d (.King s.to_move)) = some true
  unfold verify_board
  rw [getK_collect_kings, hlast]
  show some (!(memB (generate_squares_under_attack_for_side
    (insertKey (removeKey s.board o) d (.King s.to_move))
    s.to_move.get_opposite []) d)) = some true
  rw [hfalse]
  rfl

theorem holdsPawn_some {b : Board} {p : Position} (h : holdsPawn b p = true) :
    ∃ cc, getB b p = some (.Pawn cc) := by
  unfold holdsPawn at h
  cases hb : getB b p with
  | none => rw [hb] at h; cases h
  | some v =>
    rw [hb] at h
    cases v with
    | Pawn cc => exact ⟨cc, rfl⟩
    | King cc => cases h
    | Queen cc => cases h
    | Bishop cc => cases h
    | Knight cc => cases h
    | Rook cc => cases h

/-- Every move the generator returns in a reachable state passes the claim's
(en-passant-aware) simulation. -/
theorem legal_move_sim_safe {s : GameData} (hreach : Reachable s)
    {o d : Position} (hmm : memMovesO (generate_moves s) o d = true) :
    claimSim s o d = some true := by
  obtain ⟨hnd, hcnt, hep⟩ := reachable_inv hreach
  obtain ⟨m, hg, hmv⟩ := memMovesO_some hmm
  rcases generate_moves_sound hg hmv with hN | hE | hC
  · obtain ⟨pt, hmem, hcol, hdm, htry⟩ := hN
    have hbo : getB s.board o = some pt := lookupA_eq_some_of_mem hnd hmem
    cases hm2 : s.moved_2_squares with
    | none =>
      have hshape : epShape s o d = false := by
        unfold epShape
        rw [hm2]
      unfold claimSim
      rw [hshape, if_neg Bool.false_ne_true]
      exact htry
    | some t =>
      cases hsh : epShape s o d with
      | false =>
        unfold claimSim
        rw [hsh, if_neg Bool.false_ne_true]
        exact htry
      | true =>
        exfalso
        unfold epShape at hsh
        rw [hm2, Bool.and_eq_true, Bool.and_eq_true, Bool.and_eq_true,
          Bool.or_eq_true] at hsh
        obtain ⟨⟨⟨hpw, hoy⟩, hox⟩, hdd⟩ := hsh
        replace hoy : o.y = t.y := of_decide_eq_true hoy
        replace hox : o.x = t.x - 1 ∨ o.x = t.x + 1 := by
          rcases hox with h | h
          · exact Or.inl (of_decide_eq_true h)
          · exact Or.inr (of_decide_eq_true h)
        replace hdd : d = ⟨t.x, o.y + ymod s.to_move⟩ := of_decide_eq_true hdd
        obtain ⟨pc', hbp⟩ := holdsPawn_some hpw
        rw [hbo] at hbp
        replace hbp := Option.some.inj hbp
        subst hbp
        have hde : getB s.board d = none := by
          have hsk := hep t hm2
          have heq : skippedSquare t s.to_move = d := by
            rw [hdd]
            unfold skippedSquare
            rw [hoy]
          rw [← heq]
          exact hsk
        have hdx : d.x = t.x := by
          rw [hdd]
        rcases normal_pawn_dest hbo hdm with ⟨hdf, -⟩ | ⟨hdf, -, -, -⟩ | ⟨-, hocc⟩
        · have hfx : d.x = o.x := by
            rw [hdf]
            cases pc' <;> rfl
          omega
        · have hfx : d.x = o.x := by
            rw [hdf]
            cases pc' <;> rfl
          omega
        · rw [hde] at hocc
          cases hocc
  · obtain ⟨t, pc, hm2, hbt, hoadj, hov, ⟨pc2, hbo⟩, hopp, hd, b, hcap, hver⟩ := hE
    have hoy : o.y = t.y := by
      rcases hoadj with h | h <;> rw [h]
    have hofx : o.x = t.x - 1 ∨ o.x = t.x + 1 := by
      rcases hoadj with h | h
      · exact Or.inl (by rw [h])
      · exact Or.inr (by rw [h])
    have hshape : epShape s o d = true := by
      unfold epShape
      rw [hm2, Bool.and_eq_true, Bool.and_eq_true, Bool.and_eq_true,
        Bool.or_eq_true]
      refine ⟨⟨⟨?_, decide_eq_true hoy⟩, ?_⟩, decide_eq_true hd⟩
      · unfold holdsPawn
        rw [hbo]
      · rcases hofx with h | h
        · exact Or.inl (decide_eq_true h)
        · exact Or.inr (decide_eq_true h)
    unfold claimSim
    rw [hshape, if_pos rfl, hm2]
    show (match ep_capture_board s.board t o d with
      | none => none
      | some b => verify_board s.to_move b) = some true
    rw [hcap]
    exact hver
  · have hbk := castleAdded_king hnd hC
    have hshape : epShape s o d = false := by
      unfold epShape
      cases hm2 : s.moved_2_squares with
      | none => rfl
      | some t =>
        have h1 : holdsPawn s.board o = false := by
          unfold holdsPawn
          rw [hbk]
        rw [h1]
        simp
    unfold claimSim
    rw [hshape, if_neg Bool.false_ne_true]
    exact castle_safe hnd hcnt hC

/-! ### Ray-local characterization for the sliding pieces -/

theorem ray_cross {p : Position} {dir dd : Int × Int} {m k' : Nat}
    (h1 : dir ∈ bishopDirs ++ rookDirs) (h2 : dd ∈ bishopDirs ++ rookDirs)
    (hm : 1 ≤ m) (hk' : 1 ≤ k')
    (heq : rayPos p dir (m : Int) = rayPos p dd (k' : Int)) :
    dir.1 = dd.1 ∧ dir.2 = dd.2 ∧ m = k' := by
  have hx := congrArg Position.x heq
  have hy := congrArg Position.y heq
  simp only [rayPos] at hx hy
  fin_cases h1 <;> fin_cases h2 <;> simp at hx hy ⊢ <;> omega

theorem ray_len_le {p : Position} {dd : Int × Int} {k : Nat}
    (hdd : dd ∈ bishopDirs ++ rookDirs) (hp : is_valid_chess_position p)
    (hv : is_valid_chess_position (rayPos p dd (k : Int))) (hk1 : 1 ≤ k) :
    k ≤ 8 := by
  unfold is_valid_chess_position rayPos at hv
  unfold is_valid_chess_position at hp
  fin_cases hdd <;> simp at hv <;> omega

/-- The single-ray behaviour of a sliding attack set: given a ray whose
strictly closer squares are empty and in bounds, the square at distance `k`
is attacked when empty or enemy-occupied, is not attacked when
friendly-occupied, and once it is occupied at all, nothing farther along the
ray is attacked. -/
theorem rayProps {board : Board} {c : PieceColor} {p : Position}
    {dirs : List (Int × Int)} {S : List Position}
    (hS : ∀ q, q ∈ S ↔ ∃ dd ∈ dirs, ChunkHit board c p dd q)
    (hsub : ∀ dd ∈ dirs, dd ∈ bishopDirs ++ rookDirs)
    {dir : Int × Int} (hdir : dir ∈ dirs) (hp : is_valid_chess_position p)
    {k : Nat} (hk : 1 ≤ k)
    (hval : ∀ j : Nat, 1 ≤ j → j ≤ k → is_valid_chess_position (rayPos p dir j))
    (hemp : ∀ j : Nat, 1 ≤ j → j < k → getB board (rayPos p dir j) = none) :
    (getB board (rayPos p dir k) = none → rayPos p dir k ∈ S) ∧
    (∀ piece, getB board (rayPos p dir k) = some piece → piece.get_color ≠ c →
      rayPos p dir k ∈ S) ∧
    (∀ piece, getB board (rayPos p dir k) = some piece → piece.get_color = c →
      rayPos p dir k ∉ S) ∧
    (∀ piece, getB board (rayPos p dir k) = some piece →
      ∀ m : Nat, k < m → rayPos p dir m ∉ S) := by
  have hk8 : k ≤ 8 :=
    ray_len_le (hsub dir hdir) hp (hval k hk (Nat.le_refl k)) hk
  have hint : ∀ j : Nat, 1 ≤ j → j < k →
      is_valid_chess_position (rayPos p dir j) ∧
        getB board (rayPos p dir j) = none :=
    fun j hj1 hjk => ⟨hval j hj1 (Nat.le_of_lt hjk), hemp j hj1 hjk⟩
  refine ⟨?_, ?_, ?_, ?_⟩
  · intro hempk
    exact (hS _).2 ⟨dir, hdir, k, hk, hk8, hint, rfl, hval k hk (Nat.le_refl k),
      Or.inl hempk⟩
  · intro piece hocc hne
    exact (hS _).2 ⟨dir, hdir, k, hk, hk8, hint, rfl, hval k hk (Nat.le_refl k),
      Or.inr ⟨piece, hocc, hne⟩⟩
  · intro piece hocc hcol hin
    obtain ⟨dd, hdd2, k', hk'1, hk'8, hint', hq', hv', hocc'⟩ := (hS _).1 hin
    obtain ⟨e1, e2, e3⟩ := ray_cross (hsub dir hdir) (hsub dd hdd2) hk hk'1 hq'
    have hde : dir = dd := Prod.ext_iff.2 ⟨e1, e2⟩
    subst hde
    subst e3
    rw [← hq'] at hocc'
    rcases hocc' with hnone | ⟨piece', hocc'', hne'⟩
    · rw [hocc] at hnone
      cases hnone
    · rw [hocc] at hocc''
      exact hne' (by rw [← Option.some.inj hocc'']; exact hcol)
  · intro piece hocc m hkm hin
    obtain ⟨dd, hdd2, k', hk'1, hk'8, hint', hq', hv', hocc'⟩ := (hS _).1 hin
    obtain ⟨e1, e2, e3⟩ := ray_cross (hsub dir hdir) (hsub dd hdd2)
      (by omega) hk'1 hq'
    have hde : dir = dd := Prod.ext_iff.2 ⟨e1, e2⟩
    subst hde
    subst e3
    have := (hint' k hk (by omega)).2
    rw [this] at hocc
    cases hocc

/-- C7: the attack set of a sliding piece, restricted to one of its rays. -/
theorem sliding_ray_attack {board : Board} {p : Position} {t : PieceType}
    (hb : getB board p = some t) {dir : Int × Int} (hdir : dir ∈ slidingDirs t)
    (hp : is_valid_chess_position p) {k : Nat} (hk : 1 ≤ k)
    (hval : ∀ j : Nat, 1 ≤ j → j ≤ k → is_valid_chess_position (rayPos p dir j))
    (hemp : ∀ j : Nat, 1 ≤ j → j < k → getB board (rayPos p dir j) = none) :
    (getB board (rayPos p dir k) = none →
      rayPos p dir k ∈ generate_squares_under_attack_for_position board p []) ∧
    (∀ piece, getB board (rayPos p dir k) = some piece →
      piece.get_color ≠ t.get_color →
      rayPos p dir k ∈ generate_squares_under_attack_for_position board p []) ∧
    (∀ piece, getB board (rayPos p dir k) = some piece →
      piece.get_color = t.get_color →
      rayPos p dir k ∉ generate_squares_under_attack_for_position board p []) ∧
    (∀ piece, getB board (rayPos p dir k) = some piece →
      ∀ m : Nat, k < m →
        rayPos p dir m ∉ generate_squares_under_attack_for_position board p []) := by
  cases t with
  | Rook c2 =>
    refine rayProps ?_ ?_ hdir hp hk hval hemp
    · intro q
      rw [for_position_eq_rook hb]
      have hch := @mem_generate_vertical_horizontal board p q []
      simp only [List.not_mem_nil, false_or] at hch
      rw [colorD_eq hb] at hch
      exact hch
    · intro dd hdd
      exact List.mem_append_right _ hdd
  | Bishop c2 =>
    refine rayProps ?_ ?_ hdir hp hk hval hemp
    · intro q
      rw [for_position_eq_bishop hb]
      have hch := @mem_generate_cross board p q []
      simp only [List.not_mem_nil, false_or] at hch
      rw [colorD_eq hb] at hch
      exact hch
    · intro dd hdd
      exact List.mem_append_left _ hdd
  | Queen c2 =>
    refine rayProps ?_ ?_ hdir hp hk hval hemp
    · intro q
      rw [for_position_eq_queen hb]
      have hch := @mem_generate_squares_under_attack_queen board p q []
      simp only [List.not_mem_nil, false_or] at hch
      rw [colorD_eq hb] at hch
      exact hch
    · intro dd hdd
      exact hdd
  | King c2 => exact absurd hdir (List.not_mem_nil dir)
  | Knight c2 => exact absurd hdir (List.not_mem_nil dir)
  | Pawn c2 => exact absurd hdir (List.not_mem_nil dir)

/-- C6: with the mover's king on file 4 of rank `y` (and the board sane), the
castling generator's moves to file 6 and file 2 are present exactly under the
claimed conditions. -/
theorem castling_move_iff {s : GameData} {m : Moves} {y : Int}
    (hg : generate_moves s = some m)
    (hnd : nodupKeysB s.board) (hcnt : ∀ c, countKings s.board c ≤ 1)
    (hky : ((⟨4, y⟩ : Position), PieceType.King s.to_move) ∈ s.board) :
    (memMovesO (some m) ⟨4, y⟩ ⟨6, y⟩ = true ↔
      (∃ cst, getC s.castling s.to_move = some cst ∧ cst.king_side = true) ∧
      memB (attackSideL s) ⟨4, y⟩ = false ∧
      getB s.board ⟨5, y⟩ = none ∧ getB s.board ⟨6, y⟩ = none ∧
      memB (attackSideL s) ⟨5, y⟩ = false ∧ memB (attackSideL s) ⟨6, y⟩ = false) ∧
    (memMovesO (some m) ⟨4, y⟩ ⟨2, y⟩ = true ↔
      (∃ cst, getC s.castling s.to_move = some cst ∧ cst.queen_side = true) ∧
      memB (attackSideL s) ⟨4, y⟩ = false ∧
      getB s.board ⟨1, y⟩ = none ∧ getB s.board ⟨2, y⟩ = none ∧
      getB s.board ⟨3, y⟩ = none ∧
      memB (attackSideL s) ⟨2, y⟩ = false ∧ memB (attackSideL s) ⟨3, y⟩ = false) := by
  have hlk : getB s.board ⟨4, y⟩ = some (.King s.to_move) :=
    lookupA_eq_some_of_mem hnd hky
  have hgk : getK (collect_kings s.board) s.to_move = some ⟨4, y⟩ := by
    rw [getK_collect_kings]
    exact lastKing_unique hky
      (fun q hq => countKings_unique (hcnt s.to_move) hq hky)
  obtain ⟨m1, m2, h1, h2, h3⟩ := generate_moves_decomp hg
  have hexcl : ∀ d : Position, (d.x - 4).natAbs = 2 → inMoves m ⟨4, y⟩ d →
      CastleAdded s ⟨4, y⟩ d := by
    intro d hdx hmv
    rcases generate_moves_sound hg hmv with hN | hE | hC
    · exfalso
      obtain ⟨pt, hmem, -, hdm, -⟩ := hN
      have hko := normal_king_dest hlk hdm
      have hx4 : ((⟨4, y⟩ : Position)).x = 4 := rfl
      omega
    · exfalso
      obtain ⟨t, pc, -, -, -, -, ⟨pc2, hpo⟩, -⟩ := hE
      rw [hlk] at hpo
      cases Option.some.inj hpo
    · exact hC
  constructor
  · constructor
    · intro hmm2
      have hca := hexcl ⟨6, y⟩ (by norm_num) (memMovesO_iff_inMoves.1 hmm2)
      obtain ⟨cst, kp, hc, hk, ho, hkatt, hcase⟩ := hca
      have hkp : kp = (⟨4, y⟩ : Position) := ho.symm
      subst hkp
      rcases hcase with ⟨hks, hd, he6, he5, ha6, ha5⟩ | ⟨hqs, hd, -⟩
      · exact ⟨⟨cst, hc, hks⟩, hkatt, he5, he6, ha5, ha6⟩
      · exfalso
        have hxx : (6 : Int) = 2 := congrArg Position.x hd
        norm_num at hxx
    · rintro ⟨⟨cst, hc, hks⟩, hatt4, he5, he6, ha5, ha6⟩
      apply memMovesO_iff_inMoves.2
      apply (generate_castling_moves_char h3).2
      exact Or.inr ⟨cst, ⟨4, y⟩, hc, hgk, rfl, hatt4,
        Or.inl ⟨hks, rfl, he6, he5, ha6, ha5⟩⟩
  · constructor
    · intro hmm2
      have hca := hexcl ⟨2, y⟩ (by norm_num) (memMovesO_iff_inMoves.1 hmm2)
      obtain ⟨cst, kp, hc, hk, ho, hkatt, hcase⟩ := hca
      have hkp : kp = (⟨4, y⟩ : Position) := ho.symm
      subst hkp
      rcases hcase with ⟨hks, hd, -⟩ | ⟨hqs, hd, he1, he2, he3, ha2, ha3⟩
      · exfalso
        have hxx : (2 : Int) = 6 := congrArg Position.x hd
        norm_num at hxx
      · exact ⟨⟨cst, hc, hqs⟩, hkatt, he1, he2, he3, ha2, ha3⟩
    · rintro ⟨⟨cst, hc, hqs⟩, hatt4, he1, he2, he3, ha2, ha3⟩
      apply memMovesO_iff_inMoves.2
      apply (generate_castling_moves_char h3).2
      exact Or.inr ⟨cst, ⟨4, y⟩, hc, hgk, rfl, hatt4,
        Or.inr ⟨hqs, rfl, he1, he2, he3, ha2, ha3⟩⟩

/-! ### Claim theorems, witnesses and counterexamples -/

/-- C1 (amended): in every reachable state with both kings present, every
move of the map returned by `generate_moves` passes the claim's simulation,
where a move of en passant shape is simulated with the captured pawn also
removed (`claimSim`), and every other move by plain remove-at-origin /
place-at-destination. -/
theorem C1_generated_moves_pass_claim_sim {s : GameData} (hreach : Reachable s)
    (hbk : bothKingsB s = true) {o d : Position}
    (hmm : memMovesO (generate_moves s) o d = true) :
    claimSim s o d = some true :=
  legal_move_sim_safe hreach hmm

/-- C1 witness: the initial double-step a2-a3 move passes the simulation. -/
theorem C1_witness_initial_pawn_push :
    claimSim default_game_data ⟨0, 1⟩ ⟨0, 2⟩ = some true :=
  C1_generated_moves_pass_claim_sim Reachable.init (by decide) (by decide)

set_option maxHeartbeats 4000000 in
/-- C1 counterexample: in the reachable position after
`1. f4 a6 2. Kf2 a5 3. f5 h6 4. Kf3 h5 5. Kf4 e5+`, the generated en passant
capture `f5xe6` fails the plain remove-at-origin/place-at-destination
simulation (the claim's literal reading), though it passes the
captured-pawn-aware one. -/
theorem C1_counterexample_plain_sim_fails :
    Reachable c1s10 ∧ bothKingsB c1s10 = true ∧
    memMovesO (generate_moves c1s10) ⟨5, 4⟩ ⟨4, 5⟩ = true ∧
    epShape c1s10 ⟨5, 4⟩ ⟨4, 5⟩ = true ∧
    try_make_move c1s10 ⟨5, 4⟩ ⟨4, 5⟩ = some false ∧
    claimSim c1s10 ⟨5, 4⟩ ⟨4, 5⟩ = some true := by
  refine ⟨?_, by decide, by decide, by decide, by decide, by decide⟩
  have e1 : postprocess_move default_game_data ⟨5, 1⟩ ⟨5, 3⟩ =
      some (c1s1, none) := rfl
  have e2 : postprocess_move c1s1 ⟨0, 6⟩ ⟨0, 5⟩ =
      some (c1s2, none) := rfl
  have e3 : postprocess_move c1s2 ⟨4, 0⟩ ⟨5, 1⟩ =
      some (c1s3, none) := rfl
  have e4 : postprocess_move c1s3 ⟨0, 5⟩ ⟨0, 4⟩ =
      some (c1s4, none) := rfl
  have e5 : postprocess_move c1s4 ⟨5, 3⟩ ⟨5, 4⟩ =
      some (c1s5, none) := rfl
  have e6 : postprocess_move c1s5 ⟨7, 6⟩ ⟨7, 5⟩ =
      some (c1s6, none) := rfl
  have e7 : postprocess_move c1s6 ⟨5, 1⟩ ⟨5, 2⟩ =
      some (c1s7, none) := rfl
  have e8 : postprocess_move c1s7 ⟨7, 5⟩ ⟨7, 4⟩ =
      some (c1s8, none) := rfl
  have e9 : postprocess_move c1s8 ⟨5, 2⟩ ⟨5, 3⟩ =
      some (c1s9, none) := rfl
  have e10 : postprocess_move c1s9 ⟨4, 6⟩ ⟨4, 4⟩ =
      some (c1s10, none) := rfl
  exact Reachable.step (Reachable.step (Reachable.step (Reachable.step
    (Reachable.step (Reachable.step (Reachable.step (Reachable.step
      (Reachable.step (Reachable.step Reachable.init (by decide) e1)
        (by decide) e2) (by decide) e3) (by decide) e4) (by decide) e5)
          (by decide) e6) (by decide) e7) (by decide) e8) (by decide) e9)
            (by decide) e10

/-- C2 (code bug): with White to move and the en passant target held by a
Black pawn, the en passant generator adds a move keyed at the adjacent Black
pawn: the shadowed `opposite` binding means the candidate pawn's color is
never compared with the side to move. -/
theorem C2_en_passant_opposing_key :
    c2s.to_move = PieceColor.White ∧
    c2s.moved_2_squares = some ⟨4, 4⟩ ∧
    getB c2s.board ⟨4, 4⟩ = some (.Pawn .Black) ∧
    getB c2s.board ⟨3, 4⟩ = some (.Pawn .Black) ∧
    memMovesO (generate_moves c2s) ⟨3, 4⟩ ⟨4, 5⟩ = true := by decide

/-- C3 (code bug): a pawn double step played while the previous en passant
target is still set does not record the new target (`else if` chain), though
the claim requires it regardless of the old value. -/
theorem C3_double_step_target_dropped :
    getB c3s.board ⟨3, 1⟩ = some (.Pawn .White) ∧
    c3s.moved_2_squares = some ⟨0, 4⟩ ∧
    ((1 : Int) - 3).natAbs = 2 ∧
    (0 : Int) ≠ 3 ∧
    (postprocess_move c3s ⟨3, 1⟩ ⟨3, 3⟩).map (fun r => r.1.moved_2_squares) =
      some none := by decide

/-- C4 (code bug): a rook moving from file 3 (neither 0 nor 7) clears the
king-side right, because the code's bare `else` treats every non-zero start
file as the king-side rook. -/
theorem C4_rook_any_file_clears_king_side :
    getB c4s.board ⟨3, 3⟩ = some (.Rook .White) ∧
    getC c4s.castling .White = some ⟨true, true⟩ ∧
    (3 : Int) ≠ 0 ∧ (3 : Int) ≠ 7 ∧
    (postprocess_move c4s ⟨3, 3⟩ ⟨3, 5⟩).map (fun r => getC r.1.castling .White) =
      some (some ⟨false, true⟩) := by decide

/-- C5 (amended): the attack squares of a pawn are exactly its two in-bounds
forward diagonals that do not hold a piece of the pawn's own color. -/
theorem C5_pawn_attack_squares {board : Board} {p : Position} {c : PieceColor}
    (hb : getB board p = some (.Pawn c)) (q : Position) :
    q ∈ generate_squares_under_attack_pawn board p [] ↔
      q ∈ pawnAttackPoints c p ∧ is_valid_chess_position q ∧
        ∀ piece, getB board q = some piece → piece.get_color ≠ c := by
  have hc := colorD_eq hb
  rw [mem_generate_squares_under_attack_pawn]
  simp only [List.not_mem_nil, false_or]
  rw [hc]
  exact Iff.rfl

/-- C5 witness: the empty forward diagonal of the counterexample pawn is
attacked. -/
theorem C5_witness_empty_diagonal :
    (⟨2, 2⟩ : Position) ∈ generate_squares_under_attack_pawn c5b ⟨1, 1⟩ [] :=
  (@C5_pawn_attack_squares c5b ⟨1, 1⟩ .White rfl ⟨2, 2⟩).2
    ⟨by decide, by decide, fun piece h => by cases h⟩

/-- C5 counterexample: the in-bounds forward diagonal holding a friendly
knight is not attacked, against the claim's "regardless of occupant". -/
theorem C5_counterexample_friendly_diagonal :
    getB c5b ⟨1, 1⟩ = some (.Pawn .White) ∧
    getB c5b ⟨0, 2⟩ = some (.Knight .White) ∧
    is_valid_chess_position (⟨0, 2⟩ : Position) ∧
    (⟨0, 2⟩ : Position) ∈ pawnAttackPoints .White ⟨1, 1⟩ ∧
    (⟨0, 2⟩ : Position) ∉ generate_squares_under_attack_pawn c5b ⟨1, 1⟩ [] := by
  decide

/-- C6 witness: in the bare kingside position the castling move to file 6 is
generated, by the backward direction of the characterization. -/
theorem C6_witness_kingside : memMovesO (some c6m) ⟨4, 0⟩ ⟨6, 0⟩ = true := by
  have hg : generate_moves c6s = some c6m := rfl
  exact (castling_move_iff hg
    (show (c6s.board.map Prod.fst).Nodup by decide)
    (fun c => by cases c <;> decide) (by decide)).1.2
    ⟨⟨⟨true, true⟩, rfl, rfl⟩, by decide, rfl, rfl, by decide, by decide⟩

/-- C7 witness: on the rook-and-pawn file the enemy pawn's square is attacked
and the square beyond it is not. -/
theorem C7_witness_rook_ray :
    rayPos ⟨0, 0⟩ (0, 1) 3 ∈ generate_squares_under_attack_for_position c7b ⟨0, 0⟩ [] ∧
    rayPos ⟨0, 0⟩ (0, 1) 5 ∉ generate_squares_under_attack_for_position c7b ⟨0, 0⟩ [] := by
  have hval : ∀ j : Nat, 1 ≤ j → j ≤ 3 →
      is_valid_chess_position (rayPos ⟨0, 0⟩ (0, 1) j) := by
    intro j h1 h2
    interval_cases j <;> decide
  have hemp : ∀ j : Nat, 1 ≤ j → j < 3 →
      getB c7b (rayPos ⟨0, 0⟩ (0, 1) j) = none := by
    intro j h1 h2
    interval_cases j <;> decide
  have h := @sliding_ray_attack c7b ⟨0, 0⟩ (.Rook .White) rfl (0, 1) (by decide)
    (by decide) 3 (by decide) hval hemp
  exact ⟨h.2.1 (.Pawn .Black) rfl (by decide),
    h.2.2.2 (.Pawn .Black) rfl 5 (by decide)⟩

/-- C8: committing a move from an empty origin is the modelled panic (`none`),
and the legality check on a board with no king of the given side is the
modelled panic of the king lookup; neither returns a recoverable value. -/
theorem C8_fatal_unwraps :
    (∀ (s : GameData) (o d : Position), getB s.board o = none →
      postprocess_move s o d = none) ∧
    (∀ (c : PieceColor) (b : Board), (∀ p, (p, PieceType.King c) ∉ b) →
      verify_board c b = none) := by
  constructor
  · intro s o d h
    exact postprocess_move_none h
  · intro c b h
    unfold verify_board
    rw [getK_collect_kings, lastKing_eq_none_iff.2 h]

/-- C8 witness: an empty origin square of the initial position, and the empty
board. -/
theorem C8_witness_concrete :
    postprocess_move default_game_data ⟨4, 4⟩ ⟨5, 5⟩ = none ∧
    verify_board PieceColor.White [] = none :=
  ⟨C8_fatal_unwraps.1 default_game_data ⟨4, 4⟩ ⟨5, 5⟩ (by decide),
   C8_fatal_unwraps.2 PieceColor.White [] (fun p hp => by cases hp)⟩

/-- C9 witness: the rook move of `c9s` keeps the pawn's double-step
eligibility, by the monotonicity theorem. -/
theorem C9_witness_can_move_kept : (⟨0, 1⟩ : Position) ∈ c9s.can_move_2_squares := by
  have h : postprocess_move c9s ⟨3, 3⟩ ⟨3, 5⟩ =
      some (stepGD c9s ⟨3, 3⟩ ⟨3, 5⟩, prGD c9s ⟨3, 3⟩ ⟨3, 5⟩) := rfl
  exact (postprocess_monotone h).2 ⟨0, 1⟩ (by decide)

/-- C10 witness: the two-file king move of `c10s` empties the origin, places
the king on the destination, and leaves an unrelated square untouched. -/
theorem C10_witness_frame :
    getB (stepGD c10s ⟨1, 0⟩ ⟨3, 0⟩).board ⟨1, 0⟩ = none ∧
    getB (stepGD c10s ⟨1, 0⟩ ⟨3, 0⟩).board ⟨3, 0⟩ = getB c10s.board ⟨1, 0⟩ ∧
    getB (stepGD c10s ⟨1, 0⟩ ⟨3, 0⟩).board ⟨5, 5⟩ = getB c10s.board ⟨5, 5⟩ := by
  have h : postprocess_move c10s ⟨1, 0⟩ ⟨3, 0⟩ =
      some (stepGD c10s ⟨1, 0⟩ ⟨3, 0⟩, prGD c10s ⟨1, 0⟩ ⟨3, 0⟩) := rfl
  obtain ⟨h1, h2, h3⟩ := postprocess_frame h (by decide)
  exact ⟨h1, h2, h3 ⟨5, 5⟩ (by decide)⟩

/-- C10 counterexample: for the king move (1,0) to (3,0) the relocated piece
comes from file 0 (as the claim says) but lands on file 4 = destination + 1,
not on the square adjacent on the side the king came from (file 2); the
square (4,0), outside the claim's changed set, changes from empty to a rook. -/
theorem C10_counterexample_rook_landing :
    getB c10s.board ⟨1, 0⟩ = some (.King .White) ∧
    getB c10s.board ⟨0, 0⟩ = some (.Rook .White) ∧
    getB c10s.board ⟨4, 0⟩ = none ∧
    (⟨4, 0⟩ : Position) ∉ ([⟨1, 0⟩, ⟨3, 0⟩, ⟨0, 0⟩, ⟨2, 0⟩] : List Position) ∧
    (postprocess_move c10s ⟨1, 0⟩ ⟨3, 0⟩).map (fun r => getB r.1.board ⟨4, 0⟩) =
      some (some (.Rook .White)) := by decide
